import Mathlib

/-!
# Scene construction of the path tracer: BVH builder, scene parser, mesh ingestion

A shallow embedding of `src/scene.cpp`.

* `float` values are rationals.  The builder compares and takes minima and maxima, which
  is exact on NaN-free floats; its one subtraction, in `maxExtent`, only selects an axis.
* `std::vector` is `List`; an `int` index or count is a natural number (every such value
  stays between 0 and twice the size of the vector it indexes, taken to fit an `int`), and
  the fields of a node and the triangle range of an instance, which can hold -1, are
  integers.  The `uint32_t` counters of `loadFromJSON` and the `unsigned int` subscripts
  of `setVertex` wrap at `2 ^ 32`.
* `scene.h` / `sceneStructs.h` are not part of the source.  What `scene.cpp` needs from
  them and the text does not fix (the default `AABB`, the centroid computed by the
  constructor of `PrimitiveInfo`, the default `BVHNode`) is a field of `Decls`, together
  with the contract of `std::sort`; the default `Geom` is an argument of `loadFromJSON`.
* The camera block takes its number type, a field, with `tan`, `atan` and `PI` as arguments
  (`CMath`); the statements about it are at the reals.
* Recursion of `buildBVHRecursive` is bounded by a fuel argument; `none` means that the
  fuel ran out.  The texel loop of `loadFromGltf` runs on the fuel `image.image.size()`,
  which it exceeds only when it does not terminate.
-/

namespace Scene

/-! ## Geometric primitives -/

/-- Three floats, as `glm::vec3`. -/
structure Vec3 where
  x : ℚ
  y : ℚ
  z : ℚ
deriving DecidableEq, Repr

/-- Two floats, as `glm::vec2`. -/
structure Vec2 where
  x : ℚ
  y : ℚ
deriving DecidableEq, Repr

/-- Component access `v[dim]` of a `glm::vec3`. -/
def Vec3.get (v : Vec3) (dim : Nat) : ℚ :=
  if dim = 0 then v.x else if dim = 1 then v.y else v.z

/-- Component-wise minimum, as `glm::min`. -/
def Vec3.cmin (a b : Vec3) : Vec3 := ⟨Min.min a.x b.x, Min.min a.y b.y, Min.min a.z b.z⟩

/-- Component-wise maximum, as `glm::max`. -/
def Vec3.cmax (a b : Vec3) : Vec3 := ⟨Max.max a.x b.x, Max.max a.y b.y, Max.max a.z b.z⟩

/-- A vertex of a triangle. -/
structure Vertex where
  position : Vec3
  normal : Vec3
  uv : Vec2
deriving DecidableEq, Repr

/-- A triangle of the global array `meshTris`. -/
structure Triangle where
  v0 : Vertex
  v1 : Vertex
  v2 : Vertex
deriving DecidableEq, Repr

/-- Modelled from the spec: the axis-aligned box of `sceneStructs.h` ("min/max corner;
supports expansion by a point or another AABB"). -/
structure AABB where
  min : Vec3
  max : Vec3
deriving DecidableEq, Repr

/-- Modelled from the spec: `AABB::expand(const glm::vec3&)`, expansion by a point. -/
def AABB.expandPoint (b : AABB) (p : Vec3) : AABB := ⟨b.min.cmin p, b.max.cmax p⟩

/-- Modelled from the spec: `AABB::expand(const AABB&)`, expansion by another box (the union
of the two boxes). -/
def AABB.expand (b o : AABB) : AABB := ⟨b.min.cmin o.min, b.max.cmax o.max⟩

/-- Modelled from the spec: `AABB::maxExtent()`, "the axis along which (max−min) is
largest". -/
def AABB.maxExtent (b : AABB) : Nat :=
  let dx := b.max.x - b.min.x
  let dy := b.max.y - b.min.y
  let dz := b.max.z - b.min.z
  if dx > dy ∧ dx > dz then 0 else if dy > dz then 1 else 2

/-- The point `p` lies between the two corners of `b` on every axis. -/
def AABB.Contains (b : AABB) (p : Vec3) : Prop :=
  (b.min.x ≤ p.x ∧ p.x ≤ b.max.x) ∧ (b.min.y ≤ p.y ∧ p.y ≤ b.max.y) ∧
    (b.min.z ≤ p.z ∧ p.z ≤ b.max.z)

/-- The record the builder keeps per triangle: its index in `meshTris`, its box, its
centroid. -/
structure PrimitiveInfo where
  index : Nat
  bbox : AABB
  centroid : Vec3
deriving DecidableEq, Repr

/-- A node of the flattened hierarchy. -/
structure BVHNode where
  bbox : AABB
  isLeaf : Bool
  start : Int
  range : Int
  left : Int
  right : Int
deriving DecidableEq, Repr

/-- What `scene.cpp` takes from declarations outside the source, and from `std::sort`.
`sort dim l` is `std::sort` of `l` with the comparator `a.centroid[dim] < b.centroid[dim]`:
some rearrangement of `l` that is in order for the comparator. -/
structure Decls where
  emptyBox : AABB
  centroidOf : Nat → AABB → Vec3
  defaultNode : BVHNode
  sort : Nat → List PrimitiveInfo → List PrimitiveInfo
  sort_perm : ∀ dim l, (sort dim l).Perm l
  sort_sorted : ∀ dim l,
    (sort dim l).Pairwise (fun a b => a.centroid.get dim ≤ b.centroid.get dim)

/-! ## BVH builder -/

/-- The value of `std::vector::resize(n)` on `l`, new slots holding `d`. -/
def resize {α : Type} (l : List α) (n : Nat) (d : α) : List α :=
  l.take n ++ List.replicate (n - l.length) d

/-- A write through the reference `node = flattenedBVH[i]`. -/
def modifyNode (nodes : List BVHNode) (i : Nat) (f : BVHNode → BVHNode) : List BVHNode :=
  match nodes[i]? with
  | some n => nodes.set i (f n)
  | none => nodes

/-- The elements at positions `start, ..., end_ - 1`. -/
def slice {α : Type} (l : List α) (start end_ : Nat) : List α :=
  (l.drop start).take (end_ - start)

/-- The loop `for i in [start, end_): bbox.expand(primInfos[i].bbox)` from a default box. -/
def rangeBox (D : Decls) (l : List PrimitiveInfo) : AABB :=
  l.foldl (fun b p => b.expand p.bbox) D.emptyBox

/-- The loop `for i in [start, end_): centroidBBox.expand(primInfos[i].centroid)`. -/
def centroidBox (D : Decls) (l : List PrimitiveInfo) : AABB :=
  l.foldl (fun b p => b.expandPoint p.centroid) D.emptyBox

/-- The call `std::sort(primInfos.begin() + start, primInfos.begin() + end_, cmp)`. -/
def sortRange (D : Decls) (dim : Nat) (l : List PrimitiveInfo) (start end_ : Nat) :
    List PrimitiveInfo :=
  l.take start ++ D.sort dim (slice l start end_) ++ l.drop end_

/-- The variables `buildBVHRecursive` reads and writes besides its value arguments: the
local array `primInfos` of `buildBVH`, the member `flattenedBVH`, and the counter
`totalNodes` passed by reference. -/
structure BuildState where
  primInfos : List PrimitiveInfo
  flattenedBVH : List BVHNode
  totalNodes : Nat

/-- The growth branch at the head of `buildBVHRecursive`. -/
def grow (D : Decls) (nodes : List BVHNode) (currentIdx : Nat) : List BVHNode :=
  if currentIdx ≥ nodes.length then resize nodes (nodes.length * 2 + 1) D.defaultNode
  else nodes

/-- The function `Scene::buildBVHRecursive`.  The result is the new state and the returned
index `currentIdx`.  The reference `node` is the slot `currentIdx` of `flattenedBVH`: a write
through it after a recursive call is a write to that slot of the array as it is then, which
is what the source does as long as no recursive call has reallocated the array. -/
def buildBVHRecursive (D : Decls) :
    Nat → BuildState → Nat → Nat → Nat → Option (BuildState × Nat)
  | 0, _, _, _, _ => none
  | fuel + 1, st, start, end_, maxLeafSize =>
    let currentIdx := st.totalNodes
    let totalNodes := st.totalNodes + 1
    let nodes := grow D st.flattenedBVH currentIdx
    let bbox := rangeBox D (slice st.primInfos start end_)
    let nodes := modifyNode nodes currentIdx (fun n => { n with bbox := bbox })
    let numPrimitives := end_ - start
    if numPrimitives ≤ maxLeafSize then
      let nodes := modifyNode nodes currentIdx (fun n =>
        { n with isLeaf := true, start := (start : Int), range := (numPrimitives : Int),
                 left := -1, right := -1 })
      some (⟨st.primInfos, nodes, totalNodes⟩, currentIdx)
    else
      let dim := (centroidBox D (slice st.primInfos start end_)).maxExtent
      let prims := sortRange D dim st.primInfos start end_
      let mid := (start + end_) / 2
      let nodes := modifyNode nodes currentIdx (fun n => { n with isLeaf := false })
      match buildBVHRecursive D fuel ⟨prims, nodes, totalNodes⟩ start mid maxLeafSize with
      | none => none
      | some (st1, l) =>
        let nodes1 := modifyNode st1.flattenedBVH currentIdx (fun n => { n with left := (l : Int) })
        match buildBVHRecursive D fuel ⟨st1.primInfos, nodes1, st1.totalNodes⟩ mid end_
            maxLeafSize with
        | none => none
        | some (st2, r) =>
          let nodes2 := modifyNode st2.flattenedBVH currentIdx
            (fun n => { n with right := (r : Int) })
          some (⟨st2.primInfos, nodes2, st2.totalNodes⟩, currentIdx)

/-- The first loop of `buildBVH`: one `PrimitiveInfo` per triangle, with the box of its three
vertex positions; `i` is the index of the first triangle of `tris`. -/
def collectPrimInfos (D : Decls) : Nat → List Triangle → List PrimitiveInfo
  | _, [] => []
  | i, tri :: rest =>
    let bbox := ((D.emptyBox.expandPoint tri.v0.position).expandPoint
      tri.v1.position).expandPoint tri.v2.position
    ⟨i, bbox, D.centroidOf i bbox⟩ :: collectPrimInfos D (i + 1) rest

/-- The function `Scene::buildBVH`, with the leaf size (8 in the source) as an argument.  It
reads `meshTris`, writes `flattenedBVH`; the result is the new `flattenedBVH` and the final
local array `primInfos`. -/
def buildBVHWith (D : Decls) (fuel : Nat) (meshTris : List Triangle)
    (flattenedBVH : List BVHNode) (maxLeafSize : Nat) :
    Option (List BVHNode × List PrimitiveInfo) :=
  let primInfos := collectPrimInfos D 0 meshTris
  let estimatedNodes := 2 * meshTris.length
  let nodes := resize flattenedBVH estimatedNodes D.defaultNode
  match buildBVHRecursive D fuel ⟨primInfos, nodes, 0⟩ 0 primInfos.length maxLeafSize with
  | none => none
  | some (st, _) => some (resize st.flattenedBVH st.totalNodes D.defaultNode, st.primInfos)

/-- The function `Scene::buildBVH`. -/
def buildBVH (D : Decls) (fuel : Nat) (meshTris : List Triangle)
    (flattenedBVH : List BVHNode) : Option (List BVHNode × List PrimitiveInfo) :=
  buildBVHWith D fuel meshTris flattenedBVH 8

/-! ## Reading the flattened array -/

/-- The node indices met by the top-down traversal from `nodeIdx` (the recursion of
`deleteBVHRecursive`: nothing at -1, no descent below a leaf), parent before children, left
before right.  `none`: the fuel ran out, or an index is outside the array. -/
def preorder (nodes : List BVHNode) : Nat → Int → Option (List Nat)
  | 0, _ => none
  | fuel + 1, nodeIdx =>
    if nodeIdx = -1 then some []
    else if nodeIdx < 0 then none
    else
      match nodes[nodeIdx.toNat]? with
      | none => none
      | some node =>
        if node.isLeaf then some [nodeIdx.toNat]
        else
          match preorder nodes fuel node.left, preorder nodes fuel node.right with
          | some l, some r => some (nodeIdx.toNat :: (l ++ r))
          | _, _ => none

/-- The pair `(start, range)` of node `i` when it is a leaf. -/
def leafRange (nodes : List BVHNode) (i : Nat) : Option (Int × Int) :=
  match nodes[i]? with
  | some n => if n.isLeaf then some (n.start, n.range) else none
  | none => none

/-- The `(start, range)` pairs of the leaves among the nodes `visited`, in that order. -/
def leafRanges (nodes : List BVHNode) (visited : List Nat) : List (Int × Int) :=
  visited.filterMap (leafRange nodes)

/-- The ranges `[start, start + range)` of `ranges` follow one another from `lo` to `hi`:
each starts where the one before stops, the first at `lo`, and the last stops at `hi`. -/
def Tiles : List (Int × Int) → Int → Int → Prop
  | [], lo, hi => lo = hi
  | (s, r) :: rest, lo, hi => s = lo ∧ 0 ≤ r ∧ Tiles rest (lo + r) hi

/-- The positions of `primInfos` a leaf range denotes. -/
def positions (sr : Int × Int) : List Nat :=
  List.range' sr.1.toNat sr.2.toNat

/-! ## The tree behind the array -/

/-- The call tree of `buildBVHRecursive`: a leaf per call that takes the leaf branch, a node
per call that splits, each with the box the call stores. -/
inductive BTree where
  | leaf (bbox : AABB) (start range : Nat)
  | node (bbox : AABB) (l r : BTree)

/-- Number of calls in the tree. -/
def BTree.size : BTree → Nat
  | .leaf _ _ _ => 1
  | .node _ l r => 1 + l.size + r.size

/-- The box stored by the root call. -/
def BTree.bbox : BTree → AABB
  | .leaf b _ _ => b
  | .node b _ _ => b

/-- The leaf ranges from left to right. -/
def BTree.leaves : BTree → List (Int × Int)
  | .leaf _ s r => [((s : Int), (r : Int))]
  | .node _ l r => l.leaves ++ r.leaves

/-- The slots `i, ..., i + t.size - 1` of `nodes` hold the tree `t`, parent before
children, left subtree before right subtree. -/
def Flat (nodes : List BVHNode) : BTree → Nat → Prop
  | .leaf b s r, i => ∃ n, nodes[i]? = some n ∧ n.bbox = b ∧ n.isLeaf = true ∧
      n.start = (s : Int) ∧ n.range = (r : Int) ∧ n.left = -1 ∧ n.right = -1
  | .node b l r, i => ∃ n, nodes[i]? = some n ∧ n.bbox = b ∧ n.isLeaf = false ∧
      n.left = ((i + 1 : Nat) : Int) ∧ n.right = ((i + 1 + l.size : Nat) : Int) ∧
      Flat nodes l (i + 1) ∧ Flat nodes r (i + 1 + l.size)

/-- The tree `t` is the one built over the primitives `P`, which end up at positions
`lo, ..., lo + P.length - 1`: a leaf holds at most `maxLeafSize` of them, a split happens
above that and is at the middle position, every box is the box of the primitives below, and
along the chosen axis no centroid of the left half is beyond one of the right half. -/
def Good (D : Decls) (maxLeafSize : Nat) : List PrimitiveInfo → Nat → BTree → Prop
  | P, lo, .leaf b s r => s = lo ∧ r = P.length ∧ P.length ≤ maxLeafSize ∧ b = rangeBox D P
  | P, lo, .node b l r => maxLeafSize < P.length ∧ b = rangeBox D P ∧
      Good D maxLeafSize (P.take (P.length / 2)) lo l ∧
      Good D maxLeafSize (P.drop (P.length / 2)) (lo + P.length / 2) r ∧
      (∀ p ∈ P.take (P.length / 2), ∀ q ∈ P.drop (P.length / 2),
        p.centroid.get (centroidBox D P).maxExtent ≤
          q.centroid.get (centroidBox D P).maxExtent)

/-! ## Scene description and mesh assets -/

/-- The type tag of a geometry instance. -/
inductive GeomType where
  | SPHERE
  | CUBE
  | MESH
deriving DecidableEq, Repr

/-- A geometry instance.  The three matrices `transform`, `inverseTransform` and
`invTranspose` are left out: they are computed from `translation`, `rotation` and `scale` by
functions outside the source and nothing below reads them. -/
structure Geom where
  type : GeomType
  geometryid : Nat
  materialid : Nat
  translation : Vec3
  rotation : Vec3
  scale : Vec3
  startTriangleIndex : Int
  endTriangleIndex : Int
  hasNormals : Bool
  hasUVs : Bool
  hasAlbedo : Bool
  albedoTextureId : Int
deriving DecidableEq, Repr

/-- A material of the table `materials`. -/
structure Material where
  color : Vec3
  specularColor : Vec3
  hasReflective : ℚ
  hasRefractive : ℚ
  indexOfRefraction : ℚ
  emittance : ℚ
deriving DecidableEq, Repr

/-- Modelled from the spec: the value of `Material newMaterial{}` for the struct `Material`
of `sceneStructs.h`, every field zero ("reflective coefficient ... 0 otherwise"). -/
def Material.zero : Material := ⟨⟨0, 0, 0⟩, ⟨0, 0, 0⟩, 0, 0, 0, 0⟩

/-- The usage tag of a texture. -/
inductive TextureType where
  | AlbedoMap
  | SkyboxMap
deriving DecidableEq, Repr

/-- An entry of the list `textures`. -/
structure Texture where
  id : Nat
  width : Int
  height : Int
  numChannels : Nat
  type : TextureType
  startIdx : Int
  endIdx : Int
deriving DecidableEq, Repr

/-- The members of `Scene` that `loadFromJSON` and `loadFromGltf` write. -/
structure Members where
  materials : List Material
  geoms : List Geom
  meshTris : List Triangle
  textures : List Texture
  texturesData : List Vec3
deriving DecidableEq, Repr

/-- A freshly constructed `Scene`. -/
def Members.empty : Members := ⟨[], [], [], [], []⟩

/-- An entry of the section `Materials`: the fields that `loadFromJSON` reads. -/
structure MaterialJson where
  TYPE : String
  RGB : Vec3
  EMITTANCE : ℚ
  ROUGHNESS : ℚ
  SPECRGB : Vec3
  IOR : ℚ
deriving DecidableEq, Repr

/-- An entry of the sequence `Objects`: the fields that `loadFromJSON` reads. -/
structure ObjectJson where
  TYPE : String
  MATERIAL : String
  FILE : String
  TRANS : Vec3
  ROTAT : Vec3
  SCALE : Vec3
deriving DecidableEq, Repr

/-- The parsed scene document: `Materials` as its (name, entry) pairs in iteration order,
and `Objects`. -/
structure SceneJson where
  Materials : List (String × MaterialJson)
  Objects : List ObjectJson
deriving DecidableEq, Repr

/-- What an attribute accessor of a primitive resolves to: its element count and the floats
at `buffer.data + bufferView.byteOffset + accessor.byteOffset`. -/
structure GltfAccessor where
  count : Nat
  floats : List ℚ
deriving DecidableEq, Repr

/-- What the index accessor of a primitive resolves to: its component type, its count, and
the unsigned values stored in the buffer. -/
structure GltfIndices where
  componentType : Nat
  count : Nat
  values : List Nat
deriving DecidableEq, Repr

/-- A raster image of the asset: `component` channels per texel, `image` the bytes. -/
structure GltfImage where
  width : Int
  height : Int
  component : Nat
  image : List Nat
deriving DecidableEq, Repr

/-- A primitive of a mesh.  `indices` is `none` when `primitive.indices < 0`;
`baseColorImage` is the image of the base-color texture of the material of the primitive,
`none` when `primitive.material < 0` or the texture index is negative. -/
structure GltfPrimitive where
  attributes : List (String × GltfAccessor)
  indices : Option GltfIndices
  baseColorImage : Option GltfImage
deriving DecidableEq, Repr

/-- A mesh of the asset. -/
structure GltfMesh where
  primitives : List GltfPrimitive
deriving DecidableEq, Repr

/-- The asset as `tinygltf::Model` presents it to `loadFromGltf`. -/
structure GltfModel where
  meshes : List GltfMesh
deriving DecidableEq, Repr

/-- The constant `TINYGLTF_COMPONENT_TYPE_UNSIGNED_SHORT`. -/
def TINYGLTF_COMPONENT_TYPE_UNSIGNED_SHORT : Nat := 5123

/-- The constant `TINYGLTF_COMPONENT_TYPE_UNSIGNED_INT`. -/
def TINYGLTF_COMPONENT_TYPE_UNSIGNED_INT : Nat := 5125

/-- The local pointers and the count set by the attribute loop of one primitive; `none` is
`nullptr`. -/
structure AttrPointers where
  positions : Option (List ℚ)
  normals : Option (List ℚ)
  texcoords : Option (List ℚ)
  vertexCount : Nat

/-- The loop over `primitive.attributes`. -/
def readAttributes :
    List (String × GltfAccessor) → AttrPointers × Geom → AttrPointers × Geom
  | [], acc => acc
  | (name, accessor) :: rest, (ptrs, meshGeom) =>
    if name = "POSITION" then
      readAttributes rest
        ({ ptrs with positions := some accessor.floats, vertexCount := accessor.count },
          meshGeom)
    else if name = "NORMAL" then
      readAttributes rest
        ({ ptrs with normals := some accessor.floats }, { meshGeom with hasNormals := true })
    else if name = "TEXCOORD_0" then
      readAttributes rest
        ({ ptrs with texcoords := some accessor.floats }, { meshGeom with hasUVs := true })
    else readAttributes rest (ptrs, meshGeom)

/-- The vector `indices` of one primitive; `none` is the branch "Unsupported Indices
component", which skips the primitive.  The values of the index buffer are read in 16 or in
32 bits.  The loop that generates the indices counts in `unsigned int`; the vertex count is
taken to fit it. -/
def readIndices (indices : Option GltfIndices) (vertexCount : Nat) : Option (List Nat) :=
  match indices with
  | some accessor =>
    if accessor.componentType = TINYGLTF_COMPONENT_TYPE_UNSIGNED_SHORT then
      some ((List.range accessor.count).map (fun i => accessor.values.getD i 0 % 2 ^ 16))
    else if accessor.componentType = TINYGLTF_COMPONENT_TYPE_UNSIGNED_INT then
      some ((List.range accessor.count).map (fun i => accessor.values.getD i 0 % 2 ^ 32))
    else none
  | none => some (List.range vertexCount)

/-- The byte `image.image[i]` as a float. -/
def GltfImage.byte (image : GltfImage) (i : Nat) : ℚ := ((image.image.getD i 0 : Nat) : ℚ)

/-- The loop `for (i = 0; i < image.image.size(); i += image.component)` from index `i` on,
`data` being `texturesData`.  `none`: the fuel ran out. -/
def texelLoop (image : GltfImage) : Nat → Nat → List Vec3 → Option (List Vec3)
  | 0, i, data => if i < image.image.length then none else some data
  | fuel + 1, i, data =>
    if i < image.image.length then
      if image.component = 1 then
        texelLoop image fuel (i + image.component)
          (data ++ [⟨image.byte i, image.byte i, image.byte i⟩])
      else if image.component = 4 then
        texelLoop image fuel (i + image.component)
          (data ++ [⟨image.byte i / 255, image.byte (i + 1) / 255, image.byte (i + 2) / 255⟩])
      else texelLoop image fuel (i + image.component) data
    else some data

/-- The lambda `setVertex`: vertex number `idx` of the attribute arrays; `none` when
`positions` is the null pointer, which the source reads through.  The subscripts `idx * 3`,
`idx * 3 + 1`, ... are computed in `unsigned int` and wrap at `2 ^ 32`.  A read past the end
of an array has no defined value in the source; here it gives 0. -/
def setVertex (ptrs : AttrPointers) (idx : Nat) : Option Vertex :=
  match ptrs.positions with
  | none => none
  | some pos =>
    some
      { position := ⟨pos.getD (idx * 3 % 2 ^ 32) 0, pos.getD ((idx * 3 + 1) % 2 ^ 32) 0,
          pos.getD ((idx * 3 + 2) % 2 ^ 32) 0⟩,
        normal :=
          match ptrs.normals with
          | some n => ⟨n.getD (idx * 3 % 2 ^ 32) 0, n.getD ((idx * 3 + 1) % 2 ^ 32) 0,
              n.getD ((idx * 3 + 2) % 2 ^ 32) 0⟩
          | none => ⟨0, 0, 0⟩,
        uv :=
          match ptrs.texcoords with
          | some t => ⟨t.getD (idx * 2 % 2 ^ 32) 0, t.getD ((idx * 2 + 1) % 2 ^ 32) 0⟩
          | none => ⟨0, 0⟩ }

/-- The loop `for (i = 0; i + 2 < indices.size(); i += 3)`: one triangle per complete group
of three indices; `none` when a vertex cannot be read. -/
def makeTriangles (ptrs : AttrPointers) : List Nat → Option (List Triangle)
  | a :: b :: c :: rest =>
    match setVertex ptrs a, setVertex ptrs b, setVertex ptrs c, makeTriangles ptrs rest with
    | some v0, some v1, some v2, some tris => some (⟨v0, v1, v2⟩ :: tris)
    | _, _, _, _ => none
  | _ => some []

/-- The part "Add the texture to the material" of the body of the primitive loop. -/
def loadTexture (image : GltfImage) (s : Members) (meshGeom : Geom) :
    Option (Members × Geom) :=
  let texId := s.textures.length
  let startIdx := (s.texturesData.length : Int)
  let meshGeom := { meshGeom with albedoTextureId := (texId : Int), hasAlbedo := true }
  match texelLoop image image.image.length 0 s.texturesData with
  | none => none
  | some texturesData =>
    let tex : Texture :=
      ⟨texId, image.width, image.height, image.component, TextureType.AlbedoMap, startIdx,
        (texturesData.length : Int) - 1⟩
    some ({ s with texturesData := texturesData, textures := s.textures ++ [tex] }, meshGeom)

/-- The body of the loop over the primitives of a mesh. -/
def loadPrimitive (primitive : GltfPrimitive) (s : Members) (meshGeom : Geom) :
    Option (Members × Geom) :=
  let (ptrs, meshGeom) := readAttributes primitive.attributes (⟨none, none, none, 0⟩, meshGeom)
  match readIndices primitive.indices ptrs.vertexCount with
  | none => some (s, meshGeom)
  | some indices =>
    let textured :=
      match primitive.baseColorImage with
      | some image => loadTexture image s meshGeom
      | none => some (s, meshGeom)
    match textured, makeTriangles ptrs indices with
    | some (s, meshGeom), some tris =>
      some ({ s with meshTris := s.meshTris ++ tris }, meshGeom)
    | _, _ => none

/-- The loop over the primitives of a mesh. -/
def loadPrimitives : List GltfPrimitive → Members → Geom → Option (Members × Geom)
  | [], s, meshGeom => some (s, meshGeom)
  | primitive :: rest, s, meshGeom =>
    match loadPrimitive primitive s meshGeom with
    | none => none
    | some (s, meshGeom) => loadPrimitives rest s meshGeom

/-- The loop over the meshes of the asset. -/
def loadMeshes : List GltfMesh → Members → Geom → Option (Members × Geom)
  | [], s, meshGeom => some (s, meshGeom)
  | mesh :: rest, s, meshGeom =>
    match loadPrimitives mesh.primitives s meshGeom with
    | none => none
    | some (s, meshGeom) =>
      loadMeshes rest s
        { meshGeom with endTriangleIndex := (s.meshTris.length : Int) - 1 }

/-- The function `Scene::loadFromGltf`.  `assets gltfName` is what
`loader.LoadASCIIFromFile` delivers for the file of that name, `none` when it reports
failure.  The result is `none` when the call does not return: a texel loop does not
terminate, or a vertex is read through the null pointer. -/
def loadFromGltf (assets : String → Option GltfModel) (gltfName : String) (s : Members)
    (meshGeom : Geom) : Option (Members × Geom) :=
  match assets gltfName with
  | none => some (s, meshGeom)
  | some model =>
    loadMeshes model.meshes s
      { meshGeom with startTriangleIndex := (s.meshTris.length : Int) }

/-- The body of the loop over `Materials`: the material built from one entry. -/
def loadMaterial (p : MaterialJson) : Material :=
  let newMaterial := Material.zero
  if p.TYPE = "Diffuse" then { newMaterial with color := p.RGB }
  else if p.TYPE = "Emitting" then
    { newMaterial with color := p.RGB, emittance := p.EMITTANCE }
  else if p.TYPE = "Specular" then
    { newMaterial with color := p.RGB, hasReflective := 1 - p.ROUGHNESS,
                       specularColor := p.SPECRGB }
  else if p.TYPE = "Refractive" then
    { newMaterial with color := p.RGB, indexOfRefraction := p.IOR, hasRefractive := 1,
                       specularColor := p.SPECRGB }
  else newMaterial

/-- The loop over `Materials`: `MatNameToID[name] = materials.size()` (a `uint32_t`), then
`materials.emplace_back`.  The map is a list of pairs read from the front. -/
def loadMaterials :
    List (String × MaterialJson) → List (String × Nat) × List Material →
      List (String × Nat) × List Material
  | [], acc => acc
  | (name, p) :: rest, (MatNameToID, materials) =>
    loadMaterials rest
      ((name, materials.length % 2 ^ 32) :: MatNameToID, materials ++ [loadMaterial p])

/-- The read `MatNameToID[name]` of `std::unordered_map`: the value stored for `name`, and 0,
which is then stored, when there is none. -/
def mapIndex (MatNameToID : List (String × Nat)) (name : String) :
    List (String × Nat) × Nat :=
  match MatNameToID.lookup name with
  | some v => (MatNameToID, v)
  | none => ((name, 0) :: MatNameToID, 0)

/-- The dispatch on `TYPE` in the body of the loop over `Objects`: `none` is the branch
"Unknown object type" (`continue`); otherwise the state and the instance after the branch
taken, `some none` when the mesh ingestion does not return. -/
def classify (assets : String → Option GltfModel) (p : ObjectJson) (s : Members)
    (newGeom : Geom) : Option (Option (Members × Geom)) :=
  if p.TYPE = "cube" then some (some (s, { newGeom with type := GeomType.CUBE }))
  else if p.TYPE = "sphere" then some (some (s, { newGeom with type := GeomType.SPHERE }))
  else if p.TYPE = "mesh_gltf" then
    some (loadFromGltf assets p.FILE s { newGeom with type := GeomType.MESH })
  else none

/-- The loop over `Objects`; `gid` is the `uint32_t` counter, `newGeom` the value of the
declaration `Geom newGeom;`. -/
def loadObjects (assets : String → Option GltfModel) (newGeom : Geom) :
    List ObjectJson → List (String × Nat) → Nat → Members → Option Members
  | [], _, _, s => some s
  | p :: rest, MatNameToID, gid, s =>
    match classify assets p s { newGeom with geometryid := gid } with
    | none => loadObjects assets newGeom rest MatNameToID ((gid + 1) % 2 ^ 32) s
    | some none => none
    | some (some (s1, newGeom1)) =>
      loadObjects assets newGeom rest (mapIndex MatNameToID p.MATERIAL).1
        ((gid + 1) % 2 ^ 32)
        { s1 with geoms := s1.geoms ++
            [{ newGeom1 with materialid := (mapIndex MatNameToID p.MATERIAL).2,
                             translation := p.TRANS, rotation := p.ROTAT,
                             scale := p.SCALE }] }

/-- The function `Scene::loadFromJSON` up to the end of the loop over `Objects` (the camera
block after it writes `state` only). -/
def loadFromJSON (assets : String → Option GltfModel) (newGeom : Geom) (data : SceneJson)
    (s : Members) : Option Members :=
  let (MatNameToID, materials) := loadMaterials data.Materials ([], s.materials)
  loadObjects assets newGeom data.Objects MatNameToID 0 { s with materials := materials }

/-- The primitive has what the source relies on: a `POSITION` attribute, and a channel count
other than 0 for a base-color image with data. -/
def GltfPrimitive.WellFormed (primitive : GltfPrimitive) : Prop :=
  (∃ accessor, ("POSITION", accessor) ∈ primitive.attributes) ∧
    ∀ image, primitive.baseColorImage = some image → image.image ≠ [] → image.component ≠ 0

/-- Every primitive of the asset is well formed: on such an asset `loadFromGltf` returns. -/
def GltfModel.WellFormed (model : GltfModel) : Prop :=
  ∀ mesh ∈ model.meshes, ∀ primitive ∈ mesh.primitives, primitive.WellFormed

/-! ## Camera -/

/-- The functions `tan` and `atan` and the constant `PI` that the camera block of
`loadFromJSON` uses, over the number type `α`. -/
structure CMath (α : Type) where
  tan : α → α
  atan : α → α
  PI : α

/-- The fields of `Camera` that the camera block computes from `RES` and `FOVY`. -/
structure CameraFov (α : Type) where
  resolution : Int × Int
  fov : α × α
  pixelLength : α × α

/-- The camera block of `Scene::loadFromJSON`, for the fields `resolution`, `fov` and
`pixelLength`.  The vector fields are left out: `position`, `lookAt` and `up` are copies of
the document, and `right` is computed from `view` before `view` is assigned. -/
def loadCamera {α : Type} [Field α] (m : CMath α) (RES : Int × Int) (FOVY : α) :
    CameraFov α :=
  let fovy := FOVY
  let yscaled := m.tan (fovy * (m.PI / 180))
  let xscaled := (yscaled * (RES.1 : α)) / (RES.2 : α)
  let fovx := (m.atan xscaled * 180) / m.PI
  ⟨RES, (fovx, fovy), (2 * xscaled / (RES.1 : α), 2 * yscaled / (RES.2 : α))⟩

/-! ## `buildBVH` on the members of the scene -/

/-- The function `Scene::buildBVH` as a change of the scene: `s` holds the members other
than `flattenedBVH`, of which `buildBVH` reads `meshTris` and writes none.  The result is
the members, the new `flattenedBVH`, and the final local array `primInfos`. -/
def buildBVHScene (D : Decls) (fuel : Nat) (s : Members) (flattenedBVH : List BVHNode)
    (maxLeafSize : Nat) : Option (Members × List BVHNode × List PrimitiveInfo) :=
  match buildBVHWith D fuel s.meshTris flattenedBVH maxLeafSize with
  | none => none
  | some (nodes, primInfos) => some (s, nodes, primInfos)

/-! ## A concrete instance -/

/-- The largest finite `float`. -/
def FLT_MAX : ℚ := 340282346638528859811704183484516925440

/-- The order that `std::sort` is given: `a.centroid[dim] <= b.centroid[dim]`. -/
def centroidLe (dim : Nat) (a b : PrimitiveInfo) : Prop :=
  a.centroid.get dim ≤ b.centroid.get dim

instance centroidLe.decidable (dim : Nat) : DecidableRel (centroidLe dim) :=
  fun a b => inferInstanceAs (Decidable (a.centroid.get dim ≤ b.centroid.get dim))

instance centroidLe.total (dim : Nat) : IsTotal PrimitiveInfo (centroidLe dim) :=
  ⟨fun a b => le_total (a.centroid.get dim) (b.centroid.get dim)⟩

instance centroidLe.trans (dim : Nat) : IsTrans PrimitiveInfo (centroidLe dim) :=
  ⟨fun _ _ _ h₁ h₂ => le_trans h₁ h₂⟩

/-- One choice of the outside declarations: the empty box has its corners at `FLT_MAX` and
`-FLT_MAX`, the centroid of a primitive is the centre of its box, a fresh node has no
children, and the sort is an insertion sort. -/
def refDecls : Decls where
  emptyBox := ⟨⟨FLT_MAX, FLT_MAX, FLT_MAX⟩, ⟨-FLT_MAX, -FLT_MAX, -FLT_MAX⟩⟩
  centroidOf := fun _ b =>
    ⟨(b.min.x + b.max.x) / 2, (b.min.y + b.max.y) / 2, (b.min.z + b.max.z) / 2⟩
  defaultNode := ⟨⟨⟨0, 0, 0⟩, ⟨0, 0, 0⟩⟩, false, 0, 0, -1, -1⟩
  sort := fun dim l => l.insertionSort (centroidLe dim)
  sort_perm := fun dim l => List.perm_insertionSort (centroidLe dim) l
  sort_sorted := fun dim l => List.sorted_insertionSort (centroidLe dim) l

/-- A triangle in the plane `z = 0` with a corner at `(x, 0, 0)`. -/
def sampleTriangle (x : ℚ) : Triangle :=
  ⟨⟨⟨x, 0, 0⟩, ⟨0, 0, 1⟩, ⟨0, 0⟩⟩, ⟨⟨x + 1, 0, 0⟩, ⟨0, 0, 1⟩, ⟨1, 0⟩⟩,
    ⟨⟨x, 1, 0⟩, ⟨0, 0, 1⟩, ⟨0, 1⟩⟩⟩

/-- Three triangles along the x axis, not in order. -/
def sampleTris : List Triangle := [sampleTriangle 0, sampleTriangle 5, sampleTriangle 2]

/-- The state `s'` differs from `s` by triangles appended to `meshTris`, and possibly in
the texture arrays; `materials` and `geoms` are the same. -/
def Extends (s s' : Members) : Prop :=
  (∃ added, s'.meshTris = s.meshTris ++ added) ∧ s'.materials = s.materials ∧
    s'.geoms = s.geoms

/-- The instance `g'` has the identifier and the triangle range of `g`. -/
def KeepsRange (g g' : Geom) : Prop :=
  g'.geometryid = g.geometryid ∧ g'.startTriangleIndex = g.startTriangleIndex ∧
    g'.endTriangleIndex = g.endTriangleIndex

/-- The object types that `loadFromJSON` classifies. -/
def recognized (type : String) : Bool :=
  type = "cube" || type = "sphere" || type = "mesh_gltf"

/-- A value for the declaration `Geom newGeom;`. -/
def sampleGeom : Geom :=
  ⟨GeomType.CUBE, 0, 0, ⟨0, 0, 0⟩, ⟨0, 0, 0⟩, ⟨1, 1, 1⟩, 0, 0, false, false, false, 0⟩

/-- No mesh asset can be loaded. -/
def noAssets : String → Option GltfModel := fun _ => none

/-- An object of the given type with material `material`, at the origin. -/
def sampleObject (type material : String) : ObjectJson :=
  ⟨type, material, "asset", ⟨0, 0, 0⟩, ⟨0, 0, 0⟩, ⟨1, 1, 1⟩⟩

/-- A diffuse white material entry. -/
def sampleMaterial : MaterialJson := ⟨"Diffuse", ⟨1, 1, 1⟩, 0, 0, ⟨0, 0, 0⟩, 0⟩

/-- A primitive of one triangle, without indices, with the given base-color image. -/
def samplePrimitive (image : Option GltfImage) : GltfPrimitive :=
  ⟨[("POSITION", ⟨3, [0, 0, 0, 1, 0, 0, 0, 1, 0]⟩)], none, image⟩

/-- An asset of one mesh with one primitive whose base-color image is a single RGB texel:
three channels. -/
def rgbModel : GltfModel := ⟨[⟨[samplePrimitive (some ⟨1, 1, 3, [10, 20, 30]⟩)]⟩]⟩

/-- An asset of two meshes, the first with two primitives, without textures. -/
def twoMeshModel : GltfModel :=
  ⟨[⟨[samplePrimitive none, samplePrimitive none]⟩, ⟨[samplePrimitive none]⟩]⟩

/-- The vertex `v` is vertex number `i` of the attribute arrays: its position is the triple
number `i` of `pos`, its normal the triple number `i` of the normals when there are normals
and the zero vector when there are none, its UV the pair number `i` of the texture
coordinates when there are some and the zero vector when there are none. -/
def IsVertex (ptrs : AttrPointers) (pos : List ℚ) (i : Nat) (v : Vertex) : Prop :=
  v.position = ⟨pos.getD (i * 3) 0, pos.getD (i * 3 + 1) 0, pos.getD (i * 3 + 2) 0⟩ ∧
  (∀ n, ptrs.normals = some n →
    v.normal = ⟨n.getD (i * 3) 0, n.getD (i * 3 + 1) 0, n.getD (i * 3 + 2) 0⟩) ∧
  (ptrs.normals = none → v.normal = ⟨0, 0, 0⟩) ∧
  (∀ t, ptrs.texcoords = some t → v.uv = ⟨t.getD (i * 2) 0, t.getD (i * 2 + 1) 0⟩) ∧
  (ptrs.texcoords = none → v.uv = ⟨0, 0⟩)

/-- A specular material entry with the given roughness. -/
def specularMaterial (roughness : ℚ) : MaterialJson :=
  ⟨"Specular", ⟨1, 1, 1⟩, 0, roughness, ⟨1, 1, 1⟩, 0⟩

/-- An asset of one mesh with one primitive whose base-color image is a single gray texel
of value 200: one channel. -/
def grayModel : GltfModel := ⟨[⟨[samplePrimitive (some ⟨1, 1, 1, [200]⟩)]⟩]⟩

/-- A primitive of four vertices with normals, without texture coordinates, and with seven
16-bit indices: two triangles and one index left over. -/
def indexedPrimitive : GltfPrimitive :=
  ⟨[("NORMAL", ⟨4, [0, 0, 1, 0, 0, 1, 0, 0, 1, 0, 0, 1]⟩),
    ("POSITION", ⟨4, [0, 0, 0, 1, 0, 0, 1, 1, 0, 0, 1, 0]⟩)],
    some ⟨TINYGLTF_COMPONENT_TYPE_UNSIGNED_SHORT, 7, [0, 1, 2, 0, 2, 3, 1]⟩, none⟩

/-- A position array of 1431655767 vertices: vertex 0 at (1, 2, 3), vertex 1 at (4, 5, 6),
the last vertex, number 1431655766, at (7, 8, 9), every other one at the origin.  The
position of the last vertex is at the subscripts `2 ^ 32 + 2`, `2 ^ 32 + 3`, `2 ^ 32 + 4`. -/
def wrapPositions : List ℚ :=
  [1, 2, 3, 4, 5, 6] ++ (List.replicate 4294967292 0 ++ [7, 8, 9])

/-- A primitive over the vertices of `wrapPositions` with three 32-bit indices, the first of
which names the last vertex. -/
def wrapPrimitive : GltfPrimitive :=
  ⟨[("POSITION", ⟨1431655767, wrapPositions⟩)],
    some ⟨TINYGLTF_COMPONENT_TYPE_UNSIGNED_INT, 3, [1431655766, 0, 0]⟩, none⟩

/-- The file `asset` loads, as the asset of two meshes; no other file does. -/
def oneAsset : String → Option GltfModel :=
  fun name => if name = "asset" then some twoMeshModel else none

/-- Slots that a call over `k` primitives uses at most. -/
def need (k : Nat) : Nat := if k = 0 then 1 else 2 * k - 1

/-! ## Lemmas on vectors and boxes -/

theorem length_resize {α : Type} (l : List α) (n : Nat) (d : α) :
    (resize l n d).length = n := by
  simp [resize]
  omega

theorem resize_of_le {α : Type} (l : List α) (n : Nat) (d : α) (h : n ≤ l.length) :
    resize l n d = l.take n := by
  simp [resize, Nat.sub_eq_zero_of_le h]

theorem length_modifyNode (nodes : List BVHNode) (i : Nat) (f : BVHNode → BVHNode) :
    (modifyNode nodes i f).length = nodes.length := by
  unfold modifyNode
  split <;> simp

theorem getElem?_modifyNode_ne (nodes : List BVHNode) (i j : Nat) (f : BVHNode → BVHNode)
    (h : i ≠ j) : (modifyNode nodes i f)[j]? = nodes[j]? := by
  unfold modifyNode
  split
  · exact List.getElem?_set_ne h
  · rfl

theorem getElem?_modifyNode_self (nodes : List BVHNode) (i : Nat) (f : BVHNode → BVHNode) :
    (modifyNode nodes i f)[i]? = (nodes[i]?).map f := by
  unfold modifyNode
  split
  · rename_i n hn
    have hlt : i < nodes.length := by
      by_contra hcon
      rw [List.getElem?_eq_none (Nat.le_of_not_lt hcon)] at hn
      cases hn
    rw [List.getElem?_set_self hlt, hn]
    rfl
  · rename_i hn
    rw [hn]
    rfl

theorem slice_append (A M C : List PrimitiveInfo) :
    slice (A ++ M ++ C) A.length (A.length + M.length) = M := by
  simp [slice, List.append_assoc, List.drop_left, List.take_left]

theorem Vec3.cmin_assoc (a b c : Vec3) : (a.cmin b).cmin c = a.cmin (b.cmin c) := by
  simp [Vec3.cmin, min_assoc]

theorem Vec3.cmax_assoc (a b c : Vec3) : (a.cmax b).cmax c = a.cmax (b.cmax c) := by
  simp [Vec3.cmax, max_assoc]

theorem Vec3.cmin_comm (a b : Vec3) : a.cmin b = b.cmin a := by
  simp [Vec3.cmin, min_comm]

theorem Vec3.cmax_comm (a b : Vec3) : a.cmax b = b.cmax a := by
  simp [Vec3.cmax, max_comm]

theorem Vec3.cmin_self (a : Vec3) : a.cmin a = a := by
  simp [Vec3.cmin]

theorem Vec3.cmax_self (a : Vec3) : a.cmax a = a := by
  simp [Vec3.cmax]

theorem AABB.expand_assoc (a b c : AABB) : (a.expand b).expand c = a.expand (b.expand c) := by
  simp [AABB.expand, Vec3.cmin_assoc, Vec3.cmax_assoc]

theorem AABB.expand_comm (a b : AABB) : a.expand b = b.expand a := by
  simp [AABB.expand, Vec3.cmin_comm a.min, Vec3.cmax_comm a.max]

theorem AABB.expand_self (a : AABB) : a.expand a = a := by
  simp [AABB.expand, Vec3.cmin_self, Vec3.cmax_self]

theorem AABB.expand_right_comm (a b c : AABB) :
    (a.expand b).expand c = (a.expand c).expand b := by
  rw [AABB.expand_assoc, AABB.expand_comm b c, ← AABB.expand_assoc]

theorem AABB.expandPoint_right_comm (a : AABB) (p q : Vec3) :
    (a.expandPoint p).expandPoint q = (a.expandPoint q).expandPoint p := by
  simp [AABB.expandPoint, Vec3.cmin_assoc, Vec3.cmax_assoc, Vec3.cmin_comm p,
    Vec3.cmax_comm p]

theorem foldl_expand_perm (e : AABB) {a b : List PrimitiveInfo} (h : a.Perm b) :
    a.foldl (fun b p => b.expand p.bbox) e = b.foldl (fun b p => b.expand p.bbox) e := by
  induction h generalizing e with
  | nil => rfl
  | cons y _ ih => simp only [List.foldl_cons]; exact ih _
  | swap y z l => simp only [List.foldl_cons]; rw [AABB.expand_right_comm]
  | trans _ _ ih₁ ih₂ => exact (ih₁ e).trans (ih₂ e)

theorem foldl_expandPoint_perm (e : AABB) {a b : List PrimitiveInfo} (h : a.Perm b) :
    a.foldl (fun b p => b.expandPoint p.centroid) e =
      b.foldl (fun b p => b.expandPoint p.centroid) e := by
  induction h generalizing e with
  | nil => rfl
  | cons y _ ih => simp only [List.foldl_cons]; exact ih _
  | swap y z l => simp only [List.foldl_cons]; rw [AABB.expandPoint_right_comm]
  | trans _ _ ih₁ ih₂ => exact (ih₁ e).trans (ih₂ e)

theorem rangeBox_perm (D : Decls) {l₁ l₂ : List PrimitiveInfo} (h : l₁.Perm l₂) :
    rangeBox D l₁ = rangeBox D l₂ :=
  foldl_expand_perm D.emptyBox h

theorem centroidBox_perm (D : Decls) {l₁ l₂ : List PrimitiveInfo} (h : l₁.Perm l₂) :
    centroidBox D l₁ = centroidBox D l₂ :=
  foldl_expandPoint_perm D.emptyBox h

theorem foldl_expand_left (l : List PrimitiveInfo) (b c : AABB) :
    (l.foldl (fun b p => b.expand p.bbox) b).expand c =
      l.foldl (fun b p => b.expand p.bbox) (b.expand c) := by
  induction l generalizing b with
  | nil => rfl
  | cons p l ih => simp only [List.foldl_cons]; rw [ih, AABB.expand_right_comm]

theorem foldl_expand_right (l : List PrimitiveInfo) (b e : AABB) :
    b.expand (l.foldl (fun b p => b.expand p.bbox) e) =
      l.foldl (fun b p => b.expand p.bbox) (b.expand e) := by
  induction l generalizing e with
  | nil => rfl
  | cons p l ih => simp only [List.foldl_cons]; rw [ih, AABB.expand_assoc]

/-- The box of a range is the union of the boxes of its two parts. -/
theorem rangeBox_append (D : Decls) (A B : List PrimitiveInfo) :
    rangeBox D (A ++ B) = (rangeBox D A).expand (rangeBox D B) := by
  unfold rangeBox
  rw [List.foldl_append, foldl_expand_right, foldl_expand_left, AABB.expand_self]

theorem AABB.contains_expand_left {b o : AABB} {p : Vec3} (h : b.Contains p) :
    (b.expand o).Contains p := by
  obtain ⟨⟨h1, h2⟩, ⟨h3, h4⟩, h5, h6⟩ := h
  simp only [AABB.Contains, AABB.expand, Vec3.cmin, Vec3.cmax]
  exact ⟨⟨(min_le_left _ _).trans h1, h2.trans (le_max_left _ _)⟩,
    ⟨(min_le_left _ _).trans h3, h4.trans (le_max_left _ _)⟩,
    (min_le_left _ _).trans h5, h6.trans (le_max_left _ _)⟩

theorem AABB.contains_expand_right {b o : AABB} {p : Vec3} (h : o.Contains p) :
    (b.expand o).Contains p := by
  rw [AABB.expand_comm]
  exact AABB.contains_expand_left h

theorem AABB.contains_expandPoint_self (b : AABB) (p : Vec3) :
    (b.expandPoint p).Contains p := by
  simp only [AABB.Contains, AABB.expandPoint, Vec3.cmin, Vec3.cmax]
  exact ⟨⟨min_le_right _ _, le_max_right _ _⟩, ⟨min_le_right _ _, le_max_right _ _⟩,
    min_le_right _ _, le_max_right _ _⟩

theorem AABB.contains_expandPoint {b : AABB} {p : Vec3} (q : Vec3) (h : b.Contains p) :
    (b.expandPoint q).Contains p := by
  obtain ⟨⟨h1, h2⟩, ⟨h3, h4⟩, h5, h6⟩ := h
  simp only [AABB.Contains, AABB.expandPoint, Vec3.cmin, Vec3.cmax]
  exact ⟨⟨(min_le_left _ _).trans h1, h2.trans (le_max_left _ _)⟩,
    ⟨(min_le_left _ _).trans h3, h4.trans (le_max_left _ _)⟩,
    (min_le_left _ _).trans h5, h6.trans (le_max_left _ _)⟩

theorem foldl_expand_contains (l : List PrimitiveInfo) (e : AABB) (p : Vec3)
    (h : e.Contains p) : (l.foldl (fun b q => b.expand q.bbox) e).Contains p := by
  induction l generalizing e with
  | nil => exact h
  | cons q l ih => exact ih _ (AABB.contains_expand_left h)

/-- The box of a range contains every point of the box of each of its primitives. -/
theorem rangeBox_contains (D : Decls) (l : List PrimitiveInfo) (q : PrimitiveInfo)
    (hq : q ∈ l) (p : Vec3) (h : q.bbox.Contains p) : (rangeBox D l).Contains p := by
  unfold rangeBox
  generalize D.emptyBox = e
  induction l generalizing e with
  | nil => cases hq
  | cons a l ih =>
    simp only [List.foldl_cons]
    rcases List.mem_cons.mp hq with rfl | hmem
    · exact foldl_expand_contains l _ p (AABB.contains_expand_right h)
    · exact ih hmem _

/-- A tree laid out in `nodes` is laid out in every array with the same slots there. -/
theorem Flat.frame {nodes nodes' : List BVHNode} :
    ∀ (t : BTree) (i : Nat), Flat nodes t i →
      (∀ j, i ≤ j → j < i + t.size → nodes'[j]? = nodes[j]?) → Flat nodes' t i
  | .leaf b s r, i, h, hframe => by
    obtain ⟨n, hn, rest⟩ := h
    refine ⟨n, ?_, rest⟩
    rw [hframe i (Nat.le_refl _) (by simp [BTree.size]), hn]
  | .node b l r, i, h, hframe => by
    obtain ⟨n, hn, hb, hl, hleft, hright, hfl, hfr⟩ := h
    refine ⟨n, ?_, hb, hl, hleft, hright, ?_, ?_⟩
    · rw [hframe i (Nat.le_refl _) (by simp [BTree.size]), hn]
    · exact Flat.frame l (i + 1) hfl (fun j h1 h2 =>
        hframe j (by omega) (by simp [BTree.size]; omega))
    · exact Flat.frame r (i + 1 + l.size) hfr (fun j h1 h2 =>
        hframe j (by omega) (by simp [BTree.size]; omega))

theorem BTree.size_pos (t : BTree) : 0 < t.size := by
  cases t <;> simp [BTree.size]

/-! ## The builder, call by call -/

theorem grow_of_lt (D : Decls) (nodes : List BVHNode) (i : Nat) (h : i < nodes.length) :
    grow D nodes i = nodes := by
  simp [grow, Nat.not_le.mpr h]

theorem buildBVHRecursive_leaf (D : Decls) (fuel : Nat) (st : BuildState)
    (start end_ mls : Nat) (h : end_ - start ≤ mls) :
    buildBVHRecursive D (fuel + 1) st start end_ mls =
      some (⟨st.primInfos,
        modifyNode (modifyNode (grow D st.flattenedBVH st.totalNodes) st.totalNodes
          (fun n => { n with bbox := rangeBox D (slice st.primInfos start end_) }))
          st.totalNodes (fun n =>
            { n with isLeaf := true, start := (start : Int),
                     range := ((end_ - start : Nat) : Int), left := -1, right := -1 }),
        st.totalNodes + 1⟩, st.totalNodes) := by
  simp [buildBVHRecursive, h]

theorem buildBVHRecursive_split (D : Decls) (fuel : Nat) (st : BuildState)
    (start end_ mls : Nat) (h : ¬ end_ - start ≤ mls) :
    buildBVHRecursive D (fuel + 1) st start end_ mls =
      match buildBVHRecursive D fuel
          ⟨sortRange D (centroidBox D (slice st.primInfos start end_)).maxExtent
              st.primInfos start end_,
            modifyNode (modifyNode (grow D st.flattenedBVH st.totalNodes) st.totalNodes
              (fun n => { n with bbox := rangeBox D (slice st.primInfos start end_) }))
              st.totalNodes (fun n => { n with isLeaf := false }),
            st.totalNodes + 1⟩ start ((start + end_) / 2) mls with
      | none => none
      | some (st1, l) =>
        match buildBVHRecursive D fuel
            ⟨st1.primInfos,
              modifyNode st1.flattenedBVH st.totalNodes (fun n => { n with left := (l : Int) }),
              st1.totalNodes⟩ ((start + end_) / 2) end_ mls with
        | none => none
        | some (st2, r) =>
          some (⟨st2.primInfos,
            modifyNode st2.flattenedBVH st.totalNodes (fun n => { n with right := (r : Int) }),
            st2.totalNodes⟩, st.totalNodes) := by
  simp [buildBVHRecursive, h]

theorem need_pos (k : Nat) : 1 ≤ need k := by
  unfold need
  split <;> omega

theorem need_eq (k : Nat) (h : 1 ≤ k) : need k = 2 * k - 1 := by
  unfold need
  rw [if_neg (by omega)]

theorem sortRange_append (D : Decls) (dim h : Nat) (A M C : List PrimitiveInfo) :
    sortRange D dim (A ++ M ++ C) A.length (A.length + M.length) =
      A ++ (D.sort dim M).take h ++ ((D.sort dim M).drop h ++ C) := by
  unfold sortRange
  rw [slice_append]
  have h1 : (A ++ M ++ C).take A.length = A := by
    rw [List.append_assoc, List.take_left]
  have h2 : (A ++ M ++ C).drop (A.length + M.length) = C := by
    have : A.length + M.length = (A ++ M).length := by simp
    rw [this, List.drop_left]
  rw [h1, h2]
  conv_lhs => rw [← List.take_append_drop h (D.sort dim M)]
  simp only [List.append_assoc]

/-- What one call of `buildBVHRecursive` does, when it has fuel for its range and the array
has room for the nodes of its range: it returns its own index, rearranges only its range,
writes only the slots of its own subtree, and lays out a tree that is `Good`. -/
theorem build_spec (D : Decls) (mls : Nat) (hm : 1 ≤ mls) :
    ∀ (fuel : Nat) (A M C : List PrimitiveInfo) (nodes : List BVHNode) (total : Nat),
      M.length < fuel →
      total + need M.length ≤ (grow D nodes total).length →
      ∃ (st' : BuildState) (P : List PrimitiveInfo) (t : BTree),
        buildBVHRecursive D fuel ⟨A ++ M ++ C, nodes, total⟩ A.length
            (A.length + M.length) mls = some (st', total) ∧
        st'.primInfos = A ++ P ++ C ∧
        st'.totalNodes = total + t.size ∧
        P.Perm M ∧
        st'.flattenedBVH.length = (grow D nodes total).length ∧
        (∀ j, j < total ∨ total + t.size ≤ j →
          st'.flattenedBVH[j]? = (grow D nodes total)[j]?) ∧
        t.size ≤ need M.length ∧
        Flat st'.flattenedBVH t total ∧
        Good D mls P A.length t := by
  intro fuel
  induction fuel with
  | zero => intro A M C nodes total hf; omega
  | succ fuel ih =>
    intro A M C nodes total hf hroom
    have hsub : A.length + M.length - A.length = M.length := by omega
    have hslice := slice_append A M C
    have hneed1 := need_pos M.length
    have hidx : total < (grow D nodes total).length := by omega
    obtain ⟨n0, hn0⟩ : ∃ n0, (grow D nodes total)[total]? = some n0 :=
      ⟨_, List.getElem?_eq_getElem hidx⟩
    by_cases hleaf : M.length ≤ mls
    · refine ⟨_, M, .leaf (rangeBox D M) A.length M.length,
        buildBVHRecursive_leaf D fuel _ _ _ _ (by rw [hsub]; exact hleaf), rfl, rfl,
        List.Perm.refl _, ?_, ?_, ?_, ?_, ?_⟩
      · simp [length_modifyNode]
      · intro j hj
        have hne : total ≠ j := by
          simp only [BTree.size] at hj
          omega
        simp only [getElem?_modifyNode_ne _ _ _ _ hne]
      · simpa [BTree.size] using hneed1
      · have hroot : (modifyNode (modifyNode (grow D nodes total) total
            (fun n => { n with bbox := rangeBox D (slice (A ++ M ++ C) A.length
              (A.length + M.length)) })) total
            (fun n => { n with isLeaf := true, start := (A.length : Int),
                               range := ((A.length + M.length - A.length : Nat) : Int),
                               left := -1, right := -1 }))[total]? =
            some { n0 with bbox := rangeBox D M, isLeaf := true, start := (A.length : Int),
                           range := (M.length : Int), left := -1, right := -1 } := by
          rw [getElem?_modifyNode_self, getElem?_modifyNode_self, hn0, hslice, hsub]
          rfl
        exact ⟨_, hroot, rfl, rfl, rfl, rfl, rfl, rfl⟩
      · exact ⟨rfl, rfl, hleaf, rfl⟩
    · have hM2 : 2 ≤ M.length := by omega
      have hneed : need M.length = 2 * M.length - 1 := need_eq _ (by omega)
      have hSperm : (D.sort (centroidBox D M).maxExtent M).Perm M := D.sort_perm _ M
      have hSlen := hSperm.length_eq
      have hh1 : 1 ≤ M.length / 2 := by omega
      have hh2 : M.length / 2 < M.length := by omega
      have hS1len : ((D.sort (centroidBox D M).maxExtent M).take (M.length / 2)).length =
          M.length / 2 := by
        rw [List.length_take, hSlen]
        omega
      have hS2len : ((D.sort (centroidBox D M).maxExtent M).drop (M.length / 2)).length =
          M.length - M.length / 2 := by
        rw [List.length_drop, hSlen]
      have hmid : (A.length + (A.length + M.length)) / 2 =
          A.length + ((D.sort (centroidBox D M).maxExtent M).take (M.length / 2)).length := by
        rw [hS1len]
        omega
      have hG1len : (modifyNode (modifyNode (grow D nodes total) total
          (fun n => { n with bbox := rangeBox D M })) total
          (fun n => { n with isLeaf := false })).length = (grow D nodes total).length := by
        simp [length_modifyNode]
      -- the left call
      obtain ⟨stL, PL, tL, eqL, primsL, totL, permL, lenL, frameL, sizeL, flatL, goodL⟩ :=
        ih A ((D.sort (centroidBox D M).maxExtent M).take (M.length / 2))
          ((D.sort (centroidBox D M).maxExtent M).drop (M.length / 2) ++ C)
          (modifyNode (modifyNode (grow D nodes total) total
            (fun n => { n with bbox := rangeBox D M })) total
            (fun n => { n with isLeaf := false }))
          (total + 1) (by rw [hS1len]; omega)
          (by
            rw [grow_of_lt _ _ _ (by rw [hG1len]; omega), hG1len, hS1len,
              need_eq _ hh1]
            omega)
      rw [grow_of_lt _ _ _ (by rw [hG1len]; omega)] at lenL frameL
      rw [hS1len, need_eq _ hh1] at sizeL
      have hPLlen : PL.length = M.length / 2 := by rw [permL.length_eq, hS1len]
      have htL := tL.size_pos
      -- the right call
      have hN1len : (modifyNode stL.flattenedBVH total
          (fun n => { n with left := ((total + 1 : Nat) : Int) })).length =
          (grow D nodes total).length := by
        rw [length_modifyNode, lenL, hG1len]
      obtain ⟨stR, PR, tR, eqR, primsR, totR, permR, lenR, frameR, sizeR, flatR, goodR⟩ :=
        ih (A ++ PL) ((D.sort (centroidBox D M).maxExtent M).drop (M.length / 2)) C
          (modifyNode stL.flattenedBVH total
            (fun n => { n with left := ((total + 1 : Nat) : Int) }))
          (total + 1 + tL.size) (by rw [hS2len]; omega)
          (by
            rw [grow_of_lt _ _ _ (by rw [hN1len]; omega), hN1len, hS2len,
              need_eq _ (by omega)]
            omega)
      rw [grow_of_lt _ _ _ (by rw [hN1len]; omega)] at lenR frameR
      rw [hS2len, need_eq _ (by omega)] at sizeR
      have hPRlen : PR.length = M.length - M.length / 2 := by rw [permR.length_eq, hS2len]
      have hPperm : (PL ++ PR).Perm M := by
        refine ((permL.append permR).trans ?_).trans hSperm
        rw [List.take_append_drop]
      have hPlen : (PL ++ PR).length = M.length := hPperm.length_eq
      -- the value of the call
      have heq : buildBVHRecursive D (fuel + 1) ⟨A ++ M ++ C, nodes, total⟩ A.length
          (A.length + M.length) mls =
          some (⟨stR.primInfos, modifyNode stR.flattenedBVH total
            (fun n => { n with right := ((total + 1 + tL.size : Nat) : Int) }),
            stR.totalNodes⟩, total) := by
        rw [buildBVHRecursive_split D fuel _ _ _ _ (by rw [hsub]; exact hleaf)]
        simp only []
        rw [hslice, sortRange_append D _ (M.length / 2), hmid, eqL]
        simp only []
        have e1 : stL.primInfos = A ++ PL ++
            (D.sort (centroidBox D M).maxExtent M).drop (M.length / 2) ++ C := by
          rw [primsL, List.append_assoc (A ++ PL)]
        have e2 : A.length + ((D.sort (centroidBox D M).maxExtent M).take
            (M.length / 2)).length = (A ++ PL).length := by
          rw [List.length_append, hPLlen, hS1len]
        have e3 : A.length + M.length = (A ++ PL).length +
            ((D.sort (centroidBox D M).maxExtent M).drop (M.length / 2)).length := by
          rw [List.length_append, hPLlen, hS2len]
          omega
        rw [e1, totL, e2, e3, eqR]
      refine ⟨_, PL ++ PR, .node (rangeBox D M) tL tR, heq, ?_, ?_, hPperm, ?_, ?_, ?_, ?_, ?_⟩
      · show stR.primInfos = _
        rw [primsR, List.append_assoc A PL PR]
      · show stR.totalNodes = _
        rw [totR]
        simp only [BTree.size]
        omega
      · show (modifyNode stR.flattenedBVH total _).length = _
        rw [length_modifyNode, lenR, hN1len]
      · intro j hj
        show (modifyNode stR.flattenedBVH total _)[j]? = _
        simp only [BTree.size] at hj
        have hne : total ≠ j := by omega
        rw [getElem?_modifyNode_ne _ _ _ _ hne, frameR j (by omega),
          getElem?_modifyNode_ne _ _ _ _ hne, frameL j (by omega),
          getElem?_modifyNode_ne _ _ _ _ hne, getElem?_modifyNode_ne _ _ _ _ hne]
      · simp only [BTree.size]
        omega
      · have hroot : (modifyNode stR.flattenedBVH total
            (fun n => { n with right := ((total + 1 + tL.size : Nat) : Int) }))[total]? =
            some { n0 with bbox := rangeBox D M, isLeaf := false,
                           left := ((total + 1 : Nat) : Int),
                           right := ((total + 1 + tL.size : Nat) : Int) } := by
          rw [getElem?_modifyNode_self, frameR total (by omega), getElem?_modifyNode_self,
            frameL total (by omega), getElem?_modifyNode_self, getElem?_modifyNode_self, hn0]
          rfl
        refine ⟨_, hroot, rfl, rfl, rfl, rfl, ?_, ?_⟩
        · refine Flat.frame tL (total + 1) flatL (fun j h1 h2 => ?_)
          have hne : total ≠ j := by omega
          rw [getElem?_modifyNode_ne _ _ _ _ hne, frameR j (by omega),
            getElem?_modifyNode_ne _ _ _ _ hne]
        · refine Flat.frame tR (total + 1 + tL.size) flatR (fun j h1 h2 => ?_)
          have hne : total ≠ j := by omega
          rw [getElem?_modifyNode_ne _ _ _ _ hne]
      · have htake : (PL ++ PR).take ((PL ++ PR).length / 2) = PL := by
          rw [hPlen, ← hPLlen, List.take_left]
        have hdrop : (PL ++ PR).drop ((PL ++ PR).length / 2) = PR := by
          rw [hPlen, ← hPLlen, List.drop_left]
        refine ⟨by rw [hPlen]; omega, (rangeBox_perm D hPperm).symm, ?_, ?_, ?_⟩
        · rw [htake]
          exact goodL
        · rw [hdrop, hPlen, ← hPLlen, ← List.length_append]
          exact goodR
        · rw [htake, hdrop, centroidBox_perm D hPperm]
          intro p hp q hq
          have hp' := permL.subset hp
          have hq' := permR.subset hq
          have hsorted := D.sort_sorted (centroidBox D M).maxExtent M
          rw [← List.take_append_drop (M.length / 2)
            (D.sort (centroidBox D M).maxExtent M), List.pairwise_append] at hsorted
          exact hsorted.2.2 p hp' q hq'

/-! ## The array as seen by a traversal -/

theorem Flat.bound {nodes : List BVHNode} :
    ∀ (t : BTree) (i : Nat), Flat nodes t i → i + t.size ≤ nodes.length
  | .leaf b s r, i, h => by
    obtain ⟨n, hn, _⟩ := h
    have hlt : i < nodes.length := by
      by_contra hcon
      rw [List.getElem?_eq_none (Nat.le_of_not_lt hcon)] at hn
      cases hn
    simp only [BTree.size]
    omega
  | .node b l r, i, h => by
    obtain ⟨n, _, _, _, _, _, _, hfr⟩ := h
    have := Flat.bound r (i + 1 + l.size) hfr
    simp only [BTree.size]
    omega

theorem Flat.root {nodes : List BVHNode} :
    ∀ (t : BTree) (i : Nat), Flat nodes t i → ∃ n, nodes[i]? = some n ∧ n.bbox = t.bbox
  | .leaf _ _ _, _, h => by
    obtain ⟨n, hn, hb, _⟩ := h
    exact ⟨n, hn, hb⟩
  | .node _ _ _, _, h => by
    obtain ⟨n, hn, hb, _⟩ := h
    exact ⟨n, hn, hb⟩

theorem preorder_of_flat {nodes : List BVHNode} :
    ∀ (t : BTree) (i fuel : Nat), Flat nodes t i → t.size ≤ fuel →
      preorder nodes fuel (i : Int) = some (List.range' i t.size)
  | .leaf b s r, i, 0, _, hf => by simp [BTree.size] at hf
  | .leaf b s r, i, fuel + 1, h, _ => by
    obtain ⟨n, hn, _, hleaf, _⟩ := h
    have h1 : ¬ ((i : Int) = -1) := by omega
    have h2 : ¬ ((i : Int) < 0) := by omega
    simp [preorder, h1, h2, hn, hleaf, BTree.size]
  | .node b l r, i, 0, _, hf => by simp [BTree.size] at hf
  | .node b l r, i, fuel + 1, h, hf => by
    obtain ⟨n, hn, _, hleaf, hleft, hright, hfl, hfr⟩ := h
    simp only [BTree.size] at hf
    have h1 : ¬ ((i : Int) = -1) := by omega
    have h2 : ¬ ((i : Int) < 0) := by omega
    have e1 := preorder_of_flat l (i + 1) fuel hfl (by omega)
    have e2 := preorder_of_flat r (i + 1 + l.size) fuel hfr (by omega)
    have e3 : List.range' i (1 + l.size + r.size) =
        i :: (List.range' (i + 1) l.size ++ List.range' (i + 1 + l.size) r.size) := by
      rw [List.range'_append_1, show 1 + l.size + r.size = (r.size + l.size) + 1 by omega,
        List.range'_succ]
    simp only [preorder, h1, h2, if_false, Int.toNat_ofNat, hn, hleaf, hleft, hright, e1, e2,
      BTree.size, e3]
    simp

theorem leafRanges_of_flat {nodes : List BVHNode} :
    ∀ (t : BTree) (i : Nat), Flat nodes t i →
      leafRanges nodes (List.range' i t.size) = t.leaves
  | .leaf b s r, i, h => by
    obtain ⟨n, hn, _, hleaf, hs, hr, _⟩ := h
    simp [leafRanges, BTree.size, BTree.leaves, leafRange, hn, hleaf, hs, hr]
  | .node b l r, i, h => by
    obtain ⟨n, hn, _, hleaf, _, _, hfl, hfr⟩ := h
    have e1 := leafRanges_of_flat l (i + 1) hfl
    have e2 := leafRanges_of_flat r (i + 1 + l.size) hfr
    have e3 : List.range' i (1 + l.size + r.size) =
        i :: (List.range' (i + 1) l.size ++ List.range' (i + 1 + l.size) r.size) := by
      rw [List.range'_append_1, show 1 + l.size + r.size = (r.size + l.size) + 1 by omega,
        List.range'_succ]
    unfold leafRanges at e1 e2 ⊢
    simp only [BTree.size, BTree.leaves, e3, List.filterMap_cons, List.filterMap_append, e1,
      e2]
    simp [leafRange, hn, hleaf]

theorem Tiles.append : ∀ (L₁ L₂ : List (Int × Int)) (lo mid hi : Int),
    Tiles L₁ lo mid → Tiles L₂ mid hi → Tiles (L₁ ++ L₂) lo hi
  | [], L₂, lo, mid, hi, h1, h2 => by
    simp only [Tiles] at h1
    subst h1
    exact h2
  | (s, r) :: rest, L₂, lo, mid, hi, h1, h2 => by
    obtain ⟨hs, hr, hrest⟩ := h1
    exact ⟨hs, hr, Tiles.append rest L₂ _ mid hi hrest h2⟩

theorem Good.bbox (D : Decls) (mls : Nat) :
    ∀ (t : BTree) (P : List PrimitiveInfo) (lo : Nat), Good D mls P lo t →
      t.bbox = rangeBox D P
  | .leaf _ _ _, _, _, h => h.2.2.2
  | .node _ _ _, _, _, h => h.2.1

theorem Good.half (mls : Nat) (hm : 1 ≤ mls) (P : List PrimitiveInfo) (h : mls < P.length) :
    (P.take (P.length / 2)).length = P.length / 2 ∧
      (P.drop (P.length / 2)).length = P.length - P.length / 2 ∧
      1 ≤ P.length / 2 ∧ P.length / 2 < P.length := by
  rw [List.length_take, List.length_drop]
  omega

theorem Good.tiles (D : Decls) (mls : Nat) (hm : 1 ≤ mls) :
    ∀ (t : BTree) (P : List PrimitiveInfo) (lo : Nat), Good D mls P lo t →
      Tiles t.leaves (lo : Int) ((lo + P.length : Nat) : Int)
  | .leaf b s r, P, lo, h => by
    obtain ⟨hs, hr, _, _⟩ := h
    subst hs hr
    simp only [BTree.leaves, Tiles]
    refine ⟨trivial, by omega, by push_cast; ring⟩
  | .node b l r, P, lo, h => by
    obtain ⟨hgt, _, hl, hr, _⟩ := h
    obtain ⟨e1, e2, _, _⟩ := Good.half mls hm P hgt
    have t1 := Good.tiles D mls hm l _ lo hl
    have t2 := Good.tiles D mls hm r _ _ hr
    rw [e1] at t1
    rw [e2] at t2
    refine Tiles.append _ _ _ _ _ t1 ?_
    have e3 : lo + P.length / 2 + (P.length - P.length / 2) = lo + P.length := by omega
    rw [e3] at t2
    exact t2

theorem Good.sum (D : Decls) (mls : Nat) :
    ∀ (t : BTree) (P : List PrimitiveInfo) (lo : Nat), Good D mls P lo t →
      (t.leaves.map (fun sr => sr.2)).sum = (P.length : Int)
  | .leaf b s r, P, lo, h => by
    obtain ⟨_, hr, _, _⟩ := h
    subst hr
    simp [BTree.leaves]
  | .node b l r, P, lo, h => by
    obtain ⟨_, _, hl, hr, _⟩ := h
    have s1 := Good.sum D mls l _ lo hl
    have s2 := Good.sum D mls r _ _ hr
    simp only [BTree.leaves, List.map_append, List.sum_append, s1, s2]
    rw [← Nat.cast_add, ← List.length_append, List.take_append_drop]

theorem Good.mem_positions (D : Decls) (mls : Nat) :
    ∀ (t : BTree) (P : List PrimitiveInfo) (lo : Nat), Good D mls P lo t →
      ∀ sr ∈ t.leaves, ∀ p ∈ positions sr, lo ≤ p ∧ p < lo + P.length
  | .leaf b s r, P, lo, h => by
    obtain ⟨hs, hr, _, _⟩ := h
    subst hs hr
    intro sr hsr p hp
    simp only [BTree.leaves, List.mem_singleton] at hsr
    subst hsr
    simpa [positions, List.mem_range'_1] using hp
  | .node b l r, P, lo, h => by
    obtain ⟨_, _, hl, hr, _⟩ := h
    intro sr hsr p hp
    have hlen : (P.take (P.length / 2)).length + (P.drop (P.length / 2)).length =
        P.length := by
      rw [← List.length_append, List.take_append_drop]
    have hle : (P.take (P.length / 2)).length ≤ P.length / 2 := by
      rw [List.length_take]
      omega
    simp only [BTree.leaves, List.mem_append] at hsr
    rcases hsr with hsr | hsr
    · have := Good.mem_positions D mls l _ lo hl sr hsr p hp
      omega
    · have := Good.mem_positions D mls r _ _ hr sr hsr p hp
      have hd : (P.drop (P.length / 2)).length = P.length - P.length / 2 := List.length_drop _ _
      omega

/-- The ranges of the leaves of a tree, read in the final array, are the parts of the range
of the tree from left to right. -/
theorem Good.slices (D : Decls) (mls : Nat) :
    ∀ (t : BTree) (P : List PrimitiveInfo) (lo : Nat), Good D mls P lo t →
      ∀ (X Y : List PrimitiveInfo), X.length = lo →
        t.leaves.flatMap (fun sr =>
          slice (X ++ P ++ Y) sr.1.toNat (sr.1.toNat + sr.2.toNat)) = P
  | .leaf b s r, P, lo, h => by
    obtain ⟨hs, hr, _, _⟩ := h
    subst hs hr
    intro X Y hX
    subst hX
    simp only [BTree.leaves, List.flatMap_cons, List.flatMap_nil, List.append_nil,
      Int.toNat_ofNat, slice_append]
  | .node b l r, P, lo, h => by
    obtain ⟨_, _, hl, hr, _⟩ := h
    intro X Y hX
    have hP := List.take_append_drop (P.length / 2) P
    have a1 := Good.slices D mls l _ lo hl X (P.drop (P.length / 2) ++ Y) hX
    have hle : (P.take (P.length / 2)).length = P.length / 2 := by
      rw [List.length_take]
      omega
    have a2 := Good.slices D mls r _ _ hr (X ++ P.take (P.length / 2)) Y
      (by rw [List.length_append, hX, hle])
    have e1 : X ++ P.take (P.length / 2) ++ (P.drop (P.length / 2) ++ Y) = X ++ P ++ Y := by
      conv_rhs => rw [← hP]
      simp only [List.append_assoc]
    have e2 : X ++ P.take (P.length / 2) ++ P.drop (P.length / 2) ++ Y = X ++ P ++ Y := by
      conv_rhs => rw [← hP]
      simp only [List.append_assoc]
    rw [e1] at a1
    rw [e2] at a2
    simp only [BTree.leaves, List.flatMap_append, a1, a2, hP]

/-- Every slot of the layout of a tree is the root of the layout of a subtree, built over a
contiguous part of the primitives. -/
theorem subtree_at (D : Decls) (mls : Nat) {nodes : List BVHNode} :
    ∀ (t : BTree) (i lo : Nat) (P : List PrimitiveInfo), Flat nodes t i →
      Good D mls P lo t → ∀ j, i ≤ j → j < i + t.size →
        ∃ (t' : BTree) (X P' Y : List PrimitiveInfo),
          Flat nodes t' j ∧ Good D mls P' (lo + X.length) t' ∧ P = X ++ P' ++ Y
  | .leaf b s r, i, lo, P, hf, hg => by
    intro j h1 h2
    simp only [BTree.size] at h2
    have : j = i := by omega
    subst this
    exact ⟨_, [], P, [], hf, hg, by simp⟩
  | .node b l r, i, lo, P, hf, hg => by
    intro j h1 h2
    simp only [BTree.size] at h2
    by_cases hji : j = i
    · subst hji
      exact ⟨_, [], P, [], hf, hg, by simp⟩
    · obtain ⟨n, _, _, _, _, _, hfl, hfr⟩ := hf
      obtain ⟨_, _, hgl, hgr, _⟩ := hg
      have hP := List.take_append_drop (P.length / 2) P
      have hle : (P.take (P.length / 2)).length = P.length / 2 := by
        rw [List.length_take]
        omega
      by_cases hjl : j < i + 1 + l.size
      · obtain ⟨t', X, P', Y, f', g', e'⟩ :=
          subtree_at D mls l (i + 1) lo _ hfl hgl j (by omega) hjl
        refine ⟨t', X, P', Y ++ P.drop (P.length / 2), f', g', ?_⟩
        conv_lhs => rw [← hP, e']
        simp only [List.append_assoc]
      · obtain ⟨t', X, P', Y, f', g', e'⟩ :=
          subtree_at D mls r (i + 1 + l.size) _ _ hfr hgr j (by omega) (by omega)
        refine ⟨t', P.take (P.length / 2) ++ X, P', Y, f', ?_, ?_⟩
        · rw [List.length_append, hle, ← Nat.add_assoc]
          exact g'
        · conv_lhs => rw [← hP, e']
          simp only [List.append_assoc]

/-! ## The build started by `buildBVH` -/

theorem length_collectPrimInfos (D : Decls) :
    ∀ (tris : List Triangle) (i : Nat), (collectPrimInfos D i tris).length = tris.length
  | [], _ => rfl
  | _ :: rest, i => by
    simp [collectPrimInfos, length_collectPrimInfos D rest (i + 1)]

theorem map_index_collectPrimInfos (D : Decls) :
    ∀ (tris : List Triangle) (i : Nat),
      (collectPrimInfos D i tris).map (fun p => p.index) = List.range' i tris.length
  | [], _ => rfl
  | _ :: rest, i => by
    simp [collectPrimInfos, map_index_collectPrimInfos D rest (i + 1), List.range'_succ]

theorem mem_collectPrimInfos (D : Decls) :
    ∀ (tris : List Triangle) (i : Nat) (p : PrimitiveInfo), p ∈ collectPrimInfos D i tris →
      ∃ tri, i ≤ p.index ∧ tris[p.index - i]? = some tri ∧
        p.bbox.Contains tri.v0.position ∧ p.bbox.Contains tri.v1.position ∧
        p.bbox.Contains tri.v2.position
  | [], _, _, h => by cases h
  | tri :: rest, i, p, h => by
    simp only [collectPrimInfos, List.mem_cons] at h
    rcases h with rfl | h
    · refine ⟨tri, Nat.le_refl _, by simp, ?_, ?_, ?_⟩
      · exact AABB.contains_expandPoint _ (AABB.contains_expandPoint _
          (AABB.contains_expandPoint_self _ _))
      · exact AABB.contains_expandPoint _ (AABB.contains_expandPoint_self _ _)
      · exact AABB.contains_expandPoint_self _ _
    · obtain ⟨tri', h1, h2, h3⟩ := mem_collectPrimInfos D rest (i + 1) p h
      refine ⟨tri', by omega, ?_, h3⟩
      have : p.index - i = (p.index - (i + 1)) + 1 := by omega
      rw [this, List.getElem?_cons_succ]
      exact h2

/-- The call made by `buildBVH`: it returns index 0 with a state whose array holds, from
slot 0, the layout of a `Good` tree over the whole rearranged `primInfos`, without having
grown the array when there is a triangle. -/
theorem build_call_spec (D : Decls) (fuel : Nat) (tris : List Triangle)
    (fb : List BVHNode) (mls : Nat) (hfuel : tris.length < fuel) (hm : 1 ≤ mls) :
    ∃ (st : BuildState) (t : BTree),
      buildBVHRecursive D fuel
        ⟨collectPrimInfos D 0 tris, resize fb (2 * tris.length) D.defaultNode, 0⟩ 0
        tris.length mls = some (st, 0) ∧
      st.primInfos.Perm (collectPrimInfos D 0 tris) ∧
      st.totalNodes = t.size ∧
      t.size ≤ need tris.length ∧
      st.flattenedBVH.length =
        (grow D (resize fb (2 * tris.length) D.defaultNode) 0).length ∧
      Flat st.flattenedBVH t 0 ∧
      Good D mls st.primInfos 0 t := by
  have hlen := length_collectPrimInfos D tris 0
  have hroom : 0 + need (collectPrimInfos D 0 tris).length ≤
      (grow D (resize fb (2 * tris.length) D.defaultNode) 0).length := by
    rw [hlen]
    by_cases h0 : tris.length = 0
    · simp [h0, grow, need, length_resize]
    · rw [grow_of_lt _ _ _ (by rw [length_resize]; omega), length_resize, need_eq _ (by omega)]
      omega
  obtain ⟨st, P, t, eq, hprims, htot, hperm, hl, _, hsize, hflat, hgood⟩ :=
    build_spec D mls hm fuel [] (collectPrimInfos D 0 tris) [] _ 0 (by rw [hlen]; exact hfuel)
      hroom
  simp only [List.nil_append, List.append_nil, List.length_nil, Nat.zero_add, hlen] at eq
  simp only [List.nil_append, List.append_nil] at hprims
  simp only [Nat.zero_add] at htot
  simp only [List.length_nil] at hgood
  rw [hlen] at hsize
  refine ⟨st, t, eq, ?_, htot, hsize, hl, hflat, ?_⟩
  · rw [hprims]
    exact hperm
  · rw [hprims]
    exact hgood

/-- The result of `buildBVH`: the trimmed array is exactly the layout of the tree. -/
theorem buildBVHWith_spec (D : Decls) (fuel : Nat) (tris : List Triangle)
    (fb : List BVHNode) (mls : Nat) (hfuel : tris.length < fuel) (hm : 1 ≤ mls) :
    ∃ (st : BuildState) (nodes : List BVHNode) (t : BTree),
      buildBVHRecursive D fuel
        ⟨collectPrimInfos D 0 tris, resize fb (2 * tris.length) D.defaultNode, 0⟩ 0
        tris.length mls = some (st, 0) ∧
      buildBVHWith D fuel tris fb mls = some (nodes, st.primInfos) ∧
      st.primInfos.Perm (collectPrimInfos D 0 tris) ∧
      nodes.length = st.totalNodes ∧
      nodes.length = t.size ∧
      Flat nodes t 0 ∧
      Good D mls st.primInfos 0 t := by
  obtain ⟨st, t, eq, hperm, htot, hsize, hl, hflat, hgood⟩ :=
    build_call_spec D fuel tris fb mls hfuel hm
  have hb := Flat.bound t 0 hflat
  refine ⟨st, resize st.flattenedBVH st.totalNodes D.defaultNode, t, eq, ?_, hperm,
    length_resize _ _ _, by rw [length_resize, htot], ?_, hgood⟩
  · unfold buildBVHWith
    simp only [length_collectPrimInfos, eq]
  · rw [resize_of_le _ _ _ (by omega), htot]
    refine Flat.frame t 0 hflat (fun j _ h2 => ?_)
    rw [List.getElem?_take_of_lt (by omega)]

theorem perm_index_range (D : Decls) (tris : List Triangle) {prims : List PrimitiveInfo}
    (h : prims.Perm (collectPrimInfos D 0 tris)) :
    (prims.map (fun p => p.index)).Perm (List.range tris.length) := by
  have := h.map (fun p => p.index)
  rw [map_index_collectPrimInfos, ← List.range_eq_range'] at this
  exact this

/-- What a traversal from the root reads in an array that holds the layout of a `Good`
tree. -/
theorem root_traversal (D : Decls) (mls : Nat) (hm : 1 ≤ mls) {nodes : List BVHNode}
    {prims : List PrimitiveInfo} (t : BTree) (hflat : Flat nodes t 0)
    (hgood : Good D mls prims 0 t) :
    preorder nodes t.size 0 = some (List.range t.size) ∧
      Tiles (leafRanges nodes (List.range t.size)) 0 (prims.length : Int) ∧
      ((leafRanges nodes (List.range t.size)).map (fun sr => sr.2)).sum =
        (prims.length : Int) ∧
      (leafRanges nodes (List.range t.size)).flatMap (fun sr =>
        slice prims sr.1.toNat (sr.1.toNat + sr.2.toNat)) = prims := by
  have h1 := preorder_of_flat t 0 t.size hflat (Nat.le_refl _)
  have h2 := leafRanges_of_flat t 0 hflat
  have h3 := Good.tiles D mls hm t prims 0 hgood
  have h4 := Good.sum D mls t prims 0 hgood
  have h5 := Good.slices D mls t prims 0 hgood [] [] rfl
  rw [← List.range_eq_range'] at h1 h2
  simp only [Nat.zero_add, List.nil_append, List.append_nil] at h3 h5
  rw [h2]
  exact ⟨h1, h3, h4, h5⟩

/-- What a traversal from node `i` reads in an array that holds the layout of a `Good`
tree: node `i` is the root of the layout of a subtree over a part of the primitives. -/
theorem node_traversal (D : Decls) (mls : Nat) {nodes : List BVHNode}
    {prims : List PrimitiveInfo} (t : BTree) (hflat : Flat nodes t 0)
    (hgood : Good D mls prims 0 t) (i : Nat) (hi : i < t.size) :
    ∃ (t' : BTree) (X P' Y : List PrimitiveInfo),
      Flat nodes t' i ∧ Good D mls P' X.length t' ∧ prims = X ++ P' ++ Y ∧
      preorder nodes nodes.length (i : Int) = some (List.range' i t'.size) ∧
      leafRanges nodes (List.range' i t'.size) = t'.leaves := by
  obtain ⟨t', X, P', Y, f', g', e'⟩ := subtree_at D mls t 0 0 prims hflat hgood i
    (Nat.zero_le _) (by omega)
  rw [Nat.zero_add] at g'
  have hb := Flat.bound t' i f'
  exact ⟨t', X, P', Y, f', g', e', preorder_of_flat t' i nodes.length f' (by omega),
    leafRanges_of_flat t' i f'⟩

theorem lt_length_of_getElem? {α : Type} {l : List α} {i : Nat} {a : α}
    (h : l[i]? = some a) : i < l.length := by
  by_contra hcon
  rw [List.getElem?_eq_none (Nat.le_of_not_lt hcon)] at h
  cases h

theorem length_sortRange (D : Decls) (dim : Nat) (l : List PrimitiveInfo)
    (start end_ : Nat) (h1 : start ≤ end_) (h2 : end_ ≤ l.length) :
    (sortRange D dim l start end_).length = l.length := by
  simp only [sortRange, slice, List.length_append, List.length_take, List.length_drop,
    (D.sort_perm dim _).length_eq]
  omega

/-- With fuel above the size of the range, a call returns and keeps the size of
`primInfos`. -/
theorem buildBVHRecursive_returns (D : Decls) (mls : Nat) (hm : 1 ≤ mls) :
    ∀ (fuel : Nat) (st : BuildState) (start end_ : Nat), start ≤ end_ →
      end_ ≤ st.primInfos.length → end_ - start < fuel →
      ∃ st' idx, buildBVHRecursive D fuel st start end_ mls = some (st', idx) ∧
        st'.primInfos.length = st.primInfos.length := by
  intro fuel
  induction fuel with
  | zero => intro st start end_ _ _ hf; omega
  | succ fuel ih =>
    intro st start end_ h1 h2 hf
    by_cases hleaf : end_ - start ≤ mls
    · exact ⟨_, _, buildBVHRecursive_leaf D fuel st start end_ mls hleaf, rfl⟩
    · have hlen := length_sortRange D (centroidBox D (slice st.primInfos start end_)).maxExtent
        st.primInfos start end_ h1 h2
      obtain ⟨stL, l, eqL, lenL⟩ := ih
        ⟨sortRange D (centroidBox D (slice st.primInfos start end_)).maxExtent
            st.primInfos start end_,
          modifyNode (modifyNode (grow D st.flattenedBVH st.totalNodes) st.totalNodes
            (fun n => { n with bbox := rangeBox D (slice st.primInfos start end_) }))
            st.totalNodes (fun n => { n with isLeaf := false }),
          st.totalNodes + 1⟩ start ((start + end_) / 2) (by omega)
        (by show _ ≤ (sortRange _ _ _ _ _).length; rw [hlen]; omega) (by omega)
      have lenL' : stL.primInfos.length = st.primInfos.length := lenL.trans hlen
      obtain ⟨stR, r, eqR, lenR⟩ := ih
        ⟨stL.primInfos,
          modifyNode stL.flattenedBVH st.totalNodes (fun n => { n with left := (l : Int) }),
          stL.totalNodes⟩ ((start + end_) / 2) end_ (by omega)
        (by show _ ≤ stL.primInfos.length; rw [lenL']; exact h2) (by omega)
      have heq : buildBVHRecursive D (fuel + 1) st start end_ mls =
          some (⟨stR.primInfos, modifyNode stR.flattenedBVH st.totalNodes
            (fun n => { n with right := (r : Int) }), stR.totalNodes⟩, st.totalNodes) := by
        rw [buildBVHRecursive_split D fuel st start end_ mls hleaf, eqL]
        simp only []
        rw [eqR]
      exact ⟨_, _, heq, lenR.trans lenL'⟩

/-! ## Claims on the BVH builder -/

/-- C1: for every triangle array of n triangles and every maxLeafSize >= 1, the call
`buildBVHRecursive(primInfos, 0, n, 0, maxLeafSize)` made by `buildBVH` returns, and after it
the leaves met left to right from the root have ranges that tile `[0, n)`, the triangle
indices stored in the rearranged `primInfos` are a permutation of `0..n-1`, the leaf counts
sum to n, and the triangle indices found in the leaf ranges, leaf after leaf, are each index
of `0..n-1` exactly once. -/
theorem C1_leaves_tile_and_indices_permute (D : Decls) (fuel : Nat)
    (meshTris : List Triangle) (flattenedBVH : List BVHNode) (maxLeafSize : Nat)
    (hfuel : meshTris.length < fuel) (hm : 1 ≤ maxLeafSize) :
    ∃ (st : BuildState) (visited : List Nat),
      buildBVHRecursive D fuel
        ⟨collectPrimInfos D 0 meshTris,
          resize flattenedBVH (2 * meshTris.length) D.defaultNode, 0⟩ 0
        meshTris.length maxLeafSize = some (st, 0) ∧
      preorder st.flattenedBVH st.totalNodes 0 = some visited ∧
      Tiles (leafRanges st.flattenedBVH visited) 0 (meshTris.length : Int) ∧
      (st.primInfos.map (fun p => p.index)).Perm (List.range meshTris.length) ∧
      ((leafRanges st.flattenedBVH visited).map (fun sr => sr.2)).sum =
        (meshTris.length : Int) ∧
      (((leafRanges st.flattenedBVH visited).flatMap (fun sr =>
        slice st.primInfos sr.1.toNat (sr.1.toNat + sr.2.toNat))).map
          (fun p => p.index)).Perm (List.range meshTris.length) := by
  obtain ⟨st, t, eq, hperm, htot, _, _, hflat, hgood⟩ :=
    build_call_spec D fuel meshTris flattenedBVH maxLeafSize hfuel hm
  obtain ⟨h1, h2, h3, h4⟩ := root_traversal D maxLeafSize hm t hflat hgood
  have hlen : st.primInfos.length = meshTris.length := by
    rw [hperm.length_eq, length_collectPrimInfos]
  have hidx := perm_index_range D meshTris hperm
  rw [hlen] at h2 h3
  refine ⟨st, List.range t.size, eq, by rw [htot]; exact h1, h2, hidx, h3, ?_⟩
  rw [h4]
  exact hidx

/-- The statement of C1 at three triangles, leaf size 1. -/
theorem C1_witness :
    sampleTris.length < 4 ∧ 1 ≤ 1 ∧
    ∃ (st : BuildState) (visited : List Nat),
      buildBVHRecursive refDecls 4
        ⟨collectPrimInfos refDecls 0 sampleTris,
          resize [] (2 * sampleTris.length) refDecls.defaultNode, 0⟩ 0
        sampleTris.length 1 = some (st, 0) ∧
      preorder st.flattenedBVH st.totalNodes 0 = some visited ∧
      Tiles (leafRanges st.flattenedBVH visited) 0 (sampleTris.length : Int) ∧
      (st.primInfos.map (fun p => p.index)).Perm (List.range sampleTris.length) ∧
      ((leafRanges st.flattenedBVH visited).map (fun sr => sr.2)).sum =
        (sampleTris.length : Int) ∧
      (((leafRanges st.flattenedBVH visited).flatMap (fun sr =>
        slice st.primInfos sr.1.toNat (sr.1.toNat + sr.2.toNat))).map
          (fun p => p.index)).Perm (List.range sampleTris.length) :=
  ⟨by decide, by decide,
    C1_leaves_tile_and_indices_permute refDecls 4 sampleTris [] 1 (by decide) (by decide)⟩

/-- C2: for every triangle array and every maxLeafSize >= 1, `buildBVH` returns, and every
node of its array has a box that covers the primitives of its subtree: for every leaf met by
the traversal from the node and every position of the range of that leaf, the primitive at
that position of the rearranged `primInfos` names a triangle of `meshTris` whose three vertex
positions lie between the corners of the box of the node on every axis. -/
theorem C2_box_covers_subtree (D : Decls) (fuel : Nat) (meshTris : List Triangle)
    (flattenedBVH : List BVHNode) (maxLeafSize : Nat)
    (hfuel : meshTris.length < fuel) (hm : 1 ≤ maxLeafSize) :
    ∃ (nodes : List BVHNode) (primInfos : List PrimitiveInfo),
      buildBVHWith D fuel meshTris flattenedBVH maxLeafSize = some (nodes, primInfos) ∧
      ∀ (i : Nat) (node : BVHNode), nodes[i]? = some node →
        ∃ below, preorder nodes nodes.length (i : Int) = some below ∧
          ∀ sr ∈ leafRanges nodes below, ∀ p ∈ positions sr,
            ∃ (prim : PrimitiveInfo) (tri : Triangle),
              primInfos[p]? = some prim ∧ meshTris[prim.index]? = some tri ∧
              node.bbox.Contains tri.v0.position ∧ node.bbox.Contains tri.v1.position ∧
              node.bbox.Contains tri.v2.position := by
  obtain ⟨st, nodes, t, _, hbuild, hperm, _, hlent, hflat, hgood⟩ :=
    buildBVHWith_spec D fuel meshTris flattenedBVH maxLeafSize hfuel hm
  refine ⟨nodes, st.primInfos, hbuild, ?_⟩
  intro i node hnode
  have hi : i < t.size := by
    rw [← hlent]
    exact lt_length_of_getElem? hnode
  obtain ⟨t', X, P', Y, f', g', e', hpre, hleaves⟩ :=
    node_traversal D maxLeafSize t hflat hgood i hi
  refine ⟨_, hpre, ?_⟩
  rw [hleaves]
  intro sr hsr p hp
  have hpos := Good.mem_positions D maxLeafSize t' P' X.length g' sr hsr p hp
  have hp' : st.primInfos[p]? = P'[p - X.length]? := by
    rw [e', List.getElem?_append_left (by rw [List.length_append]; omega),
      List.getElem?_append_right (by omega)]
  obtain ⟨prim, hprim⟩ : ∃ prim, P'[p - X.length]? = some prim :=
    ⟨_, List.getElem?_eq_getElem (by omega)⟩
  have hmemP : prim ∈ P' := List.mem_iff_getElem?.mpr ⟨_, hprim⟩
  have hmem : prim ∈ st.primInfos := by
    rw [e']
    simp [hmemP]
  obtain ⟨tri, _, htri, c0, c1, c2⟩ :=
    mem_collectPrimInfos D meshTris 0 prim (hperm.subset hmem)
  obtain ⟨n, hn, hb⟩ := Flat.root t' i f'
  have hnn : n = node := by
    rw [hnode] at hn
    exact (Option.some.inj hn).symm
  have hbox : node.bbox = rangeBox D P' := by
    rw [← hnn, hb, Good.bbox D maxLeafSize t' P' _ g']
  rw [Nat.sub_zero] at htri
  refine ⟨prim, tri, by rw [hp', hprim], htri, ?_, ?_, ?_⟩
  · rw [hbox]
    exact rangeBox_contains D P' prim hmemP _ c0
  · rw [hbox]
    exact rangeBox_contains D P' prim hmemP _ c1
  · rw [hbox]
    exact rangeBox_contains D P' prim hmemP _ c2

/-- The statement of C2 at three triangles, leaf size 1. -/
theorem C2_witness :
    sampleTris.length < 4 ∧ 1 ≤ 1 ∧
    ∃ (nodes : List BVHNode) (primInfos : List PrimitiveInfo),
      buildBVHWith refDecls 4 sampleTris [] 1 = some (nodes, primInfos) ∧
      ∀ (i : Nat) (node : BVHNode), nodes[i]? = some node →
        ∃ below, preorder nodes nodes.length (i : Int) = some below ∧
          ∀ sr ∈ leafRanges nodes below, ∀ p ∈ positions sr,
            ∃ (prim : PrimitiveInfo) (tri : Triangle),
              primInfos[p]? = some prim ∧ sampleTris[prim.index]? = some tri ∧
              node.bbox.Contains tri.v0.position ∧ node.bbox.Contains tri.v1.position ∧
              node.bbox.Contains tri.v2.position :=
  ⟨by decide, by decide, C2_box_covers_subtree refDecls 4 sampleTris [] 1 (by decide) (by decide)⟩

/-- C3: for every triangle array and every maxLeafSize >= 1, `buildBVH` returns, and every
internal node of its array has two children in the array and a box equal to the union of
the boxes of its left and right child. -/
theorem C3_box_is_union_of_children (D : Decls) (fuel : Nat) (meshTris : List Triangle)
    (flattenedBVH : List BVHNode) (maxLeafSize : Nat)
    (hfuel : meshTris.length < fuel) (hm : 1 ≤ maxLeafSize) :
    ∃ (nodes : List BVHNode) (primInfos : List PrimitiveInfo),
      buildBVHWith D fuel meshTris flattenedBVH maxLeafSize = some (nodes, primInfos) ∧
      ∀ (i : Nat) (node : BVHNode), nodes[i]? = some node → node.isLeaf = false →
        ∃ (l r : BVHNode), 0 ≤ node.left ∧ 0 ≤ node.right ∧
          nodes[node.left.toNat]? = some l ∧ nodes[node.right.toNat]? = some r ∧
          node.bbox = l.bbox.expand r.bbox := by
  obtain ⟨st, nodes, t, _, hbuild, _, _, hlent, hflat, hgood⟩ :=
    buildBVHWith_spec D fuel meshTris flattenedBVH maxLeafSize hfuel hm
  refine ⟨nodes, st.primInfos, hbuild, ?_⟩
  intro i node hnode hleaf
  have hi : i < t.size := by
    rw [← hlent]
    exact lt_length_of_getElem? hnode
  obtain ⟨t', X, P', Y, f', g', _, _, _⟩ :=
    node_traversal D maxLeafSize t hflat hgood i hi
  cases t' with
  | leaf b s r =>
    obtain ⟨n, hn, _, hl, _⟩ := f'
    rw [hnode] at hn
    rw [Option.some.inj hn, hl] at hleaf
    cases hleaf
  | node b tl tr =>
    obtain ⟨n, hn, hb, _, hleft, hright, hfl, hfr⟩ := f'
    obtain ⟨_, hbox, hgl, hgr, _⟩ := g'
    rw [hnode] at hn
    have hnn := Option.some.inj hn
    subst hnn
    obtain ⟨l, hl, hlb⟩ := Flat.root tl _ hfl
    obtain ⟨r, hr, hrb⟩ := Flat.root tr _ hfr
    refine ⟨l, r, by rw [hleft]; omega, by rw [hright]; omega, ?_, ?_, ?_⟩
    · rw [hleft, Int.toNat_ofNat]
      exact hl
    · rw [hright, Int.toNat_ofNat]
      exact hr
    · rw [hb, hbox, hlb, hrb, Good.bbox D maxLeafSize tl _ _ hgl,
        Good.bbox D maxLeafSize tr _ _ hgr, ← rangeBox_append, List.take_append_drop]

/-- The statement of C3 at three triangles, leaf size 1. -/
theorem C3_witness :
    sampleTris.length < 4 ∧ 1 ≤ 1 ∧
    ∃ (nodes : List BVHNode) (primInfos : List PrimitiveInfo),
      buildBVHWith refDecls 4 sampleTris [] 1 = some (nodes, primInfos) ∧
      ∀ (i : Nat) (node : BVHNode), nodes[i]? = some node → node.isLeaf = false →
        ∃ (l r : BVHNode), 0 ≤ node.left ∧ 0 ≤ node.right ∧
          nodes[node.left.toNat]? = some l ∧ nodes[node.right.toNat]? = some r ∧
          node.bbox = l.bbox.expand r.bbox :=
  ⟨by decide, by decide,
    C3_box_is_union_of_children refDecls 4 sampleTris [] 1 (by decide) (by decide)⟩

/-- C4: for every triangle array and every maxLeafSize >= 1, after the call of
`buildBVHRecursive` made by `buildBVH`, every slot below `totalNodes` holds a node; when it
is a leaf its range is at most maxLeafSize and its left and right are -1, and when it is not
a leaf the ranges of the leaves below it add up to more than maxLeafSize. -/
theorem C4_leaf_size_bound (D : Decls) (fuel : Nat) (meshTris : List Triangle)
    (flattenedBVH : List BVHNode) (maxLeafSize : Nat)
    (hfuel : meshTris.length < fuel) (hm : 1 ≤ maxLeafSize) :
    ∃ (st : BuildState),
      buildBVHRecursive D fuel
        ⟨collectPrimInfos D 0 meshTris,
          resize flattenedBVH (2 * meshTris.length) D.defaultNode, 0⟩ 0
        meshTris.length maxLeafSize = some (st, 0) ∧
      ∀ i, i < st.totalNodes → ∃ node, st.flattenedBVH[i]? = some node ∧
        (node.isLeaf = true →
          node.range ≤ (maxLeafSize : Int) ∧ node.left = -1 ∧ node.right = -1) ∧
        (node.isLeaf = false →
          ∃ below, preorder st.flattenedBVH st.flattenedBVH.length (i : Int) = some below ∧
            (maxLeafSize : Int) <
              ((leafRanges st.flattenedBVH below).map (fun sr => sr.2)).sum) := by
  obtain ⟨st, t, eq, _, htot, _, _, hflat, hgood⟩ :=
    build_call_spec D fuel meshTris flattenedBVH maxLeafSize hfuel hm
  refine ⟨st, eq, ?_⟩
  intro i hi
  obtain ⟨t', X, P', Y, f', g', _, hpre, hleaves⟩ :=
    node_traversal D maxLeafSize t hflat hgood i (by rw [← htot]; exact hi)
  have hsum := Good.sum D maxLeafSize t' P' _ g'
  cases t' with
  | leaf b s r =>
    obtain ⟨n, hn, _, hl, _, hrange, hleft, hright⟩ := f'
    obtain ⟨_, hr, hle, _⟩ := g'
    refine ⟨n, hn, fun _ => ⟨?_, hleft, hright⟩, fun h => ?_⟩
    · rw [hrange, hr]
      exact_mod_cast hle
    · rw [hl] at h
      cases h
  | node b tl tr =>
    have hgt := g'.1
    obtain ⟨n, hn, _, hl, _⟩ := f'
    refine ⟨n, hn, fun h => ?_, fun _ => ⟨_, hpre, ?_⟩⟩
    · rw [hl] at h
      cases h
    · rw [hleaves, hsum]
      exact_mod_cast hgt

/-- The statement of C4 at three triangles, leaf size 1. -/
theorem C4_witness :
    sampleTris.length < 4 ∧ 1 ≤ 1 ∧
    ∃ (st : BuildState),
      buildBVHRecursive refDecls 4
        ⟨collectPrimInfos refDecls 0 sampleTris,
          resize [] (2 * sampleTris.length) refDecls.defaultNode, 0⟩ 0
        sampleTris.length 1 = some (st, 0) ∧
      ∀ i, i < st.totalNodes → ∃ node, st.flattenedBVH[i]? = some node ∧
        (node.isLeaf = true →
          node.range ≤ ((1 : Nat) : Int) ∧ node.left = -1 ∧ node.right = -1) ∧
        (node.isLeaf = false →
          ∃ below, preorder st.flattenedBVH st.flattenedBVH.length (i : Int) = some below ∧
            ((1 : Nat) : Int) <
              ((leafRanges st.flattenedBVH below).map (fun sr => sr.2)).sum) :=
  ⟨by decide, by decide, C4_leaf_size_bound refDecls 4 sampleTris [] 1 (by decide) (by decide)⟩

/-- C5: for every triangle array and every maxLeafSize >= 1, the array produced by
`buildBVH` is the pre-order listing of the tree: the root call returns index 0, the length of
the array is the final value of the counter `totalNodes`, the traversal from node 0 meets
exactly the indices `0, 1, ..., length - 1` in this order, and every internal node at index
`i` has `left = i + 1` and `right = i + 1 +` the number of nodes met from its left child. -/
theorem C5_array_is_preorder (D : Decls) (fuel : Nat) (meshTris : List Triangle)
    (flattenedBVH : List BVHNode) (maxLeafSize : Nat)
    (hfuel : meshTris.length < fuel) (hm : 1 ≤ maxLeafSize) :
    ∃ (st : BuildState) (nodes : List BVHNode),
      buildBVHRecursive D fuel
        ⟨collectPrimInfos D 0 meshTris,
          resize flattenedBVH (2 * meshTris.length) D.defaultNode, 0⟩ 0
        meshTris.length maxLeafSize = some (st, 0) ∧
      buildBVHWith D fuel meshTris flattenedBVH maxLeafSize = some (nodes, st.primInfos) ∧
      nodes.length = st.totalNodes ∧
      preorder nodes nodes.length 0 = some (List.range nodes.length) ∧
      ∀ (i : Nat) (node : BVHNode), nodes[i]? = some node → node.isLeaf = false →
        node.left = (i : Int) + 1 ∧
        ∃ sub, preorder nodes nodes.length node.left = some sub ∧
          node.right = (i : Int) + 1 + (sub.length : Int) := by
  obtain ⟨st, nodes, t, eq, hbuild, _, hlenst, hlent, hflat, hgood⟩ :=
    buildBVHWith_spec D fuel meshTris flattenedBVH maxLeafSize hfuel hm
  obtain ⟨h1, _⟩ := root_traversal D maxLeafSize hm t hflat hgood
  refine ⟨st, nodes, eq, hbuild, hlenst, by rw [hlent]; exact h1, ?_⟩
  intro i node hnode hleaf
  have hi : i < t.size := by
    rw [← hlent]
    exact lt_length_of_getElem? hnode
  obtain ⟨t', X, P', Y, f', _, _, _, _⟩ :=
    node_traversal D maxLeafSize t hflat hgood i hi
  cases t' with
  | leaf b s r =>
    obtain ⟨n, hn, _, hl, _⟩ := f'
    rw [hnode] at hn
    rw [Option.some.inj hn, hl] at hleaf
    cases hleaf
  | node b tl tr =>
    obtain ⟨n, hn, _, _, hleft, hright, hfl, _⟩ := f'
    rw [hnode] at hn
    have hnn := Option.some.inj hn
    subst hnn
    have hb := Flat.bound tl _ hfl
    refine ⟨by rw [hleft]; push_cast; ring, List.range' (i + 1) tl.size, ?_, ?_⟩
    · rw [hleft]
      exact preorder_of_flat tl (i + 1) nodes.length hfl (by omega)
    · rw [hright, List.length_range']
      push_cast
      ring

/-- The statement of C5 at three triangles, leaf size 1. -/
theorem C5_witness :
    sampleTris.length < 4 ∧ 1 ≤ 1 ∧
    ∃ (st : BuildState) (nodes : List BVHNode),
      buildBVHRecursive refDecls 4
        ⟨collectPrimInfos refDecls 0 sampleTris,
          resize [] (2 * sampleTris.length) refDecls.defaultNode, 0⟩ 0
        sampleTris.length 1 = some (st, 0) ∧
      buildBVHWith refDecls 4 sampleTris [] 1 = some (nodes, st.primInfos) ∧
      nodes.length = st.totalNodes ∧
      preorder nodes nodes.length 0 = some (List.range nodes.length) ∧
      ∀ (i : Nat) (node : BVHNode), nodes[i]? = some node → node.isLeaf = false →
        node.left = (i : Int) + 1 ∧
        ∃ sub, preorder nodes nodes.length node.left = some sub ∧
          node.right = (i : Int) + 1 + (sub.length : Int) :=
  ⟨by decide, by decide, C5_array_is_preorder refDecls 4 sampleTris [] 1 (by decide) (by decide)⟩

/-- C6: for every `primInfos` array (whatever the centroids), every range
`0 <= start <= end <= size` and every maxLeafSize >= 1, `buildBVHRecursive` terminates: with
fuel above `end - start` it returns, in every state; and when it splits, that is when
`end - start > maxLeafSize`, the two recursive calls are on the ranges `[start, mid)` and
`[mid, end)` with `mid = (start + end) / 2`, both inside the range and strictly shorter. -/
theorem C6_build_terminates (D : Decls) (st : BuildState) (start end_ maxLeafSize fuel : Nat)
    (hm : 1 ≤ maxLeafSize) (hse : start ≤ end_) (hes : end_ ≤ st.primInfos.length)
    (hfuel : end_ - start < fuel) :
    (∃ st' idx, buildBVHRecursive D fuel st start end_ maxLeafSize = some (st', idx) ∧
      st'.primInfos.length = st.primInfos.length) ∧
    (maxLeafSize < end_ - start →
      start ≤ (start + end_) / 2 ∧ (start + end_) / 2 ≤ end_ ∧
      (start + end_) / 2 - start < end_ - start ∧
      end_ - (start + end_) / 2 < end_ - start) :=
  ⟨buildBVHRecursive_returns D maxLeafSize hm fuel st start end_ hse hes hfuel,
    fun h => by omega⟩

/-- The statement of C6 on three primitives with one and the same centroid, leaf size 1. -/
theorem C6_witness :
    1 ≤ 1 ∧ 0 ≤ 3 ∧
    3 ≤ (BuildState.mk (List.replicate 3 ⟨0, refDecls.emptyBox, ⟨0, 0, 0⟩⟩) [] 0).primInfos.length ∧
    3 - 0 < 4 ∧
    (∃ st' idx, buildBVHRecursive refDecls 4
        (BuildState.mk (List.replicate 3 ⟨0, refDecls.emptyBox, ⟨0, 0, 0⟩⟩) [] 0) 0 3 1 =
          some (st', idx) ∧
      st'.primInfos.length =
        (BuildState.mk (List.replicate 3 ⟨0, refDecls.emptyBox, ⟨0, 0, 0⟩⟩) [] 0).primInfos.length) ∧
    (1 < 3 - 0 →
      0 ≤ (0 + 3) / 2 ∧ (0 + 3) / 2 ≤ 3 ∧ (0 + 3) / 2 - 0 < 3 - 0 ∧
      3 - (0 + 3) / 2 < 3 - 0) :=
  ⟨by decide, by decide, by decide, by decide,
    C6_build_terminates refDecls
      (BuildState.mk (List.replicate 3 ⟨0, refDecls.emptyBox, ⟨0, 0, 0⟩⟩) [] 0) 0 3 1 4
      (by decide) (by decide) (by decide) (by decide)⟩

/-! ## Mesh ingestion, step by step -/

theorem extends_refl (s : Members) : Extends s s :=
  ⟨⟨[], (List.append_nil _).symm⟩, rfl, rfl⟩

theorem extends_trans {s₁ s₂ s₃ : Members} (h₁ : Extends s₁ s₂) (h₂ : Extends s₂ s₃) :
    Extends s₁ s₃ := by
  obtain ⟨⟨a, ha⟩, hm, hg⟩ := h₁
  obtain ⟨⟨b, hb⟩, hm', hg'⟩ := h₂
  exact ⟨⟨a ++ b, by rw [hb, ha, List.append_assoc]⟩, hm'.trans hm, hg'.trans hg⟩

theorem texelLoop_returns (image : GltfImage)
    (h : image.image ≠ [] → image.component ≠ 0) :
    ∀ (fuel i : Nat) (data : List Vec3), image.image.length ≤ i + fuel →
      ∃ d, texelLoop image fuel i data = some d := by
  intro fuel
  induction fuel with
  | zero =>
    intro i data hle
    have hi : ¬ i < image.image.length := by omega
    exact ⟨data, by simp [texelLoop, hi]⟩
  | succ fuel ih =>
    intro i data hle
    by_cases hi : i < image.image.length
    · have hne : image.image ≠ [] := by
        intro he
        rw [he] at hi
        exact Nat.not_lt_zero _ hi
      have hc := h hne
      have hle' : image.image.length ≤ i + image.component + fuel := by omega
      simp only [texelLoop, hi, if_true]
      split_ifs
      · exact ih _ _ hle'
      · exact ih _ _ hle'
      · exact ih _ _ hle'
    · exact ⟨data, by simp [texelLoop, hi]⟩

theorem keepsRange_trans {g₁ g₂ g₃ : Geom} (h₁ : KeepsRange g₁ g₂) (h₂ : KeepsRange g₂ g₃) :
    KeepsRange g₁ g₃ :=
  ⟨h₂.1.trans h₁.1, h₂.2.1.trans h₁.2.1, h₂.2.2.trans h₁.2.2⟩

theorem readAttributes_range :
    ∀ (l : List (String × GltfAccessor)) (ptrs : AttrPointers) (g : Geom),
      KeepsRange g (readAttributes l (ptrs, g)).2
  | [], _, _ => ⟨rfl, rfl, rfl⟩
  | (name, acc) :: rest, ptrs, g => by
    simp only [readAttributes]
    split_ifs
    · exact readAttributes_range rest _ _
    · exact readAttributes_range rest _ _
    · exact readAttributes_range rest _ _
    · exact readAttributes_range rest _ _

theorem loadTexture_frame (image : GltfImage) (s : Members) (g : Geom)
    (r : Members × Geom) (h : loadTexture image s g = some r) :
    Extends s r.1 ∧ KeepsRange g r.2 := by
  unfold loadTexture at h
  simp only [] at h
  split at h
  · cases h
  · cases h
    exact ⟨extends_refl _, rfl, rfl, rfl⟩

theorem loadTexture_returns (image : GltfImage) (s : Members) (g : Geom)
    (h : image.image ≠ [] → image.component ≠ 0) : ∃ r, loadTexture image s g = some r := by
  obtain ⟨d, hd⟩ := texelLoop_returns image h image.image.length 0 s.texturesData (by omega)
  unfold loadTexture
  simp only [hd]
  exact ⟨_, rfl⟩

theorem readAttributes_positions :
    ∀ (l : List (String × GltfAccessor)) (ptrs : AttrPointers) (g : Geom),
      (ptrs.positions ≠ none ∨ ∃ accessor, ("POSITION", accessor) ∈ l) →
      (readAttributes l (ptrs, g)).1.positions ≠ none
  | [], ptrs, g, h => by
    rcases h with h | ⟨_, h⟩
    · exact h
    · cases h
  | (name, acc) :: rest, ptrs, g, h => by
    simp only [readAttributes]
    have hrest : ∀ (q : AttrPointers), q.positions = ptrs.positions → name ≠ "POSITION" →
        q.positions ≠ none ∨ ∃ accessor, ("POSITION", accessor) ∈ rest := by
      intro q hq hname
      rcases h with h | ⟨a, h⟩
      · exact Or.inl (hq ▸ h)
      · rcases List.mem_cons.mp h with h | h
        · exact absurd (congrArg Prod.fst h).symm hname
        · exact Or.inr ⟨a, h⟩
    split_ifs with h1 h2 h3
    · exact readAttributes_positions rest _ _ (Or.inl (by simp))
    · exact readAttributes_positions rest _ _ (hrest _ rfl h1)
    · exact readAttributes_positions rest _ _ (hrest _ rfl h1)
    · exact readAttributes_positions rest _ _ (hrest _ rfl h1)

theorem makeTriangles_returns (ptrs : AttrPointers) (h : ptrs.positions ≠ none) :
    ∀ (n : Nat) (indices : List Nat), indices.length ≤ n →
      ∃ tris, makeTriangles ptrs indices = some tris := by
  obtain ⟨pos, hpos⟩ : ∃ pos, ptrs.positions = some pos := by
    cases hp : ptrs.positions with
    | none => exact absurd hp h
    | some pos => exact ⟨pos, rfl⟩
  intro n
  induction n with
  | zero =>
    intro indices hle
    match indices, hle with
    | [], _ => exact ⟨[], rfl⟩
  | succ n ih =>
    intro indices hle
    match indices, hle with
    | [], _ => exact ⟨[], rfl⟩
    | [_], _ => exact ⟨[], rfl⟩
    | [_, _], _ => exact ⟨[], rfl⟩
    | a :: b :: c :: rest, hle =>
      obtain ⟨tris, ht⟩ := ih rest (by simp only [List.length_cons] at hle; omega)
      simp only [makeTriangles, setVertex, hpos, ht]
      exact ⟨_, rfl⟩

theorem loadPrimitive_frame (primitive : GltfPrimitive) (s : Members) (g : Geom)
    (r : Members × Geom) (h : loadPrimitive primitive s g = some r) :
    Extends s r.1 ∧ KeepsRange g r.2 := by
  unfold loadPrimitive at h
  have hra := readAttributes_range primitive.attributes ⟨none, none, none, 0⟩ g
  generalize readAttributes primitive.attributes (⟨none, none, none, 0⟩, g) = ra at h hra
  obtain ⟨ptrs, g1⟩ := ra
  simp only [] at h hra
  split at h
  · cases h
    exact ⟨extends_refl _, hra⟩
  · split at h
    · rename_i s2 g2 tris htex _
      cases h
      have hframe : Extends s s2 ∧ KeepsRange g1 g2 := by
        split at htex
        · exact loadTexture_frame _ _ _ _ htex
        · cases htex
          exact ⟨extends_refl _, rfl, rfl, rfl⟩
      obtain ⟨hext, hk⟩ := hframe
      exact ⟨extends_trans hext ⟨⟨_, rfl⟩, rfl, rfl⟩, keepsRange_trans hra hk⟩
    · cases h

theorem loadPrimitive_returns (primitive : GltfPrimitive) (s : Members) (g : Geom)
    (h : primitive.WellFormed) : ∃ r, loadPrimitive primitive s g = some r := by
  unfold loadPrimitive
  have hpos := readAttributes_positions primitive.attributes ⟨none, none, none, 0⟩ g
    (Or.inr h.1)
  generalize readAttributes primitive.attributes (⟨none, none, none, 0⟩, g) = ra at hpos
  obtain ⟨ptrs, g1⟩ := ra
  simp only [] at hpos ⊢
  split
  · exact ⟨_, rfl⟩
  · rename_i indices _
    obtain ⟨tris, ht⟩ := makeTriangles_returns ptrs hpos indices.length indices (Nat.le_refl _)
    cases himg : primitive.baseColorImage with
    | none =>
      simp only [ht]
      exact ⟨_, rfl⟩
    | some image =>
      obtain ⟨r, hr⟩ := loadTexture_returns image s g1 (h.2 image himg)
      simp only [hr, ht]
      exact ⟨_, rfl⟩

theorem loadPrimitives_frame :
    ∀ (l : List GltfPrimitive) (s : Members) (g : Geom) (r : Members × Geom),
      loadPrimitives l s g = some r → Extends s r.1 ∧ KeepsRange g r.2
  | [], s, g, r, h => by
    cases h
    exact ⟨extends_refl _, rfl, rfl, rfl⟩
  | primitive :: rest, s, g, r, h => by
    simp only [loadPrimitives] at h
    split at h
    · cases h
    · rename_i s1 g1 h1
      obtain ⟨e1, k1⟩ := loadPrimitive_frame primitive s g _ h1
      obtain ⟨e2, k2⟩ := loadPrimitives_frame rest s1 g1 r h
      exact ⟨extends_trans e1 e2, keepsRange_trans k1 k2⟩

theorem loadPrimitives_returns :
    ∀ (l : List GltfPrimitive) (s : Members) (g : Geom),
      (∀ primitive ∈ l, primitive.WellFormed) →
      ∃ r, loadPrimitives l s g = some r
  | [], s, g, _ => ⟨_, rfl⟩
  | primitive :: rest, s, g, h => by
    obtain ⟨⟨s1, g1⟩, h1⟩ := loadPrimitive_returns primitive s g
      (h primitive (List.mem_cons_self _ _))
    obtain ⟨r, hr⟩ := loadPrimitives_returns rest s1 g1
      (fun q hq => h q (List.mem_cons_of_mem _ hq))
    exact ⟨r, by simp only [loadPrimitives, h1, hr]⟩

theorem loadMeshes_frame :
    ∀ (l : List GltfMesh) (s : Members) (g : Geom) (r : Members × Geom),
      loadMeshes l s g = some r →
      Extends s r.1 ∧ r.2.geometryid = g.geometryid ∧
        r.2.startTriangleIndex = g.startTriangleIndex ∧
        (l = [] → r.2.endTriangleIndex = g.endTriangleIndex) ∧
        (l ≠ [] → r.2.endTriangleIndex = (r.1.meshTris.length : Int) - 1)
  | [], s, g, r, h => by
    cases h
    exact ⟨extends_refl _, rfl, rfl, fun _ => rfl, fun hne => absurd rfl hne⟩
  | mesh :: rest, s, g, r, h => by
    simp only [loadMeshes] at h
    split at h
    · cases h
    · rename_i s1 g1 h1
      obtain ⟨e1, i1, a1, _⟩ := loadPrimitives_frame mesh.primitives s g _ h1
      obtain ⟨e2, i2, a2, b2, c2⟩ := loadMeshes_frame rest s1 _ r h
      refine ⟨extends_trans e1 e2, i2.trans i1, a2.trans a1, ?_, ?_⟩
      · intro hnil
        exact absurd hnil (List.cons_ne_nil _ _)
      intro _
      by_cases hrest : rest = []
      · subst hrest
        simp only [loadMeshes] at h
        cases h
        rfl
      · exact c2 hrest

theorem loadMeshes_returns :
    ∀ (l : List GltfMesh) (s : Members) (g : Geom),
      (∀ mesh ∈ l, ∀ primitive ∈ mesh.primitives, primitive.WellFormed) →
      ∃ r, loadMeshes l s g = some r
  | [], s, g, _ => ⟨_, rfl⟩
  | mesh :: rest, s, g, h => by
    obtain ⟨⟨s1, g1⟩, h1⟩ := loadPrimitives_returns mesh.primitives s g
      (h mesh (List.mem_cons_self _ _))
    obtain ⟨r, hr⟩ := loadMeshes_returns rest s1
      { g1 with endTriangleIndex := (s1.meshTris.length : Int) - 1 }
      (fun m hm => h m (List.mem_cons_of_mem _ hm))
    exact ⟨r, by simp only [loadMeshes, h1, hr]⟩

theorem loadFromGltf_frame (assets : String → Option GltfModel) (name : String)
    (s : Members) (g : Geom) (r : Members × Geom)
    (h : loadFromGltf assets name s g = some r) :
    Extends s r.1 ∧ r.2.geometryid = g.geometryid := by
  unfold loadFromGltf at h
  split at h
  · cases h
    exact ⟨extends_refl _, rfl⟩
  · obtain ⟨e, i, _⟩ := loadMeshes_frame _ _ _ _ h
    exact ⟨e, i⟩

theorem loadFromGltf_returns (assets : String → Option GltfModel) (name : String)
    (s : Members) (g : Geom)
    (h : ∀ model, assets name = some model → model.WellFormed) :
    ∃ r, loadFromGltf assets name s g = some r := by
  unfold loadFromGltf
  cases ha : assets name with
  | none => exact ⟨_, rfl⟩
  | some model => exact loadMeshes_returns _ _ _ (h model ha)

/-! ## The scene parser, step by step -/

theorem lookup_mem :
    ∀ (M : List (String × Nat)) (k : String) (v : Nat), M.lookup k = some v → (k, v) ∈ M
  | [], _, _, h => by cases h
  | (k', v') :: rest, k, v, h => by
    by_cases hk : k = k'
    · subst hk
      simp only [List.lookup, beq_self_eq_true] at h
      cases h
      exact List.mem_cons_self _ _
    · have hb : (k == k') = false := by simpa using hk
      simp only [List.lookup, hb] at h
      exact List.mem_cons_of_mem _ (lookup_mem rest k v h)

theorem loadMaterials_spec :
    ∀ (l : List (String × MaterialJson)) (M : List (String × Nat)) (mats : List Material),
      (∀ kv ∈ M, kv.2 < mats.length) →
      (∀ kv ∈ (loadMaterials l (M, mats)).1, kv.2 < (loadMaterials l (M, mats)).2.length) ∧
        (loadMaterials l (M, mats)).2.length = mats.length + l.length
  | [], M, mats, h => ⟨h, rfl⟩
  | (name, p) :: rest, M, mats, h => by
    simp only [loadMaterials]
    have hinv : ∀ kv ∈ (name, mats.length % 2 ^ 32) :: M,
        kv.2 < (mats ++ [loadMaterial p]).length := by
      intro kv hkv
      rw [List.length_append, List.length_singleton]
      rcases List.mem_cons.mp hkv with rfl | hkv
      · exact Nat.lt_succ_of_le (Nat.mod_le _ _)
      · exact Nat.lt_succ_of_lt (h kv hkv)
    obtain ⟨h1, h2⟩ := loadMaterials_spec rest _ _ hinv
    refine ⟨h1, ?_⟩
    rw [h2, List.length_append, List.length_singleton, List.length_cons]
    omega

theorem mapIndex_spec (M : List (String × Nat)) (k : String) (L : Nat)
    (h : ∀ kv ∈ M, kv.2 < L) (hL : 0 < L) :
    (∀ kv ∈ (mapIndex M k).1, kv.2 < L) ∧ (mapIndex M k).2 < L := by
  unfold mapIndex
  cases hl : M.lookup k with
  | none =>
    refine ⟨?_, hL⟩
    intro kv hkv
    rcases List.mem_cons.mp hkv with rfl | hkv
    · exact hL
    · exact h kv hkv
  | some v => exact ⟨h, h (k, v) (lookup_mem M k v hl)⟩

theorem classify_unrecognized (assets : String → Option GltfModel) (p : ObjectJson)
    (s : Members) (g : Geom) (h : recognized p.TYPE = false) :
    classify assets p s g = none := by
  simp only [recognized, Bool.or_eq_false_iff, decide_eq_false_iff_not] at h
  simp [classify, h.1.1, h.1.2, h.2]

theorem classify_recognized (assets : String → Option GltfModel) (p : ObjectJson)
    (s : Members) (g : Geom) (h : recognized p.TYPE = true) :
    ∃ res, classify assets p s g = some res ∧
      (res = some (s, { g with type := GeomType.CUBE }) ∨
        res = some (s, { g with type := GeomType.SPHERE }) ∨
        res = loadFromGltf assets p.FILE s { g with type := GeomType.MESH }) := by
  unfold classify
  split_ifs with h1 h2 h3
  · exact ⟨_, rfl, Or.inl rfl⟩
  · exact ⟨_, rfl, Or.inr (Or.inl rfl)⟩
  · exact ⟨_, rfl, Or.inr (Or.inr rfl)⟩
  · simp [recognized, h1, h2, h3] at h

theorem classify_frame (assets : String → Option GltfModel) (p : ObjectJson)
    (s : Members) (g : Geom) (s1 : Members) (g1 : Geom)
    (h : classify assets p s g = some (some (s1, g1))) :
    recognized p.TYPE = true ∧ Extends s s1 ∧ g1.geometryid = g.geometryid := by
  cases hrec : recognized p.TYPE with
  | false =>
    rw [classify_unrecognized assets p s g hrec] at h
    cases h
  | true =>
    obtain ⟨res, hres, hcase⟩ := classify_recognized assets p s g hrec
    rw [hres] at h
    have hres' : res = some (s1, g1) := Option.some.inj h
    refine ⟨rfl, ?_⟩
    rcases hcase with hc | hc | hc
    · rw [hc] at hres'
      cases hres'
      exact ⟨extends_refl _, rfl⟩
    · rw [hc] at hres'
      cases hres'
      exact ⟨extends_refl _, rfl⟩
    · rw [hc] at hres'
      exact loadFromGltf_frame _ _ _ _ _ hres'

theorem gid_succ (k : Nat) : (k % 2 ^ 32 + 1) % 2 ^ 32 = (k + 1) % 2 ^ 32 := by
  omega

/-- When the loop over `Objects` returns, it has appended one instance per object with a
classified type, whose identifier is the position of the object, and has kept `materials`;
the material indices are below the size of `materials` when that holds of the map and the
table is not empty. -/
theorem loadObjects_spec (assets : String → Option GltfModel) (newGeom : Geom) :
    ∀ (objs : List ObjectJson) (M : List (String × Nat)) (k : Nat) (s r : Members),
      loadObjects assets newGeom objs M (k % 2 ^ 32) s = some r →
      ∃ (added : List Geom),
        r.geoms = s.geoms ++ added ∧ r.materials = s.materials ∧
        added.map (fun g => g.geometryid) =
          ((objs.enumFrom k).filter (fun e => recognized e.2.TYPE)).map
            (fun e => e.1 % 2 ^ 32) ∧
        ((∀ kv ∈ M, kv.2 < s.materials.length) → 0 < s.materials.length →
          ∀ g ∈ added, g.materialid < s.materials.length)
  | [], M, k, s, r, h => by
    cases h
    exact ⟨[], (List.append_nil _).symm, rfl, rfl, fun _ _ g hg => by cases hg⟩
  | p :: rest, M, k, s, r, h => by
    simp only [loadObjects, gid_succ] at h
    cases hcl : classify assets p s { newGeom with geometryid := k % 2 ^ 32 } with
    | none =>
      have hrec : recognized p.TYPE = false := by
        cases hr : recognized p.TYPE with
        | false => rfl
        | true =>
          obtain ⟨res, hres, _⟩ := classify_recognized assets p s
            { newGeom with geometryid := k % 2 ^ 32 } hr
          rw [hres] at hcl
          cases hcl
      rw [hcl] at h
      obtain ⟨added, hg, hm, hid, hmat⟩ := loadObjects_spec assets newGeom rest M (k + 1) s r h
      refine ⟨added, hg, hm, ?_, hmat⟩
      simp only [List.enumFrom_cons, List.filter_cons, hrec]
      simpa using hid
    | some res =>
      cases res with
      | none =>
        rw [hcl] at h
        cases h
      | some sg =>
        obtain ⟨s1, g1⟩ := sg
        rw [hcl] at h
        obtain ⟨hrec, ⟨_, hm1, hg1⟩, hid1⟩ := classify_frame assets p s _ s1 g1 hcl
        obtain ⟨added, hg, hm, hid, hmat⟩ := loadObjects_spec assets newGeom rest _ (k + 1) _ r h
        refine ⟨{ g1 with materialid := (mapIndex M p.MATERIAL).2, translation := p.TRANS,
                          rotation := p.ROTAT, scale := p.SCALE } :: added, ?_, ?_, ?_, ?_⟩
        · rw [hg]
          show (s1.geoms ++ _) ++ added = _
          rw [hg1, List.append_assoc]
          rfl
        · rw [hm]
          exact hm1
        · simp only [List.enumFrom_cons, List.filter_cons, hrec, List.map_cons, if_true]
          rw [hid]
          exact congrArg (fun x => x :: _) hid1
        · intro hM hL g hgmem
          obtain ⟨hM', hv⟩ := mapIndex_spec M p.MATERIAL s.materials.length hM hL
          rcases List.mem_cons.mp hgmem with rfl | hgmem
          · exact hv
          · have hlen : s1.materials.length = s.materials.length := by rw [hm1]
            have := hmat (fun kv hkv => hlen ▸ hM' kv hkv) (hlen ▸ hL) g hgmem
            exact hlen ▸ this

/-- The loop over `Objects` returns when the mesh ingestion does. -/
theorem loadObjects_returns (assets : String → Option GltfModel) (newGeom : Geom)
    (hwf : ∀ name model, assets name = some model → model.WellFormed) :
    ∀ (objs : List ObjectJson) (M : List (String × Nat)) (gid : Nat) (s : Members),
      ∃ r, loadObjects assets newGeom objs M gid s = some r
  | [], _, _, s => ⟨s, rfl⟩
  | p :: rest, M, gid, s => by
    cases hrec : recognized p.TYPE with
    | false =>
      obtain ⟨r, hr⟩ := loadObjects_returns assets newGeom hwf rest M ((gid + 1) % 2 ^ 32) s
      exact ⟨r, by simp only [loadObjects, classify_unrecognized assets p s _ hrec, hr]⟩
    | true =>
      obtain ⟨res, hres, hcase⟩ := classify_recognized assets p s
        { newGeom with geometryid := gid } hrec
      have hsome : ∃ sg, res = some sg := by
        rcases hcase with hc | hc | hc
        · exact ⟨_, hc⟩
        · exact ⟨_, hc⟩
        · obtain ⟨sg, hsg⟩ := loadFromGltf_returns assets p.FILE s
            { newGeom with geometryid := gid, type := GeomType.MESH } (hwf p.FILE)
          exact ⟨sg, hc.trans hsg⟩
      obtain ⟨⟨s1, g1⟩, hsg⟩ := hsome
      rw [hsg] at hres
      obtain ⟨r, hr⟩ := loadObjects_returns assets newGeom hwf rest
        (mapIndex M p.MATERIAL).1 ((gid + 1) % 2 ^ 32)
        { s1 with geoms := s1.geoms ++
            [{ g1 with materialid := (mapIndex M p.MATERIAL).2, translation := p.TRANS,
                       rotation := p.ROTAT, scale := p.SCALE }] }
      exact ⟨r, by simp only [loadObjects, hres, hr]⟩

theorem loadFromJSON_returns (assets : String → Option GltfModel) (newGeom : Geom)
    (data : SceneJson) (s : Members)
    (hwf : ∀ name model, assets name = some model → model.WellFormed) :
    ∃ r, loadFromJSON assets newGeom data s = some r := by
  unfold loadFromJSON
  exact loadObjects_returns assets newGeom hwf _ _ _ _

/-! ## Claims on the scene parser and the mesh ingestion -/

/-- C7, on a document without materials: the scene of one cube whose `MATERIAL` names no
entry of an empty `Materials` section loads, and its instance has `materialid` 0, which is
not below `materials.size()` = 0. -/
theorem C7_counterexample :
    ∃ r, loadFromJSON noAssets sampleGeom ⟨[], [sampleObject "cube" "white"]⟩ Members.empty =
        some r ∧
      ∃ g ∈ r.geoms, ¬ g.materialid < r.materials.length :=
  ⟨⟨[], [sampleGeom], [], [], []⟩, by decide, sampleGeom, by decide, by decide⟩

/-- C7, amended: for every scene document whose `Materials` section has at least one entry,
after `loadFromJSON` every geometry instance it has appended to `geoms` has
`materialid < materials.size()`, also when its `MATERIAL` names no entry (the lookup then
yields 0); and `loadFromJSON` does return when the primitives of the assets are well
formed. -/
theorem C7_material_index_valid (assets : String → Option GltfModel) (newGeom : Geom)
    (data : SceneJson) (s : Members) (hmat : data.Materials ≠ []) :
    (∀ r, loadFromJSON assets newGeom data s = some r →
      ∃ added, r.geoms = s.geoms ++ added ∧
        ∀ g ∈ added, g.materialid < r.materials.length) ∧
    ((∀ name model, assets name = some model → model.WellFormed) →
      ∃ r, loadFromJSON assets newGeom data s = some r) := by
  refine ⟨?_, loadFromJSON_returns assets newGeom data s⟩
  intro r hr
  obtain ⟨hinv, hlen⟩ := loadMaterials_spec data.Materials [] s.materials
    (fun kv hkv => by cases hkv)
  unfold loadFromJSON at hr
  generalize loadMaterials data.Materials ([], s.materials) = lm at hinv hlen hr
  obtain ⟨M, mats⟩ := lm
  simp only [] at hinv hlen hr
  have hpos : 0 < mats.length := by
    have : 0 < data.Materials.length := List.length_pos.mpr hmat
    omega
  obtain ⟨added, hg, hm, _, hvalid⟩ :=
    loadObjects_spec assets newGeom data.Objects M 0 { s with materials := mats } r hr
  refine ⟨added, hg, ?_⟩
  rw [hm]
  exact hvalid hinv hpos

/-- The amended C7 on a document with one material and two cubes, one naming an undefined
material. -/
theorem C7_witness :
    (SceneJson.mk [("white", sampleMaterial)]
      [sampleObject "cube" "white", sampleObject "cube" "red"]).Materials ≠ [] ∧
    (∀ r, loadFromJSON noAssets sampleGeom
        (SceneJson.mk [("white", sampleMaterial)]
          [sampleObject "cube" "white", sampleObject "cube" "red"]) Members.empty = some r →
      ∃ added, r.geoms = Members.empty.geoms ++ added ∧
        ∀ g ∈ added, g.materialid < r.materials.length) ∧
    ((∀ name model, noAssets name = some model → model.WellFormed) →
      ∃ r, loadFromJSON noAssets sampleGeom
        (SceneJson.mk [("white", sampleMaterial)]
          [sampleObject "cube" "white", sampleObject "cube" "red"]) Members.empty = some r) :=
  ⟨by decide,
    C7_material_index_valid noAssets sampleGeom
      (SceneJson.mk [("white", sampleMaterial)]
        [sampleObject "cube" "white", sampleObject "cube" "red"]) Members.empty (by decide)⟩

/-- C8: for every asset that the loader delivers and that has at least one mesh, after
`loadFromGltf` the triangles of `meshTris` are those before the call followed by appended
ones, and the calling instance has `startTriangleIndex` = the size of `meshTris` before the
call and `endTriangleIndex` = its size after the last primitive of the last mesh, minus one:
the range is that of the triangles appended by the call; and `loadFromGltf` does return
when the primitives of the asset are well formed. -/
theorem C8_triangle_range_recorded (assets : String → Option GltfModel) (gltfName : String)
    (model : GltfModel) (s : Members) (meshGeom : Geom)
    (hload : assets gltfName = some model) (hmesh : model.meshes ≠ []) :
    (∀ s' meshGeom', loadFromGltf assets gltfName s meshGeom = some (s', meshGeom') →
      ∃ added : List Triangle,
        s'.meshTris = s.meshTris ++ added ∧
        meshGeom'.startTriangleIndex = (s.meshTris.length : Int) ∧
        meshGeom'.endTriangleIndex = (s'.meshTris.length : Int) - 1 ∧
        meshGeom'.endTriangleIndex - meshGeom'.startTriangleIndex + 1 =
          (added.length : Int)) ∧
    (model.WellFormed → ∃ r, loadFromGltf assets gltfName s meshGeom = some r) := by
  refine ⟨?_, fun hwf => loadFromGltf_returns assets gltfName s meshGeom
    (fun m hm => by rw [hload] at hm; cases hm; exact hwf)⟩
  intro s' g' hr
  unfold loadFromGltf at hr
  rw [hload] at hr
  simp only [] at hr
  obtain ⟨⟨⟨added, hadd⟩, _, _⟩, _, hstart, _, hend⟩ := loadMeshes_frame _ _ _ _ hr
  have hend' := hend hmesh
  simp only [] at hadd hstart hend'
  refine ⟨added, hadd, hstart, hend', ?_⟩
  rw [hend', hstart, hadd, List.length_append]
  push_cast
  ring

/-- The statement of C8 on an asset of two meshes with three triangles in all. -/
theorem C8_witness :
    (fun _ => some twoMeshModel : String → Option GltfModel) "asset" = some twoMeshModel ∧
    twoMeshModel.meshes ≠ [] ∧
    (∀ s' meshGeom',
      loadFromGltf (fun _ => some twoMeshModel) "asset" Members.empty sampleGeom =
        some (s', meshGeom') →
      ∃ added : List Triangle,
        s'.meshTris = Members.empty.meshTris ++ added ∧
        meshGeom'.startTriangleIndex = (Members.empty.meshTris.length : Int) ∧
        meshGeom'.endTriangleIndex = (s'.meshTris.length : Int) - 1 ∧
        meshGeom'.endTriangleIndex - meshGeom'.startTriangleIndex + 1 =
          (added.length : Int)) ∧
    (twoMeshModel.WellFormed →
      ∃ r, loadFromGltf (fun _ => some twoMeshModel) "asset" Members.empty sampleGeom =
        some r) :=
  ⟨rfl, by decide,
    C8_triangle_range_recorded (fun _ => some twoMeshModel) "asset" twoMeshModel
      Members.empty sampleGeom rfl (by decide)⟩

/-- C9, on a document whose first object has an unknown type: the object `torus` is
skipped, and the cube after it, the instance number 0 of `geoms`, has `geometryid` 1. -/
theorem C9_counterexample :
    ∃ r g, loadFromJSON noAssets sampleGeom
        ⟨[("white", sampleMaterial)],
          [sampleObject "torus" "white", sampleObject "cube" "white"]⟩ Members.empty =
        some r ∧
      r.geoms[0]? = some g ∧ g.geometryid ≠ 0 :=
  ⟨⟨[loadMaterial sampleMaterial], [{ sampleGeom with geometryid := 1 }], [], [], []⟩,
    { sampleGeom with geometryid := 1 }, by decide, by decide, by decide⟩

/-- C9, amended: for every `Objects` sequence, `loadFromJSON` increments the identifier
counter for every object, also for one of unrecognized `TYPE`, which is skipped: after it the
instances appended to `geoms` carry as `geometryid`, in order, the positions (from 0, as
`uint32_t`) in `Objects` of the objects with a recognized `TYPE`; and `loadFromJSON` does
return when the primitives of the assets are well formed. -/
theorem C9_identifier_is_object_position (assets : String → Option GltfModel)
    (newGeom : Geom) (data : SceneJson) (s : Members) :
    (∀ r, loadFromJSON assets newGeom data s = some r →
      ∃ added, r.geoms = s.geoms ++ added ∧
        added.map (fun g => g.geometryid) =
          ((data.Objects.enumFrom 0).filter (fun e => recognized e.2.TYPE)).map
            (fun e => e.1 % 2 ^ 32)) ∧
    ((∀ name model, assets name = some model → model.WellFormed) →
      ∃ r, loadFromJSON assets newGeom data s = some r) := by
  refine ⟨?_, loadFromJSON_returns assets newGeom data s⟩
  intro r hr
  unfold loadFromJSON at hr
  generalize loadMaterials data.Materials ([], s.materials) = lm at hr
  obtain ⟨M, mats⟩ := lm
  simp only [] at hr
  obtain ⟨added, hg, _, hid, _⟩ :=
    loadObjects_spec assets newGeom data.Objects M 0 { s with materials := mats } r hr
  exact ⟨added, hg, hid⟩

/-- C10, at a primitive whose base-color image has three channels: `loadFromGltf` appends
no texel and still appends the triangle, but it does append an entry to `textures` (with the
empty range `[0, -1]`) and it sets `hasAlbedo` and `albedoTextureId` on the instance. -/
theorem C10_three_channel_texture_is_registered :
    (loadFromGltf (fun _ => some rgbModel) "asset" Members.empty sampleGeom).map
        (fun r => (r.1.textures, r.1.texturesData, r.2.hasAlbedo, r.2.albedoTextureId,
          r.1.meshTris.length)) =
      some ([⟨0, 1, 1, 3, TextureType.AlbedoMap, 0, -1⟩], [], true, 0, 1) := by
  decide

/-! ## Claims on materials, the empty scene and texels -/

theorem loadMaterials_materials :
    ∀ (l : List (String × MaterialJson)) (M : List (String × Nat)) (mats : List Material),
      (loadMaterials l (M, mats)).2 = mats ++ l.map (fun e => loadMaterial e.2)
  | [], M, mats => by simp [loadMaterials]
  | (name, p) :: rest, M, mats => by
    simp only [loadMaterials]
    rw [loadMaterials_materials rest]
    simp

theorem loadFromJSON_materials (assets : String → Option GltfModel) (newGeom : Geom)
    (data : SceneJson) (s r : Members) (h : loadFromJSON assets newGeom data s = some r) :
    r.materials = s.materials ++ data.Materials.map (fun e => loadMaterial e.2) := by
  have hmats := loadMaterials_materials data.Materials [] s.materials
  unfold loadFromJSON at h
  generalize loadMaterials data.Materials ([], s.materials) = lm at hmats h
  obtain ⟨M, mats⟩ := lm
  simp only [] at hmats h
  obtain ⟨_, _, hm, _, _⟩ :=
    loadObjects_spec assets newGeom data.Objects M 0 { s with materials := mats } r h
  rw [hm]
  exact hmats

theorem loadMaterial_hasReflective (p : MaterialJson) :
    (loadMaterial p).hasReflective = if p.TYPE = "Specular" then 1 - p.ROUGHNESS else 0 := by
  unfold loadMaterial
  by_cases h3 : p.TYPE = "Specular"
  · have h1 : ¬ ("Specular" = "Diffuse") := by decide
    have h2 : ¬ ("Specular" = "Emitting") := by decide
    simp only [h3, h1, h2, if_true, if_false]
  · simp only [h3, if_false]
    split_ifs <;> rfl

/-- C11: for every `Materials` section, the materials that `loadFromJSON` appends are those
built entry by entry, in order, and the material built from an entry has `hasReflective`
equal to `1 - ROUGHNESS` when its `TYPE` is `Specular` and to 0 for every other `TYPE`;
and `loadFromJSON` does return when the primitives of the assets are well formed. -/
theorem C11_reflective_is_one_minus_roughness (assets : String → Option GltfModel)
    (newGeom : Geom) (data : SceneJson) (s : Members) :
    (∀ r, loadFromJSON assets newGeom data s = some r →
      r.materials = s.materials ++ data.Materials.map (fun e => loadMaterial e.2)) ∧
    (∀ p : MaterialJson,
      (p.TYPE = "Specular" → (loadMaterial p).hasReflective = 1 - p.ROUGHNESS) ∧
      (p.TYPE ≠ "Specular" → (loadMaterial p).hasReflective = 0)) ∧
    ((∀ name model, assets name = some model → model.WellFormed) →
      ∃ r, loadFromJSON assets newGeom data s = some r) := by
  refine ⟨fun r hr => loadFromJSON_materials assets newGeom data s r hr, fun p => ⟨?_, ?_⟩,
    loadFromJSON_returns assets newGeom data s⟩
  · intro h
    rw [loadMaterial_hasReflective, if_pos h]
  · intro h
    rw [loadMaterial_hasReflective, if_neg h]

/-- C12, on a specular material of roughness 2: the scene loads and its material has
`hasReflective` = 1 - 2, which is below 0. -/
theorem C12_counterexample :
    ∃ r, loadFromJSON noAssets sampleGeom ⟨[("mirror", specularMaterial 2)], []⟩
        Members.empty = some r ∧
      ∃ m ∈ r.materials, ¬ (0 ≤ m.hasReflective ∧ m.hasReflective ≤ 1) := by
  refine ⟨⟨[loadMaterial (specularMaterial 2)], [], [], [], []⟩, rfl,
    loadMaterial (specularMaterial 2), List.mem_singleton.mpr rfl, ?_⟩
  rw [loadMaterial_hasReflective]
  simp only [specularMaterial, if_true]
  norm_num

/-- C12, amended: for every `Materials` section in which every `Specular` entry has its
`ROUGHNESS` in `[0, 1]`, each material that `loadFromJSON` appends has `hasReflective` in
`[0, 1]`; and `loadFromJSON` does return when the primitives of the assets are well
formed. -/
theorem C12_reflective_in_unit_interval (assets : String → Option GltfModel)
    (newGeom : Geom) (data : SceneJson) (s : Members)
    (hrough : ∀ e ∈ data.Materials, e.2.TYPE = "Specular" →
      0 ≤ e.2.ROUGHNESS ∧ e.2.ROUGHNESS ≤ 1) :
    (∀ r, loadFromJSON assets newGeom data s = some r →
      ∃ added, r.materials = s.materials ++ added ∧
        ∀ m ∈ added, 0 ≤ m.hasReflective ∧ m.hasReflective ≤ 1) ∧
    ((∀ name model, assets name = some model → model.WellFormed) →
      ∃ r, loadFromJSON assets newGeom data s = some r) := by
  refine ⟨fun r hr => ⟨_, loadFromJSON_materials assets newGeom data s r hr, ?_⟩,
    loadFromJSON_returns assets newGeom data s⟩
  intro m hm
  obtain ⟨e, he, rfl⟩ := List.mem_map.mp hm
  rw [loadMaterial_hasReflective]
  by_cases h : e.2.TYPE = "Specular"
  · obtain ⟨h0, h1⟩ := hrough e he h
    rw [if_pos h]
    constructor <;> linarith
  · rw [if_neg h]
    exact ⟨le_refl _, zero_le_one⟩

/-- The amended C12 on a document with a specular material of roughness 1/4 and a diffuse
one. -/
theorem C12_witness :
    (∀ e ∈ (SceneJson.mk [("mirror", specularMaterial (1 / 4)), ("white", sampleMaterial)]
        []).Materials,
      e.2.TYPE = "Specular" → 0 ≤ e.2.ROUGHNESS ∧ e.2.ROUGHNESS ≤ 1) ∧
    (∀ r, loadFromJSON noAssets sampleGeom
        (SceneJson.mk [("mirror", specularMaterial (1 / 4)), ("white", sampleMaterial)] [])
        Members.empty = some r →
      ∃ added, r.materials = Members.empty.materials ++ added ∧
        ∀ m ∈ added, 0 ≤ m.hasReflective ∧ m.hasReflective ≤ 1) ∧
    ((∀ name model, noAssets name = some model → model.WellFormed) →
      ∃ r, loadFromJSON noAssets sampleGeom
        (SceneJson.mk [("mirror", specularMaterial (1 / 4)), ("white", sampleMaterial)] [])
        Members.empty = some r) :=
  have hrough : ∀ e ∈ (SceneJson.mk
      [("mirror", specularMaterial (1 / 4)), ("white", sampleMaterial)] []).Materials,
      e.2.TYPE = "Specular" → 0 ≤ e.2.ROUGHNESS ∧ e.2.ROUGHNESS ≤ 1 := by
    intro e he hs
    simp only [List.mem_cons, List.mem_singleton, List.not_mem_nil, or_false] at he
    rcases he with rfl | rfl
    · simp only [specularMaterial]
      norm_num
    · exact absurd hs (by decide)
  ⟨hrough,
    C12_reflective_in_unit_interval noAssets sampleGeom
      (SceneJson.mk [("mirror", specularMaterial (1 / 4)), ("white", sampleMaterial)] [])
      Members.empty hrough⟩

/-- C13: for an empty triangle array (and any fuel), `buildBVH` yields an array of exactly
one node, a leaf with `start = 0`, `range = 0` and no children, whose box is the default
box, and an empty `primInfos`; the estimate `2 * 0` empties the array, and the slot of the
root comes from the growth branch, which turns the empty array into one of
`0 * 2 + 1 = 1` slot. -/
theorem C13_empty_scene_single_leaf (D : Decls) (fuel : Nat) (flattenedBVH : List BVHNode)
    (hfuel : 0 < fuel) :
    buildBVH D fuel [] flattenedBVH =
      some ([⟨D.emptyBox, true, 0, 0, -1, -1⟩], []) ∧
    resize flattenedBVH (2 * ([] : List Triangle).length) D.defaultNode = [] ∧
    grow D [] 0 = [D.defaultNode] := by
  obtain ⟨f, rfl⟩ : ∃ f, fuel = f + 1 := ⟨fuel - 1, by omega⟩
  refine ⟨?_, by simp [resize], by simp [grow, resize]⟩
  simp [buildBVH, buildBVHWith, collectPrimInfos, buildBVHRecursive, resize, grow,
    modifyNode, slice, rangeBox]

/-- The statement of C13 with fuel 1 on a scene whose array held two stale nodes. -/
theorem C13_witness :
    0 < 1 ∧
    buildBVH refDecls 1 [] [refDecls.defaultNode, refDecls.defaultNode] =
      some ([⟨refDecls.emptyBox, true, 0, 0, -1, -1⟩], []) ∧
    resize [refDecls.defaultNode, refDecls.defaultNode] (2 * ([] : List Triangle).length)
      refDecls.defaultNode = [] ∧
    grow refDecls [] 0 = [refDecls.defaultNode] :=
  ⟨by decide,
    C13_empty_scene_single_leaf refDecls 1 [refDecls.defaultNode, refDecls.defaultNode]
      (by decide)⟩

/-- C14, at a primitive whose base-color image has one channel and the byte 200:
`loadFromGltf` appends the texel `(200, 200, 200)`, the byte itself and not the byte divided
by 255, and 200 is not in `[0, 1]`. -/
theorem C14_single_channel_texel_not_normalized :
    (loadFromGltf (fun _ => some grayModel) "asset" Members.empty sampleGeom).map
        (fun r => r.1.texturesData) = some [⟨200, 200, 200⟩] ∧
    ¬ ((200 : ℚ) ≤ 1) := by
  constructor
  · decide
  · norm_num

/-! ## Claims on a mesh file that cannot be loaded -/

/-- The four branches of the dispatch on `TYPE`. -/
theorem classify_cases (assets : String → Option GltfModel) (p : ObjectJson) (s : Members)
    (g : Geom) :
    (p.TYPE = "cube" ∧
      classify assets p s g = some (some (s, { g with type := GeomType.CUBE }))) ∨
    (p.TYPE = "sphere" ∧
      classify assets p s g = some (some (s, { g with type := GeomType.SPHERE }))) ∨
    (p.TYPE = "mesh_gltf" ∧
      classify assets p s g =
        some (loadFromGltf assets p.FILE s { g with type := GeomType.MESH })) ∨
    (p.TYPE ≠ "mesh_gltf" ∧ classify assets p s g = none) := by
  unfold classify
  split_ifs with h1 h2 h3
  · exact Or.inl ⟨h1, rfl⟩
  · exact Or.inr (Or.inl ⟨h2, rfl⟩)
  · exact Or.inr (Or.inr (Or.inl ⟨h3, rfl⟩))
  · exact Or.inr (Or.inr (Or.inr ⟨h3, rfl⟩))

/-- What the dispatch on `TYPE` leaves when the file of a mesh object cannot be loaded: the
scene as it was and the instance with its type set. -/
theorem classify_failed (assets : String → Option GltfModel) (p : ObjectJson) (s : Members)
    (g : Geom) (s1 : Members) (g1 : Geom)
    (h : classify assets p s g = some (some (s1, g1))) :
    (p.TYPE = "mesh_gltf" → assets p.FILE = none →
      s1 = s ∧ g1 = { g with type := GeomType.MESH }) ∧
    ((p.TYPE = "mesh_gltf" → assets p.FILE = none) →
      s1.meshTris = s.meshTris ∧ s1.textures = s.textures ∧
        s1.texturesData = s.texturesData) := by
  rcases classify_cases assets p s g with ⟨ht, hc⟩ | ⟨ht, hc⟩ | ⟨ht, hc⟩ | ⟨_, hc⟩
  · rw [hc] at h
    cases h
    refine ⟨fun hm _ => ?_, fun _ => ⟨rfl, rfl, rfl⟩⟩
    rw [ht] at hm
    exact absurd hm (by decide)
  · rw [hc] at h
    cases h
    refine ⟨fun hm _ => ?_, fun _ => ⟨rfl, rfl, rfl⟩⟩
    rw [ht] at hm
    exact absurd hm (by decide)
  · rw [hc] at h
    have h' := Option.some.inj h
    have hnone : assets p.FILE = none →
        s1 = s ∧ g1 = { g with type := GeomType.MESH } := by
      intro hf
      simp only [loadFromGltf, hf, Option.some.injEq, Prod.mk.injEq] at h'
      exact ⟨h'.1.symm, h'.2.symm⟩
    refine ⟨fun _ hf => hnone hf, fun hall => ?_⟩
    obtain ⟨e, _⟩ := hnone (hall ht)
    rw [e]
    exact ⟨rfl, rfl, rfl⟩
  · rw [hc] at h
    cases h

/-- When the loop over `Objects` returns: each `mesh_gltf` object whose file cannot be loaded
has its instance among those appended, with the fields of the declared instance apart from
identifier, type, material index and transform; and when no mesh file can be loaded the
triangle and texture arrays are as before. -/
theorem loadObjects_failed (assets : String → Option GltfModel) (newGeom : Geom) :
    ∀ (objs : List ObjectJson) (M : List (String × Nat)) (k : Nat) (s r : Members),
      loadObjects assets newGeom objs M (k % 2 ^ 32) s = some r →
      ∃ (added : List Geom),
        r.geoms = s.geoms ++ added ∧
        (∀ j p, objs[j]? = some p → p.TYPE = "mesh_gltf" → assets p.FILE = none →
          ∃ m, { newGeom with geometryid := (k + j) % 2 ^ 32, type := GeomType.MESH,
                              materialid := m, translation := p.TRANS,
                              rotation := p.ROTAT, scale := p.SCALE } ∈ added) ∧
        ((∀ p ∈ objs, p.TYPE = "mesh_gltf" → assets p.FILE = none) →
          r.meshTris = s.meshTris ∧ r.textures = s.textures ∧
            r.texturesData = s.texturesData)
  | [], M, k, s, r, h => by
    cases h
    exact ⟨[], (List.append_nil _).symm, fun j p hp => by simp at hp,
      fun _ => ⟨rfl, rfl, rfl⟩⟩
  | q :: rest, M, k, s, r, h => by
    simp only [loadObjects, gid_succ] at h
    cases hcl : classify assets q s { newGeom with geometryid := k % 2 ^ 32 } with
    | none =>
      have hq : q.TYPE ≠ "mesh_gltf" := by
        rcases classify_cases assets q s { newGeom with geometryid := k % 2 ^ 32 } with
          ⟨_, hc⟩ | ⟨_, hc⟩ | ⟨_, hc⟩ | ⟨ht, _⟩
        · rw [hc] at hcl
          cases hcl
        · rw [hc] at hcl
          cases hcl
        · rw [hc] at hcl
          cases hcl
        · exact ht
      rw [hcl] at h
      obtain ⟨added, hg, hinst, harr⟩ :=
        loadObjects_failed assets newGeom rest M (k + 1) s r h
      refine ⟨added, hg, ?_, fun hall => harr (fun p hp => hall p (List.mem_cons_of_mem _ hp))⟩
      intro j p hp htype hfile
      cases j with
      | zero =>
        simp only [List.getElem?_cons_zero, Option.some.injEq] at hp
        rw [← hp] at htype
        exact absurd htype hq
      | succ j =>
        simp only [List.getElem?_cons_succ] at hp
        obtain ⟨m, hm⟩ := hinst j p hp htype hfile
        rw [show k + 1 + j = k + (j + 1) by omega] at hm
        exact ⟨m, hm⟩
    | some res =>
      cases res with
      | none =>
        rw [hcl] at h
        cases h
      | some sg =>
        obtain ⟨s1, g1⟩ := sg
        rw [hcl] at h
        obtain ⟨hfailed, hkeep⟩ := classify_failed assets q s _ s1 g1 hcl
        obtain ⟨_, ⟨_, _, hg1⟩, _⟩ := classify_frame assets q s _ s1 g1 hcl
        obtain ⟨added, hg, hinst, harr⟩ := loadObjects_failed assets newGeom rest _ (k + 1) _ r h
        refine ⟨{ g1 with materialid := (mapIndex M q.MATERIAL).2, translation := q.TRANS,
                          rotation := q.ROTAT, scale := q.SCALE } :: added, ?_, ?_, ?_⟩
        · rw [hg]
          show (s1.geoms ++ _) ++ added = _
          rw [hg1, List.append_assoc]
          rfl
        · intro j p hp htype hfile
          cases j with
          | zero =>
            simp only [List.getElem?_cons_zero, Option.some.injEq] at hp
            subst hp
            obtain ⟨_, e2⟩ := hfailed htype hfile
            refine ⟨(mapIndex M q.MATERIAL).2, ?_⟩
            rw [e2]
            exact List.mem_cons_self _ _
          | succ j =>
            simp only [List.getElem?_cons_succ] at hp
            obtain ⟨m, hm⟩ := hinst j p hp htype hfile
            rw [show k + 1 + j = k + (j + 1) by omega] at hm
            exact ⟨m, List.mem_cons_of_mem _ hm⟩
        · intro hall
          obtain ⟨a1, a2, a3⟩ := hkeep (hall q (List.mem_cons_self _ _))
          obtain ⟨b1, b2, b3⟩ := harr (fun p hp => hall p (List.mem_cons_of_mem _ hp))
          exact ⟨b1.trans a1, b2.trans a2, b3.trans a3⟩

/-- C15: when the loader reports failure for a file, `loadFromGltf` returns the scene and
the instance it was given, unchanged in every member and every field; and after
`loadFromJSON` every `mesh_gltf` object with that file has its instance in `geoms`, with
identifier, type `MESH`, material index and transform set and every other field as declared,
the objects after it are loaded as well (one instance per object of recognized type, in
order), and when no mesh file of the document can be loaded the triangle array, the texture
list and the texel array are as before the load; `loadFromJSON` does return when the
primitives of the assets that load are well formed. -/
theorem C15_failed_asset_changes_nothing (assets : String → Option GltfModel)
    (gltfName : String) (hfail : assets gltfName = none) :
    (∀ (s : Members) (meshGeom : Geom),
      loadFromGltf assets gltfName s meshGeom = some (s, meshGeom)) ∧
    (∀ (newGeom : Geom) (data : SceneJson) (s r : Members),
      loadFromJSON assets newGeom data s = some r →
      ∃ added, r.geoms = s.geoms ++ added ∧
        added.map (fun g => g.geometryid) =
          ((data.Objects.enumFrom 0).filter (fun e => recognized e.2.TYPE)).map
            (fun e => e.1 % 2 ^ 32) ∧
        (∀ j p, data.Objects[j]? = some p → p.TYPE = "mesh_gltf" → p.FILE = gltfName →
          ∃ m, { newGeom with geometryid := j % 2 ^ 32, type := GeomType.MESH,
                              materialid := m, translation := p.TRANS,
                              rotation := p.ROTAT, scale := p.SCALE } ∈ added) ∧
        ((∀ p ∈ data.Objects, p.TYPE = "mesh_gltf" → assets p.FILE = none) →
          r.meshTris = s.meshTris ∧ r.textures = s.textures ∧
            r.texturesData = s.texturesData)) ∧
    (∀ (newGeom : Geom) (data : SceneJson) (s : Members),
      (∀ name model, assets name = some model → model.WellFormed) →
      ∃ r, loadFromJSON assets newGeom data s = some r) := by
  refine ⟨?_, ?_, fun newGeom data s => loadFromJSON_returns assets newGeom data s⟩
  · intro s meshGeom
    simp only [loadFromGltf, hfail]
  · intro newGeom data s r hr
    unfold loadFromJSON at hr
    generalize loadMaterials data.Materials ([], s.materials) = lm at hr
    obtain ⟨M, mats⟩ := lm
    simp only [] at hr
    obtain ⟨added, hg, _, hid, _⟩ :=
      loadObjects_spec assets newGeom data.Objects M 0 { s with materials := mats } r hr
    obtain ⟨added', hg', hinst, harr⟩ :=
      loadObjects_failed assets newGeom data.Objects M 0 { s with materials := mats } r hr
    have hsame : added' = added := List.append_cancel_left (hg'.symm.trans hg)
    subst hsame
    refine ⟨added', hg, hid, ?_, harr⟩
    intro j p hp htype hfile
    obtain ⟨m, hm⟩ := hinst j p hp htype (by rw [hfile]; exact hfail)
    rw [Nat.zero_add] at hm
    exact ⟨m, hm⟩

/-- The statement of C15 when the file `asset` loads and the file `missing` does not. -/
theorem C15_witness :
    oneAsset "missing" = none ∧
    (∀ (s : Members) (meshGeom : Geom),
      loadFromGltf oneAsset "missing" s meshGeom = some (s, meshGeom)) ∧
    (∀ (newGeom : Geom) (data : SceneJson) (s r : Members),
      loadFromJSON oneAsset newGeom data s = some r →
      ∃ added, r.geoms = s.geoms ++ added ∧
        added.map (fun g => g.geometryid) =
          ((data.Objects.enumFrom 0).filter (fun e => recognized e.2.TYPE)).map
            (fun e => e.1 % 2 ^ 32) ∧
        (∀ j p, data.Objects[j]? = some p → p.TYPE = "mesh_gltf" → p.FILE = "missing" →
          ∃ m, { newGeom with geometryid := j % 2 ^ 32, type := GeomType.MESH,
                              materialid := m, translation := p.TRANS,
                              rotation := p.ROTAT, scale := p.SCALE } ∈ added) ∧
        ((∀ p ∈ data.Objects, p.TYPE = "mesh_gltf" → oneAsset p.FILE = none) →
          r.meshTris = s.meshTris ∧ r.textures = s.textures ∧
            r.texturesData = s.texturesData)) ∧
    (∀ (newGeom : Geom) (data : SceneJson) (s : Members),
      (∀ name model, oneAsset name = some model → model.WellFormed) →
      ∃ r, loadFromJSON oneAsset newGeom data s = some r) :=
  ⟨by decide, C15_failed_asset_changes_nothing oneAsset "missing" (by decide)⟩

/-- The scene of a cube, a mesh whose file is missing, a mesh whose file loads and a
sphere: the load returns four instances, identifiers 0 to 3, the second being the mesh
instance as declared, and the triangles are the three of the file that loads. -/
theorem loadFromJSON_with_missing_asset :
    (loadFromJSON oneAsset sampleGeom
        ⟨[("white", sampleMaterial)],
          [sampleObject "cube" "white", ⟨"mesh_gltf", "white", "missing", ⟨0, 0, 0⟩,
            ⟨0, 0, 0⟩, ⟨1, 1, 1⟩⟩, sampleObject "mesh_gltf" "white",
            sampleObject "sphere" "white"]⟩ Members.empty).map
      (fun r => (r.geoms.map (fun g => (g.geometryid, g.type, g.startTriangleIndex,
        g.endTriangleIndex)), r.meshTris.length)) =
      some ([(0, GeomType.CUBE, 0, 0), (1, GeomType.MESH, 0, 0), (2, GeomType.MESH, 0, 2),
        (3, GeomType.SPHERE, 0, 0)], 3) := by
  decide

/-! ## Claims on triangle assembly -/

theorem getD_padded_low (l m : List ℚ) (i : Nat) (h : i < l.length) :
    (l ++ m).getD i 0 = l.getD i 0 :=
  List.getD_append _ _ _ _ h

theorem getD_padded_high (l t : List ℚ) (n j : Nat) :
    (l ++ (List.replicate n 0 ++ t)).getD (l.length + n + j) 0 = t.getD j 0 := by
  rw [List.getD_append_right _ _ _ _ (by omega),
    List.getD_append_right _ _ _ _ (by rw [List.length_replicate]; omega)]
  congr 1
  rw [List.length_replicate]
  omega

theorem wrapPositions_low (i : Nat) (h : i < 6) :
    wrapPositions.getD i 0 = ([1, 2, 3, 4, 5, 6] : List ℚ).getD i 0 :=
  getD_padded_low [1, 2, 3, 4, 5, 6] _ i h

theorem wrapPositions_high (j : Nat) :
    wrapPositions.getD (4294967298 + j) 0 = ([7, 8, 9] : List ℚ).getD j 0 :=
  getD_padded_high [1, 2, 3, 4, 5, 6] [7, 8, 9] 4294967292 j

theorem getLast_filter_cons {α : Type} (q : α → Bool) (a : α) (l : List α) :
    ((a :: l).filter q).getLast? = ((l.filter q).getLast?).or (if q a then some a else none) := by
  cases hq : q a with
  | false => simp [List.filter_cons, hq]
  | true =>
    simp only [List.filter_cons, hq, if_true]
    cases hl : (l.filter q).getLast? with
    | none =>
      rw [List.getLast?_eq_none_iff] at hl
      simp [hl]
    | some x =>
      rw [List.getLast?_cons, hl]
      rfl

/-- The arrays that the attribute loop leaves: each pointer is the array of the last
attribute of its name, or what it was when there is no attribute of that name. -/
theorem readAttributes_pointers :
    ∀ (attrs : List (String × GltfAccessor)) (ptrs : AttrPointers) (g : Geom),
      (readAttributes attrs (ptrs, g)).1.positions =
        (((attrs.filter (fun a => a.1 = "POSITION")).getLast?).map (fun a => a.2.floats)).or
          ptrs.positions ∧
      (readAttributes attrs (ptrs, g)).1.normals =
        (((attrs.filter (fun a => a.1 = "NORMAL")).getLast?).map (fun a => a.2.floats)).or
          ptrs.normals ∧
      (readAttributes attrs (ptrs, g)).1.texcoords =
        (((attrs.filter (fun a => a.1 = "TEXCOORD_0")).getLast?).map (fun a => a.2.floats)).or
          ptrs.texcoords
  | [], ptrs, g => ⟨rfl, rfl, rfl⟩
  | (name, accessor) :: rest, ptrs, g => by
    have e1 : ¬ ("POSITION" = "NORMAL") := by decide
    have e2 : ¬ ("POSITION" = "TEXCOORD_0") := by decide
    have e3 : ¬ ("NORMAL" = "TEXCOORD_0") := by decide
    rw [getLast_filter_cons, getLast_filter_cons, getLast_filter_cons]
    by_cases h1 : name = "POSITION"
    · subst h1
      obtain ⟨a, b, c⟩ := readAttributes_pointers rest
        { ptrs with positions := some accessor.floats, vertexCount := accessor.count } g
      simp only [readAttributes, if_true]
      rw [a, b, c]
      refine ⟨?_, ?_, ?_⟩ <;>
        cases (List.filter (fun a => decide (a.1 = _)) rest).getLast? <;> simp [e1, e2]
    · by_cases h2 : name = "NORMAL"
      · subst h2
        obtain ⟨a, b, c⟩ := readAttributes_pointers rest
          { ptrs with normals := some accessor.floats } { g with hasNormals := true }
        simp only [readAttributes, h1, if_true, if_false]
        rw [a, b, c]
        refine ⟨?_, ?_, ?_⟩ <;>
          cases (List.filter (fun a => decide (a.1 = _)) rest).getLast? <;> simp [e3, h1]
      · by_cases h3 : name = "TEXCOORD_0"
        · subst h3
          obtain ⟨a, b, c⟩ := readAttributes_pointers rest
            { ptrs with texcoords := some accessor.floats } { g with hasUVs := true }
          simp only [readAttributes, h1, h2, if_true, if_false]
          rw [a, b, c]
          refine ⟨?_, ?_, ?_⟩ <;>
            cases (List.filter (fun a => decide (a.1 = _)) rest).getLast? <;> simp [h1, h2]
        · obtain ⟨a, b, c⟩ := readAttributes_pointers rest ptrs g
          simp only [readAttributes, h1, h2, h3, if_false]
          rw [a, b, c]
          refine ⟨?_, ?_, ?_⟩ <;>
            cases (List.filter (fun a => decide (a.1 = _)) rest).getLast? <;>
              simp [h1, h2, h3]

theorem loadTexture_meshTris (image : GltfImage) (s : Members) (g : Geom)
    (r : Members × Geom) (h : loadTexture image s g = some r) :
    r.1.meshTris = s.meshTris := by
  unfold loadTexture at h
  simp only [] at h
  split at h
  · cases h
  · cases h
    rfl

/-- Where three times the index and two more fit an `unsigned int`, the lambda reads vertex
number `i`. -/
theorem setVertex_spec (ptrs : AttrPointers) (pos : List ℚ) (hpos : ptrs.positions = some pos)
    (i : Nat) (hi : i * 3 + 2 < 2 ^ 32) :
    ∃ v, setVertex ptrs i = some v ∧ IsVertex ptrs pos i v := by
  have m0 : i * 3 % 2 ^ 32 = i * 3 := Nat.mod_eq_of_lt (by omega)
  have m1 : (i * 3 + 1) % 2 ^ 32 = i * 3 + 1 := Nat.mod_eq_of_lt (by omega)
  have m2 : (i * 3 + 2) % 2 ^ 32 = i * 3 + 2 := Nat.mod_eq_of_lt (by omega)
  have n0 : i * 2 % 2 ^ 32 = i * 2 := Nat.mod_eq_of_lt (by omega)
  have n1 : (i * 2 + 1) % 2 ^ 32 = i * 2 + 1 := Nat.mod_eq_of_lt (by omega)
  unfold setVertex
  rw [hpos, m0, m1, m2, n0, n1]
  simp only []
  refine ⟨_, rfl, rfl, ?_, ?_, ?_, ?_⟩
  · intro n hn
    simp only [hn]
  · intro hn
    simp only [hn]
  · intro t ht
    simp only [ht]
  · intro ht
    simp only [ht]

/-- The triangle loop makes one triangle per complete group of three indices, from the
vertices that the three indices name, when three times each index and two more fit an
`unsigned int`. -/
theorem makeTriangles_spec (ptrs : AttrPointers) (pos : List ℚ)
    (hpos : ptrs.positions = some pos) :
    ∀ (n : Nat) (idx : List Nat), idx.length ≤ n → (∀ a ∈ idx, a * 3 + 2 < 2 ^ 32) →
      ∃ tris, makeTriangles ptrs idx = some tris ∧ tris.length = idx.length / 3 ∧
        ∀ k, k < idx.length / 3 →
          ∃ a b c v0 v1 v2, idx[3 * k]? = some a ∧ idx[3 * k + 1]? = some b ∧
            idx[3 * k + 2]? = some c ∧ tris[k]? = some ⟨v0, v1, v2⟩ ∧
            IsVertex ptrs pos a v0 ∧ IsVertex ptrs pos b v1 ∧ IsVertex ptrs pos c v2 := by
  intro n
  induction n with
  | zero =>
    intro idx hle _
    match idx, hle with
    | [], _ => exact ⟨[], rfl, rfl, fun k hk => by simp at hk⟩
  | succ n ih =>
    intro idx hle hsmall
    match idx, hle, hsmall with
    | [], _, _ => exact ⟨[], rfl, rfl, fun k hk => by simp at hk⟩
    | [_], _, _ =>
      exact ⟨[], rfl, by simp, fun k hk => by
        simp only [List.length_cons, List.length_nil] at hk
        omega⟩
    | [_, _], _, _ =>
      exact ⟨[], rfl, by simp, fun k hk => by
        simp only [List.length_cons, List.length_nil] at hk
        omega⟩
    | a :: b :: c :: rest, hle, hsmall =>
      obtain ⟨tris, ht, hlen, hk⟩ := ih rest (by simp only [List.length_cons] at hle; omega)
        (fun x hx => hsmall x (by simp [hx]))
      obtain ⟨v0, e0, i0⟩ := setVertex_spec ptrs pos hpos a (hsmall a (by simp))
      obtain ⟨v1, e1, i1⟩ := setVertex_spec ptrs pos hpos b (hsmall b (by simp))
      obtain ⟨v2, e2, i2⟩ := setVertex_spec ptrs pos hpos c (hsmall c (by simp))
      refine ⟨⟨v0, v1, v2⟩ :: tris, by simp only [makeTriangles, e0, e1, e2, ht], ?_, ?_⟩
      · simp only [List.length_cons, hlen]
        omega
      · intro k hklt
        cases k with
        | zero => exact ⟨a, b, c, v0, v1, v2, by simp, by simp, by simp, by simp, i0, i1, i2⟩
        | succ k =>
          obtain ⟨a', b', c', w0, w1, w2, ha, hb, hc, htri, j0, j1, j2⟩ :=
            hk k (by simp only [List.length_cons] at hklt; omega)
          refine ⟨a', b', c', w0, w1, w2, ?_, ?_, ?_, ?_, j0, j1, j2⟩
          · rw [show 3 * (k + 1) = 3 * k + 1 + 1 + 1 by omega]
            simpa using ha
          · rw [show 3 * (k + 1) + 1 = 3 * k + 1 + 1 + 1 + 1 by omega]
            simpa using hb
          · rw [show 3 * (k + 1) + 2 = 3 * k + 2 + 1 + 1 + 1 by omega]
            simpa using hc
          · simpa using htri

/-- The index vector of a primitive, by the kind of its indices: the numbers from 0 up to
the vertex count when the primitive has none, and otherwise the first `count` values of the
index buffer, read in 16 or in 32 bits. -/
theorem readIndices_cases (indices : Option GltfIndices) (vertexCount : Nat)
    (idx : List Nat) (h : readIndices indices vertexCount = some idx) :
    (indices = none → idx = List.range vertexCount) ∧
    (∀ accessor, indices = some accessor →
      (accessor.componentType = TINYGLTF_COMPONENT_TYPE_UNSIGNED_SHORT ∧
        idx = (List.range accessor.count).map
          (fun i => accessor.values.getD i 0 % 2 ^ 16)) ∨
      (accessor.componentType = TINYGLTF_COMPONENT_TYPE_UNSIGNED_INT ∧
        idx = (List.range accessor.count).map
          (fun i => accessor.values.getD i 0 % 2 ^ 32))) := by
  constructor
  · intro hnone
    rw [hnone] at h
    exact (Option.some.inj h).symm
  · intro accessor hsome
    rw [hsome] at h
    unfold readIndices at h
    simp only [] at h
    split_ifs at h with h1 h2
    · exact Or.inl ⟨h1, (Option.some.inj h).symm⟩
    · exact Or.inr ⟨h2, (Option.some.inj h).symm⟩

/-- With 16-bit indices, three times each index and two more fit an `unsigned int`. -/
theorem readIndices_short (accessor : GltfIndices) (vertexCount : Nat) (idx : List Nat)
    (h : readIndices (some accessor) vertexCount = some idx)
    (hshort : accessor.componentType = TINYGLTF_COMPONENT_TYPE_UNSIGNED_SHORT) :
    ∀ a ∈ idx, a * 3 + 2 < 2 ^ 32 := by
  unfold readIndices at h
  simp only [hshort, if_true, Option.some.injEq] at h
  intro a ha
  rw [← h] at ha
  obtain ⟨i, _, hi⟩ := List.mem_map.1 ha
  have hlt : accessor.values.getD i 0 % 2 ^ 16 < 2 ^ 16 := Nat.mod_lt _ (by norm_num)
  rw [hi] at hlt
  omega

/-- C16, on `wrapPrimitive`, whose first index 1431655766 names the last vertex, at
(7, 8, 9): `loadFromGltf` appends one triangle for the primitive, and its `v0` has the
position (3, 4, 5), the floats at the subscripts 2, 3, 4 of the position array, because
`idx * 3` is `2 ^ 32 + 2` and wraps to 2 in `unsigned int`; it is not the position triple
at the index. -/
theorem C16_counterexample :
    readAttributes wrapPrimitive.attributes (⟨none, none, none, 0⟩, sampleGeom) =
      (⟨some wrapPositions, none, none, 1431655767⟩, sampleGeom) ∧
    readIndices wrapPrimitive.indices 1431655767 = some [1431655766, 0, 0] ∧
    (⟨wrapPositions.getD (1431655766 * 3) 0, wrapPositions.getD (1431655766 * 3 + 1) 0,
      wrapPositions.getD (1431655766 * 3 + 2) 0⟩ : Vec3) = ⟨7, 8, 9⟩ ∧
    ∃ s' g' tri, loadPrimitive wrapPrimitive Members.empty sampleGeom = some (s', g') ∧
      s'.meshTris = Members.empty.meshTris ++ [tri] ∧
      tri.v0.position = ⟨3, 4, 5⟩ ∧
      ¬ IsVertex ⟨some wrapPositions, none, none, 1431655767⟩ wrapPositions 1431655766
        tri.v0 := by
  have hattr : readAttributes wrapPrimitive.attributes (⟨none, none, none, 0⟩, sampleGeom) =
      (⟨some wrapPositions, none, none, 1431655767⟩, sampleGeom) := by
    simp only [wrapPrimitive, readAttributes, if_true]
  have hidx : readIndices wrapPrimitive.indices 1431655767 = some [1431655766, 0, 0] := by
    decide
  have hlast : (⟨wrapPositions.getD (1431655766 * 3) 0,
      wrapPositions.getD (1431655766 * 3 + 1) 0,
      wrapPositions.getD (1431655766 * 3 + 2) 0⟩ : Vec3) = ⟨7, 8, 9⟩ := by
    have h0 := wrapPositions_high 0
    have h1 := wrapPositions_high 1
    have h2 := wrapPositions_high 2
    have e0 : 1431655766 * 3 = 4294967298 + 0 := by norm_num
    have e1 : 1431655766 * 3 + 1 = 4294967298 + 1 := by norm_num
    have e2 : 1431655766 * 3 + 2 = 4294967298 + 2 := by norm_num
    rw [e0, e1, e2, h0, h1, h2]
    rfl
  have hv0 : setVertex ⟨some wrapPositions, none, none, 1431655767⟩ 1431655766 =
      some ⟨⟨3, 4, 5⟩, ⟨0, 0, 0⟩, ⟨0, 0⟩⟩ := by
    have e0 : 1431655766 * 3 % 2 ^ 32 = 2 := by norm_num
    have e1 : (1431655766 * 3 + 1) % 2 ^ 32 = 3 := by norm_num
    have e2 : (1431655766 * 3 + 2) % 2 ^ 32 = 4 := by norm_num
    simp only [setVertex, e0, e1, e2, wrapPositions_low 2 (by norm_num),
      wrapPositions_low 3 (by norm_num), wrapPositions_low 4 (by norm_num)]
    rfl
  have hv1 : setVertex ⟨some wrapPositions, none, none, 1431655767⟩ 0 =
      some ⟨⟨1, 2, 3⟩, ⟨0, 0, 0⟩, ⟨0, 0⟩⟩ := by
    have e0 : 0 * 3 % 2 ^ 32 = 0 := by norm_num
    have e1 : (0 * 3 + 1) % 2 ^ 32 = 1 := by norm_num
    have e2 : (0 * 3 + 2) % 2 ^ 32 = 2 := by norm_num
    simp only [setVertex, e0, e1, e2, wrapPositions_low 0 (by norm_num),
      wrapPositions_low 1 (by norm_num), wrapPositions_low 2 (by norm_num)]
    rfl
  have htris : makeTriangles ⟨some wrapPositions, none, none, 1431655767⟩
      [1431655766, 0, 0] =
      some [⟨⟨⟨3, 4, 5⟩, ⟨0, 0, 0⟩, ⟨0, 0⟩⟩, ⟨⟨1, 2, 3⟩, ⟨0, 0, 0⟩, ⟨0, 0⟩⟩,
        ⟨⟨1, 2, 3⟩, ⟨0, 0, 0⟩, ⟨0, 0⟩⟩⟩] := by
    simp only [makeTriangles, hv0, hv1]
  have hload : loadPrimitive wrapPrimitive Members.empty sampleGeom =
      some ({ Members.empty with meshTris := Members.empty.meshTris ++
        [⟨⟨⟨3, 4, 5⟩, ⟨0, 0, 0⟩, ⟨0, 0⟩⟩, ⟨⟨1, 2, 3⟩, ⟨0, 0, 0⟩, ⟨0, 0⟩⟩,
          ⟨⟨1, 2, 3⟩, ⟨0, 0, 0⟩, ⟨0, 0⟩⟩⟩] }, sampleGeom) := by
    unfold loadPrimitive
    rw [hattr]
    simp only [hidx, htris]
    rfl
  refine ⟨hattr, hidx, hlast, _, _, _, hload, rfl, rfl, ?_⟩
  intro hv
  have hp := hv.1
  rw [hlast] at hp
  exact absurd hp (by decide)

/-- C16: for every primitive with a position array `pos` and an index list `idx` (the
first `count` values of the index buffer read in 16 or in 32 bits, or
`0, 1, ..., vertexCount - 1` when the primitive gives none), where the indices are 16-bit
or each index `a` has `3 * a + 2 < 2 ^ 32`, `loadFromGltf` appends, for this primitive,
exactly `floor(idx.length / 3)` triangles to `meshTris`, the one number `k` made of the
vertices number `idx[3k]`, `idx[3k+1]`, `idx[3k+2]`: position from `pos`, normal and UV
from the same index when the attribute is present and zero when it is absent; a trailing
group of fewer than three indices adds nothing.  The arrays are those of the last attribute
named `POSITION`, `NORMAL` and `TEXCOORD_0`.  The body of the primitive loop does return
when the image of the primitive, if any, has a channel count other than 0 or no data. -/
theorem C16_triangles_from_index_triples (primitive : GltfPrimitive) (s : Members)
    (meshGeom : Geom) (ptrs : AttrPointers) (g1 : Geom) (pos : List ℚ) (idx : List Nat)
    (hattr : readAttributes primitive.attributes (⟨none, none, none, 0⟩, meshGeom) =
      (ptrs, g1))
    (hpos : ptrs.positions = some pos)
    (hidx : readIndices primitive.indices ptrs.vertexCount = some idx)
    (hsmall : (∃ accessor, primitive.indices = some accessor ∧
        accessor.componentType = TINYGLTF_COMPONENT_TYPE_UNSIGNED_SHORT) ∨
      ∀ a ∈ idx, a * 3 + 2 < 2 ^ 32) :
    (∀ s' g', loadPrimitive primitive s meshGeom = some (s', g') →
      ∃ tris, s'.meshTris = s.meshTris ++ tris ∧ tris.length = idx.length / 3 ∧
        ∀ k, k < idx.length / 3 →
          ∃ a b c v0 v1 v2, idx[3 * k]? = some a ∧ idx[3 * k + 1]? = some b ∧
            idx[3 * k + 2]? = some c ∧ tris[k]? = some ⟨v0, v1, v2⟩ ∧
            IsVertex ptrs pos a v0 ∧ IsVertex ptrs pos b v1 ∧ IsVertex ptrs pos c v2) ∧
    (((primitive.attributes.filter (fun a => a.1 = "POSITION")).getLast?).map
        (fun a => a.2.floats) = some pos ∧
      ptrs.normals = ((primitive.attributes.filter (fun a => a.1 = "NORMAL")).getLast?).map
        (fun a => a.2.floats) ∧
      ptrs.texcoords =
        ((primitive.attributes.filter (fun a => a.1 = "TEXCOORD_0")).getLast?).map
          (fun a => a.2.floats)) ∧
    (primitive.indices = none → idx = List.range ptrs.vertexCount) ∧
    (∀ accessor, primitive.indices = some accessor →
      (accessor.componentType = TINYGLTF_COMPONENT_TYPE_UNSIGNED_SHORT ∧
        idx = (List.range accessor.count).map
          (fun i => accessor.values.getD i 0 % 2 ^ 16)) ∨
      (accessor.componentType = TINYGLTF_COMPONENT_TYPE_UNSIGNED_INT ∧
        idx = (List.range accessor.count).map
          (fun i => accessor.values.getD i 0 % 2 ^ 32))) ∧
    ((∀ image, primitive.baseColorImage = some image →
        image.image ≠ [] → image.component ≠ 0) →
      ∃ r, loadPrimitive primitive s meshGeom = some r) := by
  have hbound : ∀ a ∈ idx, a * 3 + 2 < 2 ^ 32 := by
    rcases hsmall with ⟨accessor, hacc, hshort⟩ | h
    · rw [hacc] at hidx
      exact readIndices_short accessor ptrs.vertexCount idx hidx hshort
    · exact h
  obtain ⟨tris, ht, hlen, hk⟩ :=
    makeTriangles_spec ptrs pos hpos idx.length idx (Nat.le_refl _) hbound
  obtain ⟨hnone, hsome⟩ := readIndices_cases primitive.indices ptrs.vertexCount idx hidx
  obtain ⟨hp, hn, ht'⟩ :=
    readAttributes_pointers primitive.attributes ⟨none, none, none, 0⟩ meshGeom
  rw [hattr] at hp hn ht'
  refine ⟨?_, ⟨?_, ?_, ?_⟩, hnone, hsome, ?_⟩
  · intro s' g' h
    refine ⟨tris, ?_, hlen, hk⟩
    unfold loadPrimitive at h
    rw [hattr] at h
    simp only [hidx, ht] at h
    cases himg : primitive.baseColorImage with
    | none =>
      rw [himg] at h
      simp only [Option.some.injEq, Prod.mk.injEq] at h
      rw [← h.1]
    | some image =>
      rw [himg] at h
      simp only [] at h
      cases htex : loadTexture image s g1 with
      | none =>
        rw [htex] at h
        cases h
      | some r =>
        rw [htex] at h
        simp only [Option.some.injEq, Prod.mk.injEq] at h
        rw [← h.1]
        show r.1.meshTris ++ tris = _
        rw [loadTexture_meshTris image s g1 r htex]
  · rw [← hpos, hp]
    simp
  · rw [hn]
    simp
  · rw [ht']
    simp
  · intro himg
    unfold loadPrimitive
    rw [hattr]
    simp only [hidx, ht]
    cases hi : primitive.baseColorImage with
    | none => exact ⟨_, rfl⟩
    | some image =>
      obtain ⟨r, hr⟩ := loadTexture_returns image s g1 (himg image hi)
      simp only [hr]
      exact ⟨_, rfl⟩

/-- The statement of C16 on a primitive of four vertices with seven 16-bit indices. -/
theorem C16_witness :
    readAttributes indexedPrimitive.attributes (⟨none, none, none, 0⟩, sampleGeom) =
      (⟨some [0, 0, 0, 1, 0, 0, 1, 1, 0, 0, 1, 0], some [0, 0, 1, 0, 0, 1, 0, 0, 1, 0, 0, 1],
        none, 4⟩, { sampleGeom with hasNormals := true }) ∧
    (AttrPointers.mk (some [0, 0, 0, 1, 0, 0, 1, 1, 0, 0, 1, 0])
      (some [0, 0, 1, 0, 0, 1, 0, 0, 1, 0, 0, 1]) none 4).positions =
      some [0, 0, 0, 1, 0, 0, 1, 1, 0, 0, 1, 0] ∧
    readIndices indexedPrimitive.indices
      (AttrPointers.mk (some [0, 0, 0, 1, 0, 0, 1, 1, 0, 0, 1, 0])
        (some [0, 0, 1, 0, 0, 1, 0, 0, 1, 0, 0, 1]) none 4).vertexCount =
      some [0, 1, 2, 0, 2, 3, 1] ∧
    (∀ a ∈ [0, 1, 2, 0, 2, 3, 1], a * 3 + 2 < 2 ^ 32) ∧
    (∀ s' g', loadPrimitive indexedPrimitive Members.empty sampleGeom = some (s', g') →
      ∃ tris, s'.meshTris = Members.empty.meshTris ++ tris ∧
        tris.length = [0, 1, 2, 0, 2, 3, 1].length / 3 ∧
        ∀ k, k < [0, 1, 2, 0, 2, 3, 1].length / 3 →
          ∃ a b c v0 v1 v2, [0, 1, 2, 0, 2, 3, 1][3 * k]? = some a ∧
            [0, 1, 2, 0, 2, 3, 1][3 * k + 1]? = some b ∧
            [0, 1, 2, 0, 2, 3, 1][3 * k + 2]? = some c ∧ tris[k]? = some ⟨v0, v1, v2⟩ ∧
            IsVertex (AttrPointers.mk (some [0, 0, 0, 1, 0, 0, 1, 1, 0, 0, 1, 0])
              (some [0, 0, 1, 0, 0, 1, 0, 0, 1, 0, 0, 1]) none 4)
              [0, 0, 0, 1, 0, 0, 1, 1, 0, 0, 1, 0] a v0 ∧
            IsVertex (AttrPointers.mk (some [0, 0, 0, 1, 0, 0, 1, 1, 0, 0, 1, 0])
              (some [0, 0, 1, 0, 0, 1, 0, 0, 1, 0, 0, 1]) none 4)
              [0, 0, 0, 1, 0, 0, 1, 1, 0, 0, 1, 0] b v1 ∧
            IsVertex (AttrPointers.mk (some [0, 0, 0, 1, 0, 0, 1, 1, 0, 0, 1, 0])
              (some [0, 0, 1, 0, 0, 1, 0, 0, 1, 0, 0, 1]) none 4)
              [0, 0, 0, 1, 0, 0, 1, 1, 0, 0, 1, 0] c v2) ∧
    (((indexedPrimitive.attributes.filter (fun a => a.1 = "POSITION")).getLast?).map
        (fun a => a.2.floats) = some [0, 0, 0, 1, 0, 0, 1, 1, 0, 0, 1, 0] ∧
      (AttrPointers.mk (some [0, 0, 0, 1, 0, 0, 1, 1, 0, 0, 1, 0])
        (some [0, 0, 1, 0, 0, 1, 0, 0, 1, 0, 0, 1]) none 4).normals =
        ((indexedPrimitive.attributes.filter (fun a => a.1 = "NORMAL")).getLast?).map
          (fun a => a.2.floats) ∧
      (AttrPointers.mk (some [0, 0, 0, 1, 0, 0, 1, 1, 0, 0, 1, 0])
        (some [0, 0, 1, 0, 0, 1, 0, 0, 1, 0, 0, 1]) none 4).texcoords =
        ((indexedPrimitive.attributes.filter (fun a => a.1 = "TEXCOORD_0")).getLast?).map
          (fun a => a.2.floats)) ∧
    (indexedPrimitive.indices = none →
      [0, 1, 2, 0, 2, 3, 1] = List.range
        (AttrPointers.mk (some [0, 0, 0, 1, 0, 0, 1, 1, 0, 0, 1, 0])
          (some [0, 0, 1, 0, 0, 1, 0, 0, 1, 0, 0, 1]) none 4).vertexCount) ∧
    (∀ accessor, indexedPrimitive.indices = some accessor →
      (accessor.componentType = TINYGLTF_COMPONENT_TYPE_UNSIGNED_SHORT ∧
        [0, 1, 2, 0, 2, 3, 1] = (List.range accessor.count).map
          (fun i => accessor.values.getD i 0 % 2 ^ 16)) ∨
      (accessor.componentType = TINYGLTF_COMPONENT_TYPE_UNSIGNED_INT ∧
        [0, 1, 2, 0, 2, 3, 1] = (List.range accessor.count).map
          (fun i => accessor.values.getD i 0 % 2 ^ 32))) ∧
    ((∀ image, indexedPrimitive.baseColorImage = some image →
        image.image ≠ [] → image.component ≠ 0) →
      ∃ r, loadPrimitive indexedPrimitive Members.empty sampleGeom = some r) :=
  ⟨rfl, rfl, by decide, by decide,
    C16_triangles_from_index_triples indexedPrimitive Members.empty sampleGeom
      (AttrPointers.mk (some [0, 0, 0, 1, 0, 0, 1, 1, 0, 0, 1, 0])
        (some [0, 0, 1, 0, 0, 1, 0, 0, 1, 0, 0, 1]) none 4)
      { sampleGeom with hasNormals := true } [0, 0, 0, 1, 0, 0, 1, 1, 0, 0, 1, 0]
      [0, 1, 2, 0, 2, 3, 1] rfl rfl (by decide) (Or.inr (by decide))⟩

/-- The primitive of four vertices with seven 16-bit indices gives the two triangles
(0, 1, 2) and (0, 2, 3), with the normal of the array at each vertex and the zero UV. -/
theorem loadPrimitive_indexed_sample :
    (loadPrimitive indexedPrimitive Members.empty sampleGeom).map
      (fun r => r.1.meshTris.map (fun t => (t.v0.position, t.v1.position, t.v2.position,
        t.v0.normal, t.v0.uv))) =
      some [(⟨0, 0, 0⟩, ⟨1, 0, 0⟩, ⟨1, 1, 0⟩, ⟨0, 0, 1⟩, ⟨0, 0⟩),
        (⟨0, 0, 0⟩, ⟨1, 1, 0⟩, ⟨0, 1, 0⟩, ⟨0, 0, 1⟩, ⟨0, 0⟩)] := by
  decide

/-! ## Claims on the camera -/

/-- C17, at `FOVY` = 60 and a resolution of 3 by 1: the horizontal field of view that
`loadFromJSON` stores is `atan(3 * tan(60 degrees))` in degrees, which is below 90, and not
`2 * atan(tan(30 degrees) * 3)` in degrees, which is 120. -/
theorem C17_counterexample :
    (loadCamera ⟨Real.tan, Real.arctan, Real.pi⟩ (3, 1) (60 : ℝ)).fov.1 ≠
      2 * Real.arctan (Real.tan ((60 / 2) * Real.pi / 180) * (((3 : Int) : ℝ) / ((1 : Int) : ℝ)))
        * 180 / Real.pi := by
  have hpi := Real.pi_pos
  have hsqrt : Real.sqrt 3 * Real.sqrt 3 = 3 := Real.mul_self_sqrt (by norm_num)
  have hsqrt_pos : 0 < Real.sqrt 3 := Real.sqrt_pos.mpr (by norm_num)
  have hcode : (loadCamera ⟨Real.tan, Real.arctan, Real.pi⟩ (3, 1) (60 : ℝ)).fov.1 < 90 := by
    show Real.arctan (Real.tan (60 * (Real.pi / 180)) * ((3 : Int) : ℝ) / ((1 : Int) : ℝ))
      * 180 / Real.pi < 90
    have h := Real.arctan_lt_pi_div_two
      (Real.tan (60 * (Real.pi / 180)) * ((3 : Int) : ℝ) / ((1 : Int) : ℝ))
    rw [div_lt_iff₀ hpi]
    linarith
  have hangle : (60 / 2 : ℝ) * Real.pi / 180 = Real.pi / 6 := by ring
  have harg : Real.tan (Real.pi / 6) * (((3 : Int) : ℝ) / ((1 : Int) : ℝ)) = Real.sqrt 3 := by
    rw [Real.tan_pi_div_six]
    push_cast
    field_simp
  have hatan : Real.arctan (Real.sqrt 3) = Real.pi / 3 := by
    rw [← Real.tan_pi_div_three]
    exact Real.arctan_tan (by linarith) (by linarith)
  have hclaim : 2 * Real.arctan (Real.tan ((60 / 2) * Real.pi / 180) *
      (((3 : Int) : ℝ) / ((1 : Int) : ℝ))) * 180 / Real.pi = 120 := by
    rw [hangle, harg, hatan]
    field_simp
    ring
  rw [hclaim]
  exact ne_of_lt (by linarith)

/-- C17, amended: for every camera with field `FOVY` = fovy (degrees) and resolution
`(w, h)`, `loadFromJSON` sets `fov.x` to `atan(tan(fovy * PI / 180) * (w / h)) * 180 / PI`:
the tangent is taken of fovy itself, not of its half, and the arctangent is not doubled; it
sets `fov.y` to fovy and `pixelLength` to `(2 * tan(fovy * PI / 180) * (w / h) / w,
2 * tan(fovy * PI / 180) / h)` (over the reals). -/
theorem C17_horizontal_fov (fovy : ℝ) (w h : Int) :
    (loadCamera ⟨Real.tan, Real.arctan, Real.pi⟩ (w, h) fovy).fov.1 =
      Real.arctan (Real.tan (fovy * Real.pi / 180) * ((w : ℝ) / (h : ℝ))) * 180 / Real.pi ∧
    (loadCamera ⟨Real.tan, Real.arctan, Real.pi⟩ (w, h) fovy).fov.2 = fovy ∧
    (loadCamera ⟨Real.tan, Real.arctan, Real.pi⟩ (w, h) fovy).pixelLength =
      (2 * (Real.tan (fovy * Real.pi / 180) * ((w : ℝ) / (h : ℝ))) / (w : ℝ),
        2 * Real.tan (fovy * Real.pi / 180) / (h : ℝ)) := by
  simp only [loadCamera, mul_div_assoc]
  exact ⟨trivial, trivial, trivial⟩

/-! ## Claims on the split, the size of the array and the triangle array -/

/-- The axis that `maxExtent` returns is one of 0, 1, 2, and no axis has a larger extent. -/
theorem maxExtent_is_largest (b : AABB) :
    b.maxExtent < 3 ∧ ∀ dim, dim < 3 →
      b.max.get dim - b.min.get dim ≤ b.max.get b.maxExtent - b.min.get b.maxExtent := by
  unfold AABB.maxExtent
  simp only []
  split_ifs with h1 h2
  · refine ⟨by omega, fun dim hd => ?_⟩
    have : dim = 0 ∨ dim = 1 ∨ dim = 2 := by omega
    rcases this with rfl | rfl | rfl <;> simp [Vec3.get] <;> linarith [h1.1, h1.2]
  · refine ⟨by omega, fun dim hd => ?_⟩
    have : dim = 0 ∨ dim = 1 ∨ dim = 2 := by omega
    rw [not_and_or, not_lt, not_lt] at h1
    rcases this with rfl | rfl | rfl <;> simp [Vec3.get] <;> rcases h1 with h1 | h1 <;> linarith
  · refine ⟨by omega, fun dim hd => ?_⟩
    have : dim = 0 ∨ dim = 1 ∨ dim = 2 := by omega
    rw [not_and_or, not_lt, not_lt] at h1
    rw [not_lt] at h2
    rcases this with rfl | rfl | rfl <;> simp [Vec3.get] <;> rcases h1 with h1 | h1 <;> linarith

/-- C18: for every triangle array and every maxLeafSize >= 1, every internal node of the
array produced by `buildBVH` covers a range `[lo, lo + k)` of the final `primInfos` with
`k > maxLeafSize`; the leaves below its left child tile the first `floor(k / 2)` positions
and those below its right child the remaining ones, and every primitive of the first part
has a centroid coordinate, along the axis `maxExtent` of the centroid box of the range, that
is at most that of every primitive of the second part. -/
theorem C18_median_split_orders_centroids (D : Decls) (fuel : Nat) (meshTris : List Triangle)
    (flattenedBVH : List BVHNode) (maxLeafSize : Nat)
    (hfuel : meshTris.length < fuel) (hm : 1 ≤ maxLeafSize) :
    ∃ (nodes : List BVHNode) (primInfos : List PrimitiveInfo),
      buildBVHWith D fuel meshTris flattenedBVH maxLeafSize = some (nodes, primInfos) ∧
      ∀ (i : Nat) (node : BVHNode), nodes[i]? = some node → node.isLeaf = false →
        ∃ (lo k : Nat) (belowLeft belowRight : List Nat),
          maxLeafSize < k ∧ lo + k ≤ primInfos.length ∧
          preorder nodes nodes.length node.left = some belowLeft ∧
          preorder nodes nodes.length node.right = some belowRight ∧
          Tiles (leafRanges nodes belowLeft) (lo : Int) ((lo + k / 2 : Nat) : Int) ∧
          Tiles (leafRanges nodes belowRight) ((lo + k / 2 : Nat) : Int)
            ((lo + k : Nat) : Int) ∧
          ∀ (p q : Nat) (a b : PrimitiveInfo), lo ≤ p → p < lo + k / 2 → lo + k / 2 ≤ q →
            q < lo + k → primInfos[p]? = some a → primInfos[q]? = some b →
            a.centroid.get (centroidBox D (slice primInfos lo (lo + k))).maxExtent ≤
              b.centroid.get (centroidBox D (slice primInfos lo (lo + k))).maxExtent := by
  obtain ⟨st, nodes, t, _, hbuild, _, _, hlent, hflat, hgood⟩ :=
    buildBVHWith_spec D fuel meshTris flattenedBVH maxLeafSize hfuel hm
  refine ⟨nodes, st.primInfos, hbuild, ?_⟩
  intro i node hnode hleaf
  have hi : i < t.size := by
    rw [← hlent]
    exact lt_length_of_getElem? hnode
  obtain ⟨t', X, P', Y, f', g', e', _, _⟩ :=
    node_traversal D maxLeafSize t hflat hgood i hi
  cases t' with
  | leaf b s r =>
    obtain ⟨n, hn, _, hl, _⟩ := f'
    rw [hnode] at hn
    rw [Option.some.inj hn, hl] at hleaf
    cases hleaf
  | node b tl tr =>
    obtain ⟨n, hn, _, _, hleft, hright, hfl, hfr⟩ := f'
    obtain ⟨hgt, _, hgl, hgr, hord⟩ := g'
    rw [hnode] at hn
    have hnn := Option.some.inj hn
    subst hnn
    obtain ⟨e1, e2, _, _⟩ := Good.half maxLeafSize hm P' hgt
    have hbl := Flat.bound tl _ hfl
    have hbr := Flat.bound tr _ hfr
    have htl := Good.tiles D maxLeafSize hm tl _ _ hgl
    have htr := Good.tiles D maxLeafSize hm tr _ _ hgr
    rw [e1] at htl
    rw [e2, show X.length + P'.length / 2 + (P'.length - P'.length / 2) =
      X.length + P'.length by omega] at htr
    have hslice : slice st.primInfos X.length (X.length + P'.length) = P' := by
      rw [e', slice_append]
    refine ⟨X.length, P'.length, List.range' (i + 1) tl.size,
      List.range' (i + 1 + tl.size) tr.size, hgt, ?_, ?_, ?_, ?_, ?_, ?_⟩
    · rw [e']
      simp only [List.length_append]
      omega
    · rw [hleft]
      exact preorder_of_flat tl (i + 1) nodes.length hfl (by omega)
    · rw [hright]
      exact preorder_of_flat tr (i + 1 + tl.size) nodes.length hfr (by omega)
    · rw [leafRanges_of_flat tl _ hfl]
      exact htl
    · rw [leafRanges_of_flat tr _ hfr]
      exact htr
    · intro p q a b hp1 hp2 hq1 hq2 ha hb
      rw [hslice]
      have hpa : P'[p - X.length]? = some a := by
        rw [← ha, e', List.getElem?_append_left (by rw [List.length_append]; omega),
          List.getElem?_append_right (by omega)]
      have hqb : P'[q - X.length]? = some b := by
        rw [← hb, e', List.getElem?_append_left (by rw [List.length_append]; omega),
          List.getElem?_append_right (by omega)]
      have hamem : a ∈ P'.take (P'.length / 2) := by
        refine List.mem_iff_getElem?.mpr ⟨p - X.length, ?_⟩
        rw [List.getElem?_take_of_lt (by omega)]
        exact hpa
      have hbmem : b ∈ P'.drop (P'.length / 2) := by
        refine List.mem_iff_getElem?.mpr ⟨q - X.length - P'.length / 2, ?_⟩
        rw [List.getElem?_drop, show P'.length / 2 + (q - X.length - P'.length / 2) =
          q - X.length by omega]
        exact hqb
      exact hord a hamem b hbmem

/-- The statement of C18 at three triangles, leaf size 1. -/
theorem C18_witness :
    sampleTris.length < 4 ∧ 1 ≤ 1 ∧
    ∃ (nodes : List BVHNode) (primInfos : List PrimitiveInfo),
      buildBVHWith refDecls 4 sampleTris [] 1 = some (nodes, primInfos) ∧
      ∀ (i : Nat) (node : BVHNode), nodes[i]? = some node → node.isLeaf = false →
        ∃ (lo k : Nat) (belowLeft belowRight : List Nat),
          1 < k ∧ lo + k ≤ primInfos.length ∧
          preorder nodes nodes.length node.left = some belowLeft ∧
          preorder nodes nodes.length node.right = some belowRight ∧
          Tiles (leafRanges nodes belowLeft) (lo : Int) ((lo + k / 2 : Nat) : Int) ∧
          Tiles (leafRanges nodes belowRight) ((lo + k / 2 : Nat) : Int)
            ((lo + k : Nat) : Int) ∧
          ∀ (p q : Nat) (a b : PrimitiveInfo), lo ≤ p → p < lo + k / 2 → lo + k / 2 ≤ q →
            q < lo + k → primInfos[p]? = some a → primInfos[q]? = some b →
            a.centroid.get (centroidBox refDecls (slice primInfos lo (lo + k))).maxExtent ≤
              b.centroid.get
                (centroidBox refDecls (slice primInfos lo (lo + k))).maxExtent :=
  ⟨by decide, by decide,
    C18_median_split_orders_centroids refDecls 4 sampleTris [] 1 (by decide) (by decide)⟩

theorem length_grow (D : Decls) (nodes : List BVHNode) (i : Nat) :
    nodes.length ≤ (grow D nodes i).length ∧
      (nodes.length ≤ i → nodes.length < (grow D nodes i).length) := by
  unfold grow
  split_ifs with h
  · rw [length_resize]
    exact ⟨by omega, fun _ => by omega⟩
  · exact ⟨Nat.le_refl _, fun h' => absurd h' h⟩

/-- No call shortens the array, and a call that takes the growth branch returns a longer
array than it was given. -/
theorem buildBVHRecursive_length (D : Decls) (mls : Nat) :
    ∀ (fuel : Nat) (st : BuildState) (start end_ : Nat) (st' : BuildState) (idx : Nat),
      buildBVHRecursive D fuel st start end_ mls = some (st', idx) →
      (grow D st.flattenedBVH st.totalNodes).length ≤ st'.flattenedBVH.length := by
  intro fuel
  induction fuel with
  | zero =>
    intro st start end_ st' idx h
    simp [buildBVHRecursive] at h
  | succ fuel ih =>
    intro st start end_ st' idx h
    by_cases hleaf : end_ - start ≤ mls
    · rw [buildBVHRecursive_leaf D fuel st start end_ mls hleaf] at h
      cases h
      simp [length_modifyNode]
    · rw [buildBVHRecursive_split D fuel st start end_ mls hleaf] at h
      split at h
      · cases h
      · rename_i stL l eqL
        split at h
        · cases h
        · rename_i stR r eqR
          cases h
          have h1 := ih _ _ _ _ _ eqL
          have h2 := ih _ _ _ _ _ eqR
          have g1 := (length_grow D
            (modifyNode (modifyNode (grow D st.flattenedBVH st.totalNodes) st.totalNodes
              (fun n => { n with bbox := rangeBox D (slice st.primInfos start end_) }))
              st.totalNodes (fun n => { n with isLeaf := false })) (st.totalNodes + 1)).1
          have g2 := (length_grow D
            (modifyNode stL.flattenedBVH st.totalNodes (fun n => { n with left := (l : Int) }))
            stL.totalNodes).1
          simp only [length_modifyNode] at h1 h2 g1 g2 ⊢
          omega

/-- C19: for every triangle array of n >= 1 triangles and every maxLeafSize >= 1, the call
of `buildBVHRecursive` made by `buildBVH` creates at most `2n - 1` nodes, fewer than the
`2n` slots that `buildBVH` has allocated, so every index it uses is below the size of the
array; and the array has `2n` slots after the call as before it, whereas a call that takes
the growth branch returns a longer array than it was given and no call returns a shorter
one: the growth branch is not taken, and no slot is relocated. -/
theorem C19_build_stays_in_allocated_array (D : Decls) (fuel : Nat)
    (meshTris : List Triangle) (flattenedBVH : List BVHNode) (maxLeafSize : Nat)
    (hn : 1 ≤ meshTris.length) (hfuel : meshTris.length < fuel) (hm : 1 ≤ maxLeafSize) :
    (∃ (st : BuildState),
      buildBVHRecursive D fuel
        ⟨collectPrimInfos D 0 meshTris,
          resize flattenedBVH (2 * meshTris.length) D.defaultNode, 0⟩ 0
        meshTris.length maxLeafSize = some (st, 0) ∧
      st.totalNodes ≤ 2 * meshTris.length - 1 ∧
      (resize flattenedBVH (2 * meshTris.length) D.defaultNode).length =
        2 * meshTris.length ∧
      st.totalNodes < (resize flattenedBVH (2 * meshTris.length) D.defaultNode).length ∧
      st.flattenedBVH.length =
        (resize flattenedBVH (2 * meshTris.length) D.defaultNode).length) ∧
    (∀ (fuel' : Nat) (st₀ : BuildState) (start end_ : Nat) (st₁ : BuildState) (idx : Nat),
      buildBVHRecursive D fuel' st₀ start end_ maxLeafSize = some (st₁, idx) →
      st₀.flattenedBVH.length ≤ st₁.flattenedBVH.length ∧
      (st₀.flattenedBVH.length ≤ st₀.totalNodes →
        st₀.flattenedBVH.length < st₁.flattenedBVH.length)) := by
  constructor
  · obtain ⟨st, t, eq, _, htot, hsize, hl, _, _⟩ :=
      build_call_spec D fuel meshTris flattenedBVH maxLeafSize hfuel hm
    rw [need_eq _ hn] at hsize
    rw [grow_of_lt _ _ _ (by rw [length_resize]; omega)] at hl
    refine ⟨st, eq, by omega, length_resize _ _ _, ?_, hl⟩
    rw [length_resize]
    omega
  · intro fuel' st₀ start end_ st₁ idx h
    have h1 := buildBVHRecursive_length D maxLeafSize fuel' st₀ start end_ st₁ idx h
    obtain ⟨g1, g2⟩ := length_grow D st₀.flattenedBVH st₀.totalNodes
    exact ⟨by omega, fun hle => by have := g2 hle; omega⟩

/-- The statement of C19 at three triangles, leaf size 1. -/
theorem C19_witness :
    1 ≤ sampleTris.length ∧ sampleTris.length < 4 ∧ 1 ≤ 1 ∧
    (∃ (st : BuildState),
      buildBVHRecursive refDecls 4
        ⟨collectPrimInfos refDecls 0 sampleTris,
          resize [] (2 * sampleTris.length) refDecls.defaultNode, 0⟩ 0
        sampleTris.length 1 = some (st, 0) ∧
      st.totalNodes ≤ 2 * sampleTris.length - 1 ∧
      (resize [] (2 * sampleTris.length) refDecls.defaultNode).length =
        2 * sampleTris.length ∧
      st.totalNodes < (resize [] (2 * sampleTris.length) refDecls.defaultNode).length ∧
      st.flattenedBVH.length =
        (resize [] (2 * sampleTris.length) refDecls.defaultNode).length) ∧
    (∀ (fuel' : Nat) (st₀ : BuildState) (start end_ : Nat) (st₁ : BuildState) (idx : Nat),
      buildBVHRecursive refDecls fuel' st₀ start end_ 1 = some (st₁, idx) →
      st₀.flattenedBVH.length ≤ st₁.flattenedBVH.length ∧
      (st₀.flattenedBVH.length ≤ st₀.totalNodes →
        st₀.flattenedBVH.length < st₁.flattenedBVH.length)) :=
  ⟨by decide, by decide, by decide,
    C19_build_stays_in_allocated_array refDecls 4 sampleTris [] 1 (by decide) (by decide)
      (by decide)⟩

theorem getElem?_collectPrimInfos (D : Decls) :
    ∀ (tris : List Triangle) (i : Nat) (p : PrimitiveInfo), p ∈ collectPrimInfos D i tris →
      i ≤ p.index ∧ (collectPrimInfos D i tris)[p.index - i]? = some p
  | [], _, _, h => by cases h
  | tri :: rest, i, p, h => by
    simp only [collectPrimInfos, List.mem_cons] at h
    rcases h with rfl | h
    · exact ⟨Nat.le_refl _, by simp [collectPrimInfos]⟩
    · obtain ⟨h1, h2⟩ := getElem?_collectPrimInfos D rest (i + 1) p h
      refine ⟨by omega, ?_⟩
      have : p.index - i = (p.index - (i + 1)) + 1 := by omega
      rw [this]
      simp only [collectPrimInfos, List.getElem?_cons_succ]
      exact h2

/-- C20: `buildBVH` returns the members of the scene as it found them, `meshTris` with the
same triangles in the same order; what the sort rearranges is the local array `primInfos`,
a permutation of the records made for the triangles, in which the entry at a position of a
leaf range is the record of the triangle of `meshTris` that its `index` names. -/
theorem C20_meshTris_unchanged (D : Decls) (fuel : Nat) (s : Members)
    (flattenedBVH : List BVHNode) (maxLeafSize : Nat)
    (hfuel : s.meshTris.length < fuel) (hm : 1 ≤ maxLeafSize) :
    ∃ (s' : Members) (nodes : List BVHNode) (primInfos : List PrimitiveInfo),
      buildBVHScene D fuel s flattenedBVH maxLeafSize = some (s', nodes, primInfos) ∧
      s' = s ∧ s'.meshTris = s.meshTris ∧
      primInfos.Perm (collectPrimInfos D 0 s.meshTris) ∧
      ∀ (p : Nat) (prim : PrimitiveInfo), primInfos[p]? = some prim →
        (collectPrimInfos D 0 s.meshTris)[prim.index]? = some prim := by
  obtain ⟨st, nodes, t, _, hbuild, hperm, _, _, _, _⟩ :=
    buildBVHWith_spec D fuel s.meshTris flattenedBVH maxLeafSize hfuel hm
  refine ⟨s, nodes, st.primInfos, by simp only [buildBVHScene, hbuild], rfl, rfl, hperm, ?_⟩
  intro p prim hp
  have hmem : prim ∈ collectPrimInfos D 0 s.meshTris :=
    hperm.subset (List.mem_iff_getElem?.mpr ⟨p, hp⟩)
  have := (getElem?_collectPrimInfos D s.meshTris 0 prim hmem).2
  rwa [Nat.sub_zero] at this

/-- The statement of C20 on the scene of three triangles, leaf size 1. -/
theorem C20_witness :
    (Members.mk [] [] sampleTris [] []).meshTris.length < 4 ∧ 1 ≤ 1 ∧
    ∃ (s' : Members) (nodes : List BVHNode) (primInfos : List PrimitiveInfo),
      buildBVHScene refDecls 4 (Members.mk [] [] sampleTris [] []) [] 1 =
        some (s', nodes, primInfos) ∧
      s' = Members.mk [] [] sampleTris [] [] ∧
      s'.meshTris = (Members.mk [] [] sampleTris [] []).meshTris ∧
      primInfos.Perm (collectPrimInfos refDecls 0 (Members.mk [] [] sampleTris [] []).meshTris) ∧
      ∀ (p : Nat) (prim : PrimitiveInfo), primInfos[p]? = some prim →
        (collectPrimInfos refDecls 0 (Members.mk [] [] sampleTris [] []).meshTris)[prim.index]? =
          some prim :=
  ⟨by decide, by decide,
    C20_meshTris_unchanged refDecls 4 (Members.mk [] [] sampleTris [] []) [] 1 (by decide)
      (by decide)⟩

/-- On the scene of three triangles the order of `primInfos` after the build is not that of
`meshTris`: position 1 of `primInfos` holds the record of triangle 2. -/
theorem buildBVHScene_reorders_sample :
    (buildBVHScene refDecls 4 (Members.mk [] [] sampleTris [] []) [] 1).map
      (fun r => (r.1.meshTris == sampleTris, r.2.2.map (fun p => p.index))) =
      some (true, [0, 2, 1]) := by
  decide!

end Scene
